import Mathlib

/-!
# Connection virtualization of DMTCP: file, pseudo-terminal, FIFO, standard streams and message queue

A shallow embedding of `src/plugin/conn/file/fileconnection.cpp` and of the
profiler plugin `src/contrib/profiler/profiler.c`.

Conventions of the embedding.

* The kernel is not part of the source.  Its answers to the system calls a
  function makes are inputs of the embedded function: either a finite script
  that is consumed call by call, or a field of an environment record.
* A byte is a natural number; a C array is a list of bytes whose length is
  the size of the array.  A store or load outside the array has no defined
  result in C and ends the run with `Abort.outOfBounds`.
* A failed `JASSERT` ends the run with `Abort.fatal`.
* `sizeof(int)` is 4 and the header of a packet is stored in two's
  complement, least significant byte first (Linux, x86).  The other counts
  (`int`, `ssize_t`, `size_t`) are integers; the one call site of the packet
  functions passes `maxCount = 10000`.
-/

namespace Dmtcp

/-- One byte of memory. -/
abbrev Byte := Nat

/-- The values of `errno` the code distinguishes, and some it does not. -/
inductive Errno
  | EAGAIN
  | EINTR
  | E2BIG
  | EINVAL
  | EBADF
  | EEXIST
  deriving DecidableEq, Repr

/-- Ways in which a run ends without returning to its caller. -/
inductive Abort
  /-- a `JASSERT` failed -/
  | fatal
  /-- a load or store outside the array the pointer points into -/
  | outOfBounds
  /-- the script of kernel answers ended while the code was asking -/
  | noAnswer
  /-- the iteration bound of an embedded loop was used up -/
  | bound
  /-- a `std::out_of_range` was thrown; nothing in the source catches it -/
  | outOfRange
  /-- a null pointer was dereferenced -/
  | nullPointer
  deriving DecidableEq, Repr

deriving instance DecidableEq for Except

/-! ## Memory -/

/-- Stores `bs` at offset `off` of the array `buf`. -/
def store (buf : List Byte) (off : Nat) (bs : List Byte) : Except Abort (List Byte) :=
  if off + bs.length ≤ buf.length then
    .ok (buf.take off ++ bs ++ buf.drop (off + bs.length))
  else .error .outOfBounds

/-- Loads `n` bytes from offset `off` of the array `buf`. -/
def load (buf : List Byte) (off n : Nat) : Except Abort (List Byte) :=
  if off + n ≤ buf.length then .ok ((buf.drop off).take n) else .error .outOfBounds

/-- The four bytes of an `int`, least significant first (`*(hdr *)buf = v`). -/
def encodeHdr (v : Int) : List Byte :=
  let u := (v % 4294967296).toNat
  [u % 256, u / 256 % 256, u / 65536 % 256, u / 16777216 % 256]

/-- The `int` held by four bytes (`*(hdr *)buf`). -/
def decodeHdr (bs : List Byte) : Int :=
  match bs with
  | [b0, b1, b2, b3] =>
    let u := b0 + 256 * b1 + 65536 * b2 + 16777216 * b3
    if u < 2147483648 then (u : Int) else (u : Int) - 4294967296
  | _ => 0

/-! ## Pseudo-terminal master: draining and replaying -/

/-- The answer of the kernel to one `read` on the master. -/
inductive ReadOutcome
  /-- the call returns these bytes (at most as many as were asked for) -/
  | data (bs : List Byte)
  /-- the call returns -1 and sets `errno` -/
  | error (e : Errno)
  deriving DecidableEq, Repr

/-- The answer of the kernel to one `write` on the master. -/
inductive WriteOutcome
  /-- the call takes up to `k` of the bytes offered and returns their number -/
  | accepts (k : Nat)
  /-- the call returns -1 and sets `errno` -/
  | error (e : Errno)
  deriving DecidableEq, Repr

/-- The master descriptor and the memory of the process around one drain or
replay.  `pending` are the answers to the coming `read` calls; the descriptor
is ready to read (`readyToRead`) as long as one is left.  `answers` are the
answers to the coming `write` calls.  `calls` lists the bytes each `write`
call offered, `written` the bytes the terminal took.  `mem` is the array
`buf` of the caller. -/
structure Master where
  pending : List ReadOutcome
  answers : List WriteOutcome
  calls : List (List Byte)
  written : List Byte
  errno : Errno
  mem : List Byte
  deriving DecidableEq, Repr

/-- The function `readyToRead`: a poll of the descriptor with `select`. -/
def readyToRead (s : Master) : Bool := !s.pending.isEmpty

/-- The count `maxCount - sizeof(hdr)` passed to `read`, a `size_t`. -/
def readCount (maxCount : Nat) : Nat :=
  if 4 ≤ maxCount then maxCount - 4 else 18446744073709551616 + maxCount - 4

/-- The loop of `readOnePacket`; `rc` is the value of the local `rc`, the
list is `pending`.
```
while (readyToRead(fd) && rc <= 0) {
  rc = read(fd,(char *)buf+sizeof(hdr), maxCount-sizeof(hdr));
  *(hdr *)buf = rc;
  if (rc >=(ssize_t) (maxCount-sizeof(hdr))) { rc = -1; errno = E2BIG; }
  if (rc == -1 && errno != EAGAIN && errno != EINTR) break;
}
``` -/
def readOnePacketLoop (maxCount off : Nat) :
    List ReadOutcome → Int → Master → Except Abort (Int × Master)
  | [], rc, s => .ok (rc, { s with pending := [] })
  | o :: rest, rc, s =>
    if rc ≤ 0 then
      let got : List Byte :=
        match o with
        | .data bs => bs.take (readCount maxCount)
        | .error _ => []
      let rc1 : Int :=
        match o with
        | .data _ => (got.length : Int)
        | .error _ => -1
      let errno1 : Errno :=
        match o with
        | .data _ => s.errno
        | .error e => e
      match store s.mem (off + 4) got with
      | .error a => .error a
      | .ok mem1 =>
        match store mem1 off (encodeHdr rc1) with
        | .error a => .error a
        | .ok mem2 =>
          let big : Bool := decide ((maxCount : Int) - 4 ≤ rc1)
          let rc2 : Int := if big then -1 else rc1
          let errno2 : Errno := if big then Errno.E2BIG else errno1
          let s2 : Master := { s with mem := mem2, errno := errno2 }
          if rc2 = -1 ∧ errno2 ≠ Errno.EAGAIN ∧ errno2 ≠ Errno.EINTR then
            .ok (rc2, { s2 with pending := rest })
          else readOnePacketLoop maxCount off rest rc2 s2
    else .ok (rc, { s with pending := o :: rest })

/-- The function `readOnePacket(fd, buf, maxCount)` with `buf` at offset `off`
of the array: returns 0 if not ready to read, else -1, or the size read
including the header. -/
def readOnePacket (maxCount off : Nat) (s : Master) : Except Abort (Int × Master) :=
  match readOnePacketLoop maxCount off s.pending 0 s with
  | .error a => .error a
  | .ok (rc, s1) => .ok (if rc ≤ 0 then rc else rc + 4, s1)

/-- The loop `while ((rc = readOnePacket(fd, buf, maxCount)) > 0) buf += rc;`
of `ptmxReadAll`, with `buf` at offset `off`.  Every round that continues has
consumed an answer of `pending`, so `pending.length + 1` rounds suffice. -/
def ptmxReadAllLoop (maxCount : Nat) : Nat → Nat → Master → Except Abort (Int × Nat × Master)
  | 0, _, _ => .error .bound
  | fuel + 1, off, s =>
    match readOnePacket maxCount off s with
    | .error a => .error a
    | .ok (rc, s1) =>
      if 0 < rc then ptmxReadAllLoop maxCount fuel (off + rc.toNat) s1
      else .ok (rc, off, s1)

/-- The function `ptmxReadAll(fd, origBuf, maxCount)`; `origBuf` is offset 0 of
`s.mem`.  A negative result is an error, otherwise the result is the number of
bytes saved, the closing header included. -/
def ptmxReadAll (maxCount : Nat) (s : Master) : Except Abort (Int × Master) :=
  match ptmxReadAllLoop maxCount (s.pending.length + 1) 0 s with
  | .error a => .error a
  | .ok (rc, off, s1) =>
    match store s1.mem off (encodeHdr 0) with
    | .error a => .error a
    | .ok mem2 =>
      if rc < 0 ∨ 0 < ((off + 4 : Nat) : Int) then
        .ok (if rc < 0 then rc else ((off + 4 : Nat) : Int), { s1 with mem := mem2 })
      else .error .fatal

/-- The loop of `writeOnePacket`; the list is `answers`, then come the locals
`cum_count` and `rc`.
```
while (cum_count < count) {
  rc = write(fd,(char *)origBuf+sizeof(hdr)+cum_count, count-cum_count);
  if (rc == -1 && errno != EAGAIN && errno != EINTR) break;
  if (rc >= 0) cum_count += rc;
}
``` -/
def writeOnePacketLoop (off : Nat) (count : Int) :
    List WriteOutcome → Int → Int → Master → Except Abort (Int × Int × Master)
  | [], cum, rc, s =>
    if cum < count then .error .noAnswer else .ok (cum, rc, { s with answers := [] })
  | a :: rest, cum, rc, s =>
    if cum < count then
      match load s.mem (off + 4 + cum.toNat) (count - cum).toNat with
      | .error e => .error e
      | .ok offered =>
        match a with
        | .accepts k =>
          let taken := offered.take k
          writeOnePacketLoop off count rest (cum + (taken.length : Int)) (taken.length : Int)
            { s with calls := s.calls ++ [offered], written := s.written ++ taken }
        | .error e =>
          let s1 : Master := { s with calls := s.calls ++ [offered], errno := e }
          if e ≠ Errno.EAGAIN ∧ e ≠ Errno.EINTR then .ok (cum, -1, { s1 with answers := rest })
          else writeOnePacketLoop off count rest cum (-1) s1
    else .ok (cum, rc, { s with answers := a :: rest })

/-- The function `writeOnePacket(fd, origBuf, isPacketMode)` with `origBuf` at
offset `off` of the array: returns the size of `origBuf` consumed, header
included. -/
def writeOnePacket (off : Nat) (isPacketMode : Bool) (s : Master) : Except Abort (Int × Master) :=
  match load s.mem off 4 with
  | .error a => .error a
  | .ok h =>
    let count : Int := decodeHdr h
    if count = 0 then .ok (4, s)
    else if count = 1 ∧ isPacketMode = true then .ok (4 + 1, s)
    else
      match writeOnePacketLoop off count s.answers 0 0 s with
      | .error a => .error a
      | .ok (cum_count, rc, s1) =>
        if rc ≠ 0 ∧ cum_count = count then .ok (if rc < 0 then rc else cum_count + 4, s1)
        else .error .fatal

/-- The loop `while ((rc = writeOnePacket(fd,(char *)buf+cum_count, isPacketMode))
> (ssize_t)sizeof(hdr)) cum_count += rc;` of `ptmxWriteAll`.  Every round that
continues has moved `cum_count` forward inside the array, so `mem.length + 1`
rounds suffice. -/
def ptmxWriteAllLoop (isPacketMode : Bool) :
    Nat → Nat → Master → Except Abort (Int × Nat × Master)
  | 0, _, _ => .error .bound
  | fuel + 1, cum_count, s =>
    match writeOnePacket cum_count isPacketMode s with
    | .error a => .error a
    | .ok (rc, s1) =>
      if 4 < rc then ptmxWriteAllLoop isPacketMode fuel (cum_count + rc.toNat) s1
      else .ok (rc, cum_count, s1)

/-- The function `ptmxWriteAll(fd, buf, isPacketMode)`; `buf` is offset 0 of
`s.mem`. -/
def ptmxWriteAll (isPacketMode : Bool) (s : Master) : Except Abort (Int × Master) :=
  match ptmxWriteAllLoop isPacketMode (s.mem.length + 1) 0 s with
  | .error a => .error a
  | .ok (rc, cum_count, s1) =>
    if rc < 0 ∨ rc = 4 then .ok (if rc ≤ 0 then rc else ((cum_count + 4 : Nat) : Int), s1)
    else .error .fatal

/-- What the terminal answers during `ptmxTestPacketMode`: whether the master
is still readable after the two flushes, the result of the `read` that then
removes the stale command byte, the result of the `read` that follows the
write of `'x'` to the slave, and the first two bytes of `tmp_buf` after it. -/
structure Probe where
  staleReady : Bool
  staleRc : Int
  rc : Int
  tmp0 : Byte
  tmp1 : Byte
  deriving DecidableEq, Repr

/-- The function `ptmxTestPacketMode(masterFd)`; `TIOCPKT_DATA` is 0 and
`'x'` is 120. -/
def ptmxTestPacketMode (p : Probe) : Except Abort Bool :=
  if p.staleReady = true ∧ p.staleRc ≠ 1 then .error .fatal
  else .ok (decide (p.rc = 2 ∧ p.tmp0 = 0 ∧ p.tmp1 = 120))

/-- The roles of a pseudo-terminal connection. -/
inductive PtyType
  | PTY_INVALID
  | PTY_DEV_TTY
  | PTY_CTTY
  | PTY_MASTER
  | PTY_SLAVE
  | PTY_BSD_MASTER
  | PTY_BSD_SLAVE
  deriving DecidableEq, Repr

/-- The fields of `PtyConnection` that `preCheckpoint` reads or writes. -/
structure PtyConnection where
  type : PtyType
  ptmxIsPacketMode : Bool
  deriving DecidableEq, Repr

/-- The method `PtyConnection::preCheckpoint`.  The local array
`char buf[maxCount]`, `maxCount = 10000`, is `s.mem`. -/
def PtyConnection.preCheckpoint (c : PtyConnection) (p : Probe) (s : Master) :
    Except Abort (PtyConnection × Master) :=
  if c.type = PtyType.PTY_MASTER then
    match ptmxReadAll 10000 s with
    | .error a => .error a
    | .ok (numRead, s1) =>
      match ptmxTestPacketMode p with
      | .error a => .error a
      | .ok isPacketMode =>
        match ptmxWriteAll isPacketMode s1 with
        | .error a => .error a
        | .ok (numWritten, s2) =>
          if numRead = numWritten then .ok ({ c with ptmxIsPacketMode := isPacketMode }, s2)
          else .error .fatal
  else .ok (c, s)

/-! ### Chunk streams -/

/-- The bytes of a chunk stream: each chunk is its length in a header, then its bytes. -/
def encodeStream (chunks : List (List Byte)) : List Byte :=
  (chunks.map (fun c => encodeHdr (c.length : Int) ++ c)).flatten

/-- The length of the stream of these chunks, `sum (4 + n_i)`. -/
def streamLen (chunks : List (List Byte)) : Nat :=
  (chunks.map (fun c => 4 + c.length)).sum

/-- The bytes one answer of `read` delivers. -/
def ReadOutcome.payload : ReadOutcome → List Byte
  | .data bs => bs
  | .error _ => []

/-- The chunks of a drain: the reads that delivered at least one byte. -/
def chunksOf (reads : List ReadOutcome) : List (List Byte) :=
  (reads.map ReadOutcome.payload).filter (fun c => !c.isEmpty)

/-- The bytes drained: everything the reads delivered, in order. -/
def drained (reads : List ReadOutcome) : List Byte :=
  (reads.map ReadOutcome.payload).flatten

/-! ## FIFO connection -/

/-- The fields of `FifoConnection` that capture and replay read or write. -/
structure FifoConnection where
  fds : List Int
  fcntlFlags : Nat
  ckptfd : Int
  in_data : List Byte
  deriving DecidableEq, Repr

/-- The loop `while (1)` of `FifoConnection::preCheckpoint`: every `read` asks
for `bufsize = 256` bytes, a negative result ends the loop, the bytes of any
other result are pushed onto `_in_data`.  The list holds the answers to the
coming `read` calls; the answers not consumed are returned. -/
def fifoFlush : List ReadOutcome → List Byte → Except Abort (List Byte × List ReadOutcome)
  | [], _ => .error .noAnswer
  | .error _ :: rest, in_data => .ok (in_data, rest)
  | .data bs :: rest, in_data => fifoFlush rest (in_data ++ bs.take 256)

/-- The method `FifoConnection::preCheckpoint`.  `openFd` is the result of the
`_real_open` of the private duplicate, `reads` the answers to its reads. -/
def FifoConnection.preCheckpoint (c : FifoConnection) (openFd : Int)
    (reads : List ReadOutcome) : Except Abort (FifoConnection × List ReadOutcome) :=
  if 0 < c.fds.length then
    if 0 ≤ openFd then
      match fifoFlush reads [] with
      | .error a => .error a
      | .ok (in_data, rest) => .ok ({ c with ckptfd := openFd, in_data := in_data }, rest)
    else .error .fatal
  else .error .fatal

/-- The loop `for (size_t i=0;i<(_in_data.size()/bufsize);i++)` of
`FifoConnection::refill`, with `n` rounds left and `i` the index of the round:
`buf` receives `_in_data[i*bufsize .. i*bufsize + bufsize)` and is handed to
`Util::writeAll`, whose result must be `bufsize`.  `writeAll k bs` is the
result of the `k`-th call of `Util::writeAll`, made with the bytes `bs`;
`calls` lists the bytes of the calls made so far. -/
def fifoRefillLoop (in_data : List Byte) (writeAll : Nat → List Byte → Int) :
    Nat → Nat → List (List Byte) → Except Abort (List (List Byte))
  | 0, _, calls => .ok calls
  | n + 1, i, calls =>
    let buf := (in_data.drop (i * 256)).take 256
    let ret := writeAll calls.length buf
    if ret = 256 then fifoRefillLoop in_data writeAll n (i + 1) (calls ++ [buf])
    else .error .fatal

/-- The method `FifoConnection::refill`, up to the release of the lock and
`restoreOptions`: returns the connection and the bytes of every call of
`Util::writeAll`, in order. -/
def FifoConnection.refill (c : FifoConnection) (openFd : Int)
    (writeAll : Nat → List Byte → Int) : Except Abort (FifoConnection × List (List Byte)) :=
  if 0 ≤ openFd then
    match fifoRefillLoop c.in_data writeAll (c.in_data.length / 256) 0 [] with
    | .error a => .error a
    | .ok calls =>
      let start := (c.in_data.length / 256) * 256
      let j := c.in_data.length % 256
      let buf := (c.in_data.drop start).take j
      let ret := writeAll calls.length buf
      if ret = (j : Int) then .ok ({ c with ckptfd := openFd }, calls ++ [buf])
      else .error .fatal
  else .error .fatal

/-! ## File connection -/

/-- A C++ string: its characters. -/
abbrev Str := List Char

/-- The classification of a file connection. -/
inductive FileType
  | FILE_INVALID
  | FILE_REGULAR
  | FILE_PROCFS
  | FILE_DELETED
  | FILE_BATCH_QUEUE
  deriving DecidableEq, Repr

/-- The fields of `struct stat` the code reads from `_stat`. -/
structure Stat where
  st_size : Int
  st_uid : Nat
  deriving DecidableEq, Repr

/-- The fields of `FileConnection`. -/
structure FileConnection where
  conId : Nat
  fds : List Int
  fcntlFlags : Nat
  type : FileType
  path : Str
  rel_path : Str
  ckptFilesDir : Str
  offset : Int
  stat : Stat
  checkpointed : Bool
  rmtype : Nat
  deriving DecidableEq, Repr

/-- What `stat(path, &buf)` reports of a file on disk: `S_ISREG(buf.st_mode)`
and `buf.st_size`. -/
structure Inode where
  isReg : Bool
  size : Int
  deriving DecidableEq, Repr

/-- The warnings (`JWARNING`) of the file connection. -/
inductive Warning
  /-- Message "Size of file smaller than what we expected" -/
  | sizeSmaller
  /-- Message "No lseek done:  offset is larger than min of old and new size." -/
  | noLseek
  /-- Test `access(_path.c_str(), W_OK) == 0` failed for a `.nfs` file -/
  | nfsNotWritable
  deriving DecidableEq, Repr

/-- The calls a file connection makes that change the world or are asked
about by the specification, in the order they are made. -/
inductive Event
  /-- entry of `FileConnection::saveFile(fd)` -/
  | saveFile (fd : Int)
  | truncate (path : Str) (length : Int)
  /-- Call `lseek(fd, offset, SEEK_SET)` -/
  | lseek (fd : Int) (offset : Int)
  | open (path : Str) (flags : Nat)
  /-- Call `Util::dupFds(fd, fds)` -/
  | dupFds (fd : Int) (fds : List Int)
  | mkdir (path : Str)
  /-- Call `_real_system(command)` -/
  | system (command : Str)
  /-- the loop of `saveFile` that copies a deleted file from its descriptor -/
  | copyFromFd (fd : Int) (dest : Str)
  /-- Call `dmtcp_bq_restore_file(path, savedFilePath, fcntlFlags, rmtype)` -/
  | bqRestoreFile (path savedFilePath : Str) (flags rmtype : Nat)
  | warning (w : Warning)
  /-- Call `Connection::restoreOptions()` -/
  | restoreOptions
  deriving DecidableEq, Repr

/-- The answers of the kernel, of the C library and of the rest of DMTCP to
the calls of a file connection. -/
structure Kernel where
  /-- Result of `jalib::Filesystem::GetCWD()` -/
  cwd : Str
  /-- Result of `getpid()` -/
  pid : Int
  /-- Result of `getuid()` -/
  uid : Nat
  /-- Result of `dmtcp_get_tmpdir()` -/
  tmpdir : Str
  /-- Result of `jalib::Filesystem::GetProgramName()` -/
  progName : Str
  /-- Test `getenv(ENV_VAR_CKPT_OPEN_FILES) != NULL` -/
  ckptOpenFiles : Bool
  /-- Result of `UniquePid::getCkptFilesSubDir()` -/
  ckptFilesSubDir : Str
  /-- Result of `jalib::Filesystem::ResolveSymlink(path)` -/
  resolveSymlink : Str → Str
  /-- the weak symbol `dmtcp_bq_should_ckpt_file`, if it is present: its
  result and the value it stores through `&_rmtype` -/
  bqShouldCkpt : Option (Str → Bool × Nat)
  /-- the weak symbol `dmtcp_bq_restore_file`, if it is present -/
  bqRestore : Option (Str → Str → Nat → Nat → Int)
  /-- Result of `lseek(fd, 0, SEEK_CUR)` -/
  lseekCur : Int → Int
  /-- Result of `fstat(fd, &_stat)` -/
  fstat : Int → Stat
  /-- the result of `truncate(path, length)` -/
  truncateRet : Str → Int → Int
  /-- the result of `_real_open(path, flags)` -/
  openRet : Str → Nat → Int
  /-- the result of `lseek(fd, offset, SEEK_SET)` -/
  lseekSet : Int → Int → Int
  /-- the result of `mkdir(path, mode)` and `errno` after it -/
  mkdirRet : Str → Int × Errno
  /-- the result of `_real_system(command)` -/
  systemRet : Str → Int
  /-- Test `access(path, W_OK) == 0` -/
  accessW : Str → Bool
  /-- whether the copy loop of `saveFile` passes its three assertions -/
  copyFromFdOk : Int → Str → Bool

/-- The connection, the files on disk (`stat(path, &buf)` succeeds on exactly
the paths that have an inode) and the calls made so far. -/
structure Sys where
  conn : FileConnection
  disk : Str → Option Inode
  trace : List Event

/-- A step of a method: from the state to the result, or the reason of the
abort, and the state then. -/
def FM (α : Type) : Type := Sys → Except Abort α × Sys

/-- The step that returns `a` and changes nothing. -/
def FM.ret {α : Type} (a : α) : FM α := fun s => (.ok a, s)

/-- The step `m`, then, unless it aborted, the step `f` of its result. -/
def FM.andThen {α β : Type} (m : FM α) (f : α → FM β) : FM β := fun s =>
  match m s with
  | (.ok a, s1) => f a s1
  | (.error e, s1) => (.error e, s1)

instance : Monad FM where
  pure := FM.ret
  bind := FM.andThen

/-- Records a call. -/
def emit (e : Event) : FM Unit := fun s => (.ok (), { s with trace := s.trace ++ [e] })

/-- Ends the run. -/
def abort {α : Type} (a : Abort) : FM α := fun s => (.error a, s)

/-- The macro `JASSERT(b)`: the run ends if `b` is false. -/
def JASSERT (b : Bool) : FM Unit := fun s => if b then (.ok (), s) else (.error .fatal, s)

/-- The macro `JWARNING(b)`: a warning is logged if `b` is false. -/
def JWARNING (b : Bool) (w : Warning) : FM Unit :=
  fun s => if b then (.ok (), s) else (.ok (), { s with trace := s.trace ++ [.warning w] })

/-- Reads `*this`. -/
def getConn : FM FileConnection := fun s => (.ok s.conn, s)

/-- Writes `*this`. -/
def modifyConn (f : FileConnection → FileConnection) : FM Unit :=
  fun s => (.ok (), { s with conn := f s.conn })

/-- The call `stat(path, &buf)`: `none` if it fails. -/
def statPath (path : Str) : FM (Option Inode) := fun s => (.ok (s.disk path), s)

/-- Modelled from the spec: `jalib::Filesystem::FileExists(path)` of
jalib/jfilesystem.cpp, "the path exists": `stat` succeeds on it. -/
def FileExists (path : Str) : FM Bool := fun s => (.ok (s.disk path).isSome, s)

/-- Replaces the inode of `path` on disk. -/
def setInode (path : Str) (i : Option Inode) : FM Unit :=
  fun s => (.ok (), { s with disk := fun p => if p = path then i else s.disk p })

/-- The element `_fds[0]`; reading it from an empty vector is undefined. -/
def fds0 : FM Int := fun s =>
  match s.conn.fds with
  | fd :: _ => (.ok fd, s)
  | [] => (.error .outOfBounds, s)

/-- Modelled from the spec: `Util::strStartsWith(str, pattern)` of
util_misc.cpp, "paths under": `pattern` is a prefix of `str`. -/
def strStartsWith (str pattern : Str) : Bool := pattern.isPrefixOf str

/-- Modelled from the spec: `Util::strEndsWith(str, pattern)` of
util_misc.cpp: `pattern` is a suffix of `str`. -/
def strEndsWith (str pattern : Str) : Bool := pattern.isSuffixOf str

/-- Modelled from the spec: `jalib::Filesystem::BaseName(path)` of
jalib/jfilesystem.cpp, the "base name": what follows the last `'/'`. -/
def BaseName (path : Str) : Str := (path.reverse.takeWhile (fun c => c ≠ '/')).reverse

/-- Modelled from the spec: `jalib::XToString(n)` of jalib/jconvert.h, the
decimal digits of `n`. -/
def XToString (n : Int) : Str := (toString n).toList

/-- Modelled from the spec: the macro `DELETED_FILE_SUFFIX` of
fileconnection.h, the "`(deleted)`-style marker" that /proc/self/fd appends to
the name of an unlinked file. -/
def DELETED_FILE_SUFFIX : Str := " (deleted)".toList

/-- The flag `O_WRONLY` of fcntl.h. -/
def O_WRONLY : Nat := 1

/-- The flag `O_RDWR` of fcntl.h. -/
def O_RDWR : Nat := 2

/-- The function `_isVimApp`, which computes its answer from the program name
at the first call and keeps it. -/
def _isVimApp (k : Kernel) : Bool :=
  k.progName = "vi".toList || k.progName = "vim".toList || k.progName = "vim-normal".toList ||
  k.progName = "vim.basic".toList || k.progName = "vim.tiny".toList ||
  k.progName = "vim.gtk".toList || k.progName = "vim.gnome".toList

/-- The function `_isBlacklistedFile`. -/
def _isBlacklistedFile (k : Kernel) (path : Str) : Bool :=
  (strStartsWith path "/dev/".toList && !strStartsWith path "/dev/shm/".toList) ||
  strStartsWith path "/proc/".toList ||
  strStartsWith path k.tmpdir

/-- The method `std::string::substr(pos)`: throws if `pos > size()`. -/
def substrFrom (s : Str) (pos : Nat) : FM Str :=
  if pos ≤ s.length then pure (s.drop pos) else abort .outOfRange

/-- The method `FileConnection::updatePath`. -/
def FileConnection.updatePath (k : Kernel) : FM Unit := do
  let fd ← fds0
  let link := "/proc/self/fd/".toList ++ XToString fd
  let linkExists ← FileExists link
  if linkExists then modifyConn (fun c => { c with path := k.resolveSymlink link })
  else pure ()

/-- The method `FileConnection::handleUnlinkedFile`. -/
def FileConnection.handleUnlinkedFile (k : Kernel) : FM Unit := do
  let c ← getConn
  let pathExists ← FileExists c.path
  if !pathExists && !_isBlacklistedFile k c.path then do
    FileConnection.updatePath k
    let c1 ← getConn
    if strEndsWith c1.path DELETED_FILE_SUFFIX then
      modifyConn (fun c => { c with
        path := c.path.take (c.path.length - DELETED_FILE_SUFFIX.length),
        type := FileType.FILE_DELETED })
    else JASSERT (decide (c1.type = FileType.FILE_DELETED))
  else if strStartsWith (BaseName c.path) ".nfs".toList then do
    JWARNING (k.accessW c.path) Warning.nfsNotWritable
    modifyConn (fun c => { c with type := FileType.FILE_DELETED })
  else pure ()

/-- The method `FileConnection::calculateRelativePath`.  The comparison
`_path.compare(0, cwd.length(), cwd) == 0` holds when the first
`cwd.length()` characters of `_path` are `cwd`. -/
def FileConnection.calculateRelativePath (k : Kernel) : FM Unit := do
  let c ← getConn
  if c.path.take k.cwd.length = k.cwd then do
    let rel ← substrFrom c.path (k.cwd.length + 1)
    modifyConn (fun c => { c with rel_path := rel })
  else modifyConn (fun c => { c with rel_path := "*".toList })

/-- The method `FileConnection::getSavedFilePath`; the stream `os` writes the
connection identifier in decimal digits. -/
def FileConnection.getSavedFilePath (c : FileConnection) : Str :=
  c.ckptFilesDir ++ "/".toList ++ BaseName c.path ++ "_".toList ++ (toString c.conId).toList

/-- The loop of `CreateDirectoryStructure`: `rest` is `path` from `index` on;
every `'/'` found at an `index > 1` makes the directory `path.substr(0, index)`.
```
index = path.find('/');
while (index != dmtcp::string::npos) {
  if (index > 1) {
    dmtcp::string dirName = path.substr(0, index);
    int res = mkdir(dirName.c_str(), S_IRWXU | S_IRWXG | S_IROTH | S_IXOTH);
    JASSERT(res != -1 || errno==EEXIST) (dirName) (path) ...
  }
  index = path.find('/', index+1);
}
``` -/
def createDirectoryLoop (k : Kernel) (path : Str) : List Char → Nat → FM Unit
  | [], _ => pure ()
  | ch :: rest, index => do
    (if ch = '/' ∧ 1 < index then do
      emit (Event.mkdir (path.take index))
      JASSERT (decide ((k.mkdirRet (path.take index)).1 ≠ -1) ||
        decide ((k.mkdirRet (path.take index)).2 = Errno.EEXIST))
      (if (k.mkdirRet (path.take index)).1 ≠ -1 then
        setInode (path.take index) (some { isReg := false, size := 0 })
      else pure ())
    else pure ())
    createDirectoryLoop k path rest (index + 1)

/-- The function `CreateDirectoryStructure`. -/
def CreateDirectoryStructure (k : Kernel) (path : Str) : FM Unit :=
  if '/' ∈ path then createDirectoryLoop k path path 0 else pure ()

/-- The function `CopyFile`: runs `cp -f src dest` with `_real_system`.  A
result 0 means that `cp` made `dest` a copy of `src`. -/
def CopyFile (k : Kernel) (src dest : Str) : FM Unit := do
  let command := "cp -f ".toList ++ src ++ " ".toList ++ dest
  emit (Event.system command)
  JASSERT (decide (k.systemRet command ≠ -1))
  if k.systemRet command = 0 then do
    let i ← statPath src
    match i with
    | some inode => setInode dest (some inode)
    | none => pure ()
  else pure ()

/-- The method `FileConnection::openFile`. -/
def FileConnection.openFile (k : Kernel) : FM Int := do
  let c ← getConn
  let pathExists ← FileExists c.path
  JASSERT pathExists
  emit (Event.open c.path c.fcntlFlags)
  let fd := k.openRet c.path c.fcntlFlags
  JASSERT (decide (fd ≠ -1))
  pure fd

/-- The method `FileConnection::saveFile(fd)` after the statement
`_checkpointed = true`: the copy of the content to the saved file path.  The
loop that copies a deleted file from its descriptor is one event. -/
def FileConnection.saveFileCopy (k : Kernel) (fd : Int) : FM Unit := do
  let c ← getConn
  CreateDirectoryStructure k c.getSavedFilePath
  let pathExists ← FileExists c.path
  if c.type = FileType.FILE_REGULAR ∨ pathExists = true then
    CopyFile k c.path c.getSavedFilePath
  else do
    (if c.type = FileType.FILE_DELETED then do
      emit (Event.copyFromFd fd c.getSavedFilePath)
      JASSERT (k.copyFromFdOk fd c.getSavedFilePath)
    else pure ())
    emit (Event.lseek fd c.offset)
    JASSERT (decide (k.lseekSet fd c.offset ≠ -1))

/-- The call `saveFile(_fds[0])` of the method `FileConnection::saveFile`. -/
def FileConnection.saveFile (k : Kernel) : FM Unit := do
  let fd ← fds0
  emit (Event.saveFile fd)
  modifyConn (fun c => { c with checkpointed := true })
  FileConnection.saveFileCopy k fd

/-- The test `_type == FILE_BATCH_QUEUE && dmtcp_bq_should_ckpt_file &&
dmtcp_bq_should_ckpt_file(_path.c_str(), &_rmtype)`: `none` if the callback is
not called, else its result and the value it stores in `_rmtype`. -/
def bqShouldCkptFile (k : Kernel) (c : FileConnection) : Option (Bool × Nat) :=
  if c.type = FileType.FILE_BATCH_QUEUE then
    match k.bqShouldCkpt with
    | some f => some (f c.path)
    | none => none
  else none

/-- The decision of `FileConnection::preCheckpoint` whether to copy the
content: the method from the test of `FILE_BATCH_QUEUE` to its end.  The test
`Util::strEndsWith(_path, ".swp") == 0` holds when the path does not end with
".swp". -/
def FileConnection.captureDecision (k : Kernel) : FM Unit := do
  let c ← getConn
  (match bqShouldCkptFile k c with
    | some (_, rmtype) => modifyConn (fun c => { c with rmtype := rmtype })
    | none => pure ())
  if (match bqShouldCkptFile k c with
      | some (agrees, _) => agrees
      | none => false) = true then
    FileConnection.saveFile k
  else if _isBlacklistedFile k c.path = true then pure ()
  else if k.ckptOpenFiles = true ∧ c.stat.st_uid = k.uid then FileConnection.saveFile k
  else if c.type = FileType.FILE_DELETED then FileConnection.saveFile k
  else if _isVimApp k = true ∧
      (strEndsWith c.path ".swp".toList = false ∨ strEndsWith c.path ".swo".toList = false) then
    FileConnection.saveFile k
  else if strStartsWith k.progName "emacs".toList = true then FileConnection.saveFile k
  else pure ()

/-- The start of `FileConnection::preCheckpoint`, up to `fstat`: the
classification of an unlinked file, the relative path, the directory of the
saved copies, the offset and the metadata. -/
def FileConnection.captureMetadata (k : Kernel) : FM Unit := do
  let c ← getConn
  JASSERT (decide (0 < c.fds.length))
  FileConnection.handleUnlinkedFile k
  FileConnection.calculateRelativePath k
  let fd ← fds0
  modifyConn (fun c => { c with
    ckptFilesDir := k.ckptFilesSubDir, offset := k.lseekCur fd, stat := k.fstat fd })

/-- The method `FileConnection::preCheckpoint`. -/
def FileConnection.preCheckpoint (k : Kernel) : FM Unit := do
  FileConnection.captureMetadata k
  FileConnection.captureDecision k

/-- The function `isspace` of the C locale. -/
def isSpaceC (c : Char) : Bool :=
  c = ' ' || (9 ≤ c.toNat && c.toNat ≤ 13)

/-- The value of a character as a digit of `strtol`. -/
def digitValue (c : Char) : Option Nat :=
  if 48 ≤ c.toNat ∧ c.toNat ≤ 57 then some (c.toNat - 48)
  else if 97 ≤ c.toNat ∧ c.toNat ≤ 122 then some (c.toNat - 87)
  else if 65 ≤ c.toNat ∧ c.toNat ≤ 90 then some (c.toNat - 55)
  else none

/-- The digits of `strtol`: reads digits of the base as long as there are
some; returns the value, the number of digits read and the rest. -/
def strtolDigits (base : Nat) : List Char → Nat → Nat → Nat × Nat × List Char
  | [], acc, n => (acc, n, [])
  | c :: cs, acc, n =>
    match digitValue c with
    | some d =>
      if d < base then strtolDigits base cs (acc * base + d) (n + 1) else (acc, n, c :: cs)
    | none => (acc, n, c :: cs)

/-- The function `strtol(nptr, &rest, 0)` of the C library: white space, an
optional sign, an optional `0x` (base 16) or `0` (base 8), digits; the value
is clamped to the range of `long`.  Returns the value and `rest`; without
digits the value is 0 and `rest` is `nptr`. -/
def strtol (nptr : Str) : Int × Str :=
  let s1 := nptr.dropWhile isSpaceC
  let neg : Bool := s1.head? = some '-'
  let s2 : Str :=
    match s1 with
    | '-' :: r => r
    | '+' :: r => r
    | _ => s1
  let hex : Bool :=
    match s2 with
    | '0' :: x :: h :: _ =>
      (x = 'x' || x = 'X') &&
        (match digitValue h with
         | some d => decide (d < 16)
         | none => false)
    | _ => false
  let base : Nat := if hex then 16 else if s2.head? = some '0' then 8 else 10
  let s3 : Str := if hex then s2.drop 2 else s2
  let r := strtolDigits base s3 0 0
  if r.2.1 = 0 then (0, nptr)
  else
    let v : Int := if neg then -(r.1 : Int) else (r.1 : Int)
    (max (-9223372036854775808) (min v 9223372036854775807), r.2.2)

/-- The conversion of a `long` to `pid_t`, a 32-bit `int`. -/
def toPid (v : Int) : Int := (v + 2147483648) % 4294967296 - 2147483648

/-- The method `FileConnection::refreshPath`.  The array `buf` that `sprintf`
fills has 64 bytes; `%d` writes the process id in decimal digits. -/
def FileConnection.refreshPath (k : Kernel) : FM Unit := do
  let c ← getConn
  if c.type = FileType.FILE_BATCH_QUEUE then do
    let fd ← fds0
    let procpath := "/proc/self/fd/".toList ++ XToString fd
    let newpath := k.resolveSymlink procpath
    if newpath ≠ c.path then modifyConn (fun c => { c with path := newpath }) else pure ()
  else do
    let pathExists ← FileExists c.path
    if c.rel_path ≠ "*".toList ∧ pathExists = false then do
      let fullPath := k.cwd ++ "/".toList ++ c.rel_path
      let fullExists ← FileExists fullPath
      if fullExists then modifyConn (fun c => { c with path := fullPath }) else pure ()
    else if c.type = FileType.FILE_PROCFS then do
      if c.path.length < 6 then abort Abort.outOfBounds
      else do
        let r := strtol (c.path.drop 6)
        let proc_pid := toPid r.1
        if 0 < proc_pid ∧ r.2.head? = some '/' then do
          let text := "/proc/".toList ++ (toString k.pid).toList ++ "/".toList ++ r.2
          if text.length + 1 ≤ 64 then modifyConn (fun c => { c with path := text })
          else abort Abort.outOfBounds
        else pure ()
    else pure ()

/-- The first block of `FileConnection::refill`, `if (!_checkpointed) { ... }`:
the existence assertion, the size policy, and the reopening. -/
def FileConnection.refillReopen (k : Kernel) : FM Unit := do
  let c ← getConn
  if c.checkpointed = false then do
    let pathExists ← FileExists c.path
    JASSERT pathExists
    let st ← statPath c.path
    (match st with
      | some buf =>
        if buf.isReg = true then
          if c.stat.st_size < buf.size ∧ (c.fcntlFlags &&& (O_WRONLY ||| O_RDWR)) ≠ 0 then do
            emit (Event.truncate c.path c.stat.st_size)
            (if k.truncateRet c.path c.stat.st_size = 0 then
              setInode c.path (some { buf with size := c.stat.st_size })
            else pure ())
            JASSERT (decide (k.truncateRet c.path c.stat.st_size = 0))
          else if buf.size < c.stat.st_size then JWARNING false Warning.sizeSmaller
          else pure ()
        else pure ()
      | none => pure ())
    let tempfd ← FileConnection.openFile k
    let c1 ← getConn
    emit (Event.dupFds tempfd c1.fds)
  else pure ()

/-- The second block of `FileConnection::refill`: the offset policy. -/
def FileConnection.refillSeek (k : Kernel) : FM Unit := do
  let c ← getConn
  let st ← statPath c.path
  match st with
  | some buf =>
    if buf.isReg = true then
      if c.offset ≤ buf.size ∧ c.offset ≤ c.stat.st_size then do
        let fd ← fds0
        emit (Event.lseek fd c.offset)
        JASSERT (decide (k.lseekSet fd c.offset = c.offset))
      else if buf.size < c.offset ∨ c.stat.st_size < c.offset then
        JWARNING false Warning.noLseek
      else pure ()
    else pure ()
  | none => pure ()

/-- The method `FileConnection::refill`. -/
def FileConnection.refill (k : Kernel) : FM Unit := do
  FileConnection.refillReopen k
  FileConnection.refillSeek k
  FileConnection.refreshPath k
  emit Event.restoreOptions

/-- The method `FileConnection::postRestart`. -/
def FileConnection.postRestart (k : Kernel) : FM Unit := do
  let c ← getConn
  JASSERT (decide (0 < c.fds.length))
  if c.checkpointed = false then pure ()
  else do
    let savedFilePath := c.getSavedFilePath
    let savedExists ← FileExists savedFilePath
    JASSERT savedExists
    let tempfd ← (
      if c.type = FileType.FILE_BATCH_QUEUE then
        match k.bqRestore with
        | none => abort Abort.fatal
        | some restore => do
          emit (Event.bqRestoreFile c.path savedFilePath c.fcntlFlags c.rmtype)
          pure (restore c.path savedFilePath c.fcntlFlags c.rmtype)
      else do
        FileConnection.refreshPath k
        let c1 ← getConn
        let pathExists ← FileExists c1.path
        JASSERT (!pathExists)
        CreateDirectoryStructure k c1.path
        CopyFile k savedFilePath c1.path
        FileConnection.openFile k)
    let c2 ← getConn
    emit (Event.dupFds tempfd c2.fds)

/-! ## POSIX message queue connection -/

/-- The structure `mq_attr`. -/
structure MqAttr where
  mq_flags : Int
  mq_maxmsg : Int
  mq_msgsize : Int
  mq_curmsgs : Int
  deriving DecidableEq, Repr

/-- The fields of `PosixMQConnection`. -/
structure PosixMQConnection where
  fds : List Int
  name : List Char
  oflag : Nat
  mode : Nat
  attr : MqAttr
  qnum : Int
  msgInQueue : List (List Byte)
  msgInQueuePrio : List Nat
  notifyReg : Bool
  sevp : Nat
  deriving DecidableEq, Repr

/-- The answer of the kernel to one `mq_receive`. -/
inductive RecvOutcome
  /-- the call delivers a message and its priority and returns its length -/
  | msg (bytes : List Byte) (prio : Nat)
  /-- the call returns -1 -/
  | error
  deriving DecidableEq, Repr

/-- The answers of the kernel during `PosixMQConnection::preCheckpoint`: the
result and the mode of `fstat`, the result and the attributes of
`mq_getattr`, the result of `_real_mq_open`, and the answer to the `i`-th
`mq_receive`. -/
structure MqCapture where
  fstatRet : Int
  st_mode : Nat
  getattrRet : Int
  attr : MqAttr
  openFd : Int
  recv : Nat → RecvOutcome

/-- The loop `for (long i = 0; i < _qnum; i++)` of
`PosixMQConnection::preCheckpoint`, with `n` rounds left and `i` the index of
the round. -/
def mqReceiveLoop (recv : Nat → RecvOutcome) :
    Nat → Nat → PosixMQConnection → Except Abort PosixMQConnection
  | 0, _, c => .ok c
  | n + 1, i, c =>
    match recv i with
    | .error => .error .fatal
    | .msg bytes prio =>
      mqReceiveLoop recv n (i + 1)
        { c with msgInQueue := c.msgInQueue ++ [bytes],
                 msgInQueuePrio := c.msgInQueuePrio ++ [prio] }

/-- The method `PosixMQConnection::preCheckpoint`. -/
def PosixMQConnection.preCheckpoint (c : PosixMQConnection) (k : MqCapture) :
    Except Abort PosixMQConnection :=
  if 0 < c.fds.length then
    if k.fstatRet ≠ -1 then
      let c1 : PosixMQConnection := if c.mode = 0 then { c with mode := k.st_mode } else c
      if k.getattrRet ≠ -1 then
        let c2 : PosixMQConnection := { c1 with attr := k.attr }
        if k.attr.mq_curmsgs < 0 then .ok c2
        else if k.openFd ≠ -1 then
          let c3 : PosixMQConnection := { c2 with qnum := k.attr.mq_curmsgs }
          mqReceiveLoop k.recv c3.qnum.toNat 0 c3
        else .error .fatal
      else .error .fatal
    else .error .fatal
  else .error .fatal

/-- One call of `_real_mq_send`: descriptor, message, length, priority. -/
structure MqSend where
  fd : Int
  bytes : List Byte
  size : Nat
  prio : Nat
  deriving DecidableEq, Repr

/-- The loop `for (long i = 0; i < _qnum; i++)` of `PosixMQConnection::refill`,
with `n` rounds left and `i` the index of the round.  `sendRet i` is the
result of the `i`-th `_real_mq_send`.  Returns the calls made, and whether the
loop ran to its end. -/
def mqSendLoop (c : PosixMQConnection) (sendRet : Nat → Int) :
    Nat → Nat → List MqSend → List MqSend × Except Abort Unit
  | 0, _, sent => (sent, .ok ())
  | n + 1, i, sent =>
    match c.fds[0]?, c.msgInQueue[i]?, c.msgInQueuePrio[i]? with
    | some fd, some m, some p =>
      let sent1 := sent ++ [{ fd := fd, bytes := m, size := m.length, prio := p }]
      if sendRet i ≠ -1 then mqSendLoop c sendRet n (i + 1) sent1
      else (sent1, .error .fatal)
    | _, _, _ => (sent, .error .outOfBounds)

/-- The method `PosixMQConnection::refill`: the calls of `_real_mq_send` made,
and the connection if the method returns. -/
def PosixMQConnection.refill (c : PosixMQConnection) (sendRet : Nat → Int) :
    List MqSend × Except Abort PosixMQConnection :=
  match mqSendLoop c sendRet c.qnum.toNat 0 [] with
  | (sent, .error a) => (sent, .error a)
  | (sent, .ok _) => (sent, .ok { c with msgInQueue := [], msgInQueuePrio := [] })

/-- The call of `_real_mq_send` that replays the message `mp.1` with the
priority `mp.2` on the descriptor `fd`. -/
def sendOf (fd : Int) (mp : List Byte × Nat) : MqSend :=
  { fd := fd, bytes := mp.1, size := mp.1.length, prio := mp.2 }

/-! ## Inputs of the examples -/

/-- The master of the example of a checkpoint: the array of 10000 bytes of
`PtyConnection::preCheckpoint`, one pending read of "abc", and a terminal that
takes whatever is written. -/
def ckptMaster : Master :=
  { pending := [.data [97, 98, 99]], answers := [.accepts 10000], calls := [], written := [],
    errno := .EINVAL, mem := List.replicate 10000 0 }

/-- The master `ckptMaster` after the drain. -/
def ckptMasterDrained : Master :=
  { ckptMaster with
      pending := [],
      mem := encodeStream [[97, 98, 99]] ++ encodeHdr 0
               ++ ckptMaster.mem.drop (streamLen [[97, 98, 99]] + 4) }

/-- A probe of a terminal that is not in packet mode: nothing stale to read,
and the read after the write of `'x'` returns that one byte. -/
def plainProbe : Probe :=
  { staleReady := false, staleRc := 0, rc := 1, tmp0 := 120, tmp1 := 0 }

/-- The master of the counterexample to C1: an array of 16 bytes and two reads
of 8 bytes each. -/
def overflowMaster : Master :=
  { pending := [.data [1, 2, 3, 4, 5, 6, 7, 8], .data [1, 2, 3, 4, 5, 6, 7, 8]],
    answers := [], calls := [], written := [], errno := .EINVAL,
    mem := List.replicate 16 0 }

/-- The master of the examples: an array of 16 bytes, the given reads, and a
terminal that takes whatever is written. -/
def smallMaster (reads : List ReadOutcome) : Master :=
  { pending := reads, answers := List.replicate 4 (.accepts 16), calls := [], written := [],
    errno := .EINVAL, mem := List.replicate 16 0 }

/-- The master of the counterexample to C3: the stream holds one chunk with
the single byte 120 and the closing header; the terminal would take whatever
is written. -/
def markerMaster : Master :=
  { pending := [], answers := [.accepts 16], calls := [], written := [], errno := .EINVAL,
    mem := [1, 0, 0, 0, 120, 0, 0, 0, 0] }

/-- A FIFO connection with one descriptor and a stale buffer. -/
def fifoConn : FifoConnection :=
  { fds := [5], fcntlFlags := 0, ckptfd := -1, in_data := [9, 9] }

/-- A `Util::writeAll` that writes every byte it is given. -/
def writeAllOk : Nat → List Byte → Int := fun _ bs => (bs.length : Int)

/-- A message queue connection with one descriptor and nothing captured. -/
def mqConn : PosixMQConnection :=
  { fds := [4], name := ['/', 'q'], oflag := 2, mode := 0,
    attr := { mq_flags := 0, mq_maxmsg := 0, mq_msgsize := 0, mq_curmsgs := 0 },
    qnum := 0, msgInQueue := [], msgInQueuePrio := [], notifyReg := false, sevp := 0 }

/-- The messages of the example: A, B, C with priorities 5, 1, 5. -/
def mqMsgs : List (List Byte × Nat) := [([65], 5), ([66], 1), ([67], 5)]

/-- A queue that holds the messages `mqMsgs`. -/
def mqKernel : MqCapture :=
  { fstatRet := 0, st_mode := 384, getattrRet := 0,
    attr := { mq_flags := 0, mq_maxmsg := 10, mq_msgsize := 8192, mq_curmsgs := 3 },
    openFd := 9,
    recv := fun i => match mqMsgs[i]? with
      | some mp => RecvOutcome.msg mp.1 mp.2
      | none => RecvOutcome.error }

/-- A kernel for the examples: every call succeeds, no batch-queue callbacks,
the checkpoint-all-open-files toggle is off. -/
def baseKernel : Kernel :=
  { cwd := "/home/u".toList, pid := 4242, uid := 1000, tmpdir := "/tmp/dmtcp-u".toList,
    progName := "a.out".toList, ckptOpenFiles := false, ckptFilesSubDir := "/ckpt".toList,
    resolveSymlink := fun p => p, bqShouldCkpt := none, bqRestore := none,
    lseekCur := fun _ => 50, fstat := fun _ => { st_size := 100, st_uid := 1000 },
    truncateRet := fun _ _ => 0, openRet := fun _ _ => 7, lseekSet := fun _ off => off,
    mkdirRet := fun _ => (0, Errno.EINVAL), systemRet := fun _ => 0,
    accessW := fun _ => true, copyFromFdOk := fun _ _ => true }

/-- A file connection of the examples: descriptor 5 on the file `path`, opened
for reading and writing, with checkpoint-time size 100 and offset 50, content
not captured. -/
def fileConn (path : Str) (type : FileType) : FileConnection :=
  { conId := 3, fds := [5], fcntlFlags := O_RDWR, type := type, path := path,
    rel_path := "*".toList, ckptFilesDir := "/ckpt".toList, offset := 50,
    stat := { st_size := 100, st_uid := 1000 }, checkpointed := false, rmtype := 0 }

/-- A disk with one regular file of the given size at `path`. -/
def diskWith (path : Str) (size : Int) : Str → Option Inode :=
  fun p => if p = path then some { isReg := true, size := size } else none

/-- A disk without files. -/
def emptyDisk : Str → Option Inode := fun _ => none

/-- The state of the examples before a method runs. -/
def sysOf (c : FileConnection) (disk : Str → Option Inode) : Sys :=
  { conn := c, disk := disk, trace := [] }

/-- The path of the examples. -/
def dataPath : Str := "/home/u/data".toList

/-- The example of the size policy: the file had size 100 and offset 50 at the
checkpoint, is opened for reading and writing, and has grown to 150. -/
def grownSys : Sys := sysOf (fileConn dataPath FileType.FILE_REGULAR) (diskWith dataPath 150)

/-- The same file, shrunk to 30. -/
def shrunkSys : Sys := sysOf (fileConn dataPath FileType.FILE_REGULAR) (diskWith dataPath 30)

/-- The kernel of the examples when the program is emacs. -/
def emacsKernel : Kernel := { baseKernel with progName := "emacs".toList }

/-- The kernel of the examples with a batch-queue callback that claims every
file. -/
def bqKernel : Kernel := { baseKernel with bqShouldCkpt := some (fun _ => (true, 1)) }

/-- A regular file of the user, unchanged since the checkpoint. -/
def dataSys : Sys := sysOf (fileConn dataPath FileType.FILE_REGULAR) (diskWith dataPath 100)

/-- A path under the private temp directory of `baseKernel`. -/
def tmpPath : Str := "/tmp/dmtcp-u/job.out".toList

/-- A file under the private temp directory that the batch queue manages. -/
def tmpBqSys : Sys := sysOf (fileConn tmpPath FileType.FILE_BATCH_QUEUE) (diskWith tmpPath 100)

/-- A file under the private temp directory that is gone at restart. -/
def tmpGoneSys : Sys := sysOf (fileConn tmpPath FileType.FILE_REGULAR) emptyDisk

/-- The device `/dev/null`, open in the process. -/
def devNullSys : Sys :=
  sysOf (fileConn "/dev/null".toList FileType.FILE_REGULAR) (diskWith "/dev/null".toList 0)

/-! ## Notions used by the statements -/

/-- Every call the step `m` makes satisfies `P`: from every state, `m` only
appends to the trace, and what it appends satisfies `P`. -/
structure Emits {α : Type} (P : Event → Prop) (m : FM α) : Prop where
  run : ∀ s, ∃ evs, (m s).2.trace = s.trace ++ evs ∧ ∀ e ∈ evs, P e

/-- The calls of a content capture: the entry of `saveFile`. -/
def Event.isSaveFile : Event → Bool
  | .saveFile _ => true
  | _ => false

/-- The calls of the first block of `refill`. -/
def Event.isReopen : Event → Bool
  | .truncate _ _ => true
  | .warning Warning.sizeSmaller => true
  | .open _ _ => true
  | .dupFds _ _ => true
  | _ => false

/-- The calls of the second block of `refill`. -/
def Event.isSeek : Event → Bool
  | .lseek _ _ => true
  | .warning Warning.noLseek => true
  | _ => false

/-- What `openFile` followed by `Util::dupFds` does in a state in which a file
exists at the path: the file is opened and, unless `_real_open` failed, the
descriptor is duplicated onto the descriptors of the connection. -/
def reopened (k : Kernel) (s : Sys) : Except Abort Unit × Sys :=
  if k.openRet s.conn.path s.conn.fcntlFlags ≠ -1 then
    (.ok (), { s with trace := s.trace ++ [Event.open s.conn.path s.conn.fcntlFlags,
      Event.dupFds (k.openRet s.conn.path s.conn.fcntlFlags) s.conn.fds] })
  else
    (.error .fatal, { s with trace := s.trace ++ [Event.open s.conn.path s.conn.fcntlFlags] })

/-- The step `m` leaves the value `f` of the connection as it is. -/
structure Keeps {α β : Type} (f : FileConnection → β) (m : FM α) : Prop where
  run : ∀ s, f (m s).2.conn = f s.conn

/-- The calls that `saveFile` makes after its entry. -/
def Event.isCopy : Event → Bool
  | .mkdir _ => true
  | .system _ => true
  | .copyFromFd _ _ => true
  | .lseek _ _ => true
  | _ => false

/-- The connection after the batch-queue callback, if it was called, has
stored its value in `_rmtype`. -/
def afterBq (k : Kernel) (s : Sys) : Sys :=
  match bqShouldCkptFile k s.conn with
  | some (_, rmtype) => { s with conn := { s.conn with rmtype := rmtype } }
  | none => s

/-- The batch-queue callback is present, is asked (the classification is
`FILE_BATCH_QUEUE`) and returns true. -/
def bqAgrees (k : Kernel) (c : FileConnection) : Prop :=
  c.type = FileType.FILE_BATCH_QUEUE ∧ ∃ f, k.bqShouldCkpt = some f ∧ (f c.path).1 = true

/-- The condition under which the code of `preCheckpoint` calls `saveFile`. -/
def savesContent (k : Kernel) (c : FileConnection) : Prop :=
  bqAgrees k c ∨
  (_isBlacklistedFile k c.path = false ∧
    ((k.ckptOpenFiles = true ∧ c.stat.st_uid = k.uid) ∨
      c.type = FileType.FILE_DELETED ∨
      (_isVimApp k = true ∧
        (strEndsWith c.path ".swp".toList = false ∨ strEndsWith c.path ".swo".toList = false)) ∨
      strStartsWith k.progName "emacs".toList = true))

/-! ## File connection: locking -/

/-- The method `FileConnection::doLocking`: the connection after it, and
whether it reached `Connection::doLocking()`, the call that takes the lock of
the connection.  The path starts with "/proc/" when `&_path[6]` is taken, so
the pointer is inside the string. -/
def FileConnection.doLocking (k : Kernel) (c : FileConnection) : FileConnection × Bool :=
  if strStartsWith c.path "/proc/".toList = true then
    if 0 < toPid (strtol (c.path.drop 6)).1 ∧ (strtol (c.path.drop 6)).2.head? = some '/' then
      if toPid (strtol (c.path.drop 6)).1 ≠ k.pid then
        ({ c with type := FileType.FILE_PROCFS }, false)
      else ({ c with type := FileType.FILE_PROCFS, checkpointed := false }, true)
    else ({ c with checkpointed := false }, true)
  else ({ c with checkpointed := false }, true)

/-! ## Standard-stream connection -/

/-- The values of `_type` of a `StdioConnection`; `STDIO_INVALID` stands for
every value that the `default` case of the `switch` receives. -/
inductive StdioType
  | STDIO_IN
  | STDIO_OUT
  | STDIO_ERR
  | STDIO_INVALID
  deriving DecidableEq, Repr

/-- The fields of `StdioConnection`. -/
structure StdioConnection where
  fds : List Int
  type : StdioType
  deriving DecidableEq, Repr

/-- What `StdioConnection::postRestart` does to the descriptors. -/
inductive StdioEvent
  /-- Call `_real_dup2(oldFd, fd)` -/
  | dup2 (oldFd fd : Int)
  /-- The warning of `JWARNING(_real_dup2(oldFd, fd) == fd)` -/
  | warning (oldFd fd : Int)
  deriving DecidableEq, Repr

/-- The loop `for (size_t i=0; i<_fds.size(); ++i)` of
`StdioConnection::postRestart`: the list is `_fds` from index `i` on,
`dup2Ret i` is the result of the `_real_dup2` of round `i`.  Returns the calls
made and whether the loop ran to its end. -/
def stdioRestoreLoop (type : StdioType) (dup2Ret : Nat → Int) :
    List Int → Nat → List StdioEvent → List StdioEvent × Except Abort Unit
  | [], _, tr => (tr, .ok ())
  | fd :: rest, i, tr =>
    if fd ≤ 2 then stdioRestoreLoop type dup2Ret rest (i + 1) tr
    else
      match type with
      | .STDIO_IN =>
        stdioRestoreLoop type dup2Ret rest (i + 1)
          (if dup2Ret i = fd then tr ++ [.dup2 0 fd] else tr ++ [.dup2 0 fd, .warning 0 fd])
      | .STDIO_OUT =>
        stdioRestoreLoop type dup2Ret rest (i + 1)
          (if dup2Ret i = fd then tr ++ [.dup2 1 fd] else tr ++ [.dup2 1 fd, .warning 1 fd])
      | .STDIO_ERR =>
        stdioRestoreLoop type dup2Ret rest (i + 1)
          (if dup2Ret i = fd then tr ++ [.dup2 2 fd] else tr ++ [.dup2 2 fd, .warning 2 fd])
      | .STDIO_INVALID => (tr, .error .fatal)

/-- The method `StdioConnection::postRestart`. -/
def StdioConnection.postRestart (c : StdioConnection) (dup2Ret : Nat → Int) :
    List StdioEvent × Except Abort Unit :=
  stdioRestoreLoop c.type dup2Ret c.fds 0 []

/-! ## POSIX message queue connection: notification and serialization -/

/-- The method `PosixMQConnection::on_mq_notify(sevp)`; `none` is the null
pointer. -/
def PosixMQConnection.on_mq_notify (c : PosixMQConnection) (sevp : Option Nat) :
    Except Abort PosixMQConnection :=
  if sevp = none ∧ c.notifyReg = true then .ok { c with notifyReg := false }
  else
    match sevp with
    | some e => .ok { c with notifyReg := true, sevp := e }
    | none => .error .nullPointer

/-- A value in the checkpoint image. -/
inductive ImageField
  | str (s : List Char)
  | num (n : Nat)
  | attr (a : MqAttr)
  deriving DecidableEq, Repr

/-- Modelled from the spec: `jalib::JBinarySerializer` of jalib/jserialize.h,
which does "write or read, in one fixed field order per type (no
self-describing tags)": a writer appends each field to the image, a reader
takes each field from the image. -/
inductive JBinarySerializer
  | writer (image : List ImageField)
  | reader (image : List ImageField)
  deriving DecidableEq, Repr

/-- Modelled from the spec: the operator `o & x` of `jalib::JBinarySerializer`
on a string `x`: the serializer and the value of `x` after it. -/
def JBinarySerializer.str (o : JBinarySerializer) (x : List Char) :
    Except Abort (JBinarySerializer × List Char) :=
  match o with
  | .writer image => .ok (.writer (image ++ [.str x]), x)
  | .reader (.str v :: image) => .ok (.reader image, v)
  | .reader _ => .error .fatal

/-- Modelled from the spec: the operator `o & x` of `jalib::JBinarySerializer`
on a number `x`. -/
def JBinarySerializer.num (o : JBinarySerializer) (x : Nat) :
    Except Abort (JBinarySerializer × Nat) :=
  match o with
  | .writer image => .ok (.writer (image ++ [.num x]), x)
  | .reader (.num v :: image) => .ok (.reader image, v)
  | .reader _ => .error .fatal

/-- Modelled from the spec: the operator `o & x` of `jalib::JBinarySerializer`
on a `struct mq_attr` `x`. -/
def JBinarySerializer.attr (o : JBinarySerializer) (x : MqAttr) :
    Except Abort (JBinarySerializer × MqAttr) :=
  match o with
  | .writer image => .ok (.writer (image ++ [.attr x]), x)
  | .reader (.attr v :: image) => .ok (.reader image, v)
  | .reader _ => .error .fatal

/-- Modelled from the spec: the macro `JSERIALIZE_ASSERT_POINT(str)` of
jalib/jserialize.h: a writer puts the marker into the image, a reader asserts
that the marker is the next field. -/
def JSERIALIZE_ASSERT_POINT (o : JBinarySerializer) (marker : List Char) :
    Except Abort JBinarySerializer :=
  match o.str marker with
  | .error a => .error a
  | .ok (o1, v) => if v = marker then .ok o1 else .error .fatal

/-- The method `PosixMQConnection::serializeSubClass(o)`:
`o & _name & _oflag & _mode & _attr`. -/
def PosixMQConnection.serializeSubClass (c : PosixMQConnection) (o : JBinarySerializer) :
    Except Abort (JBinarySerializer × PosixMQConnection) :=
  match JSERIALIZE_ASSERT_POINT o "dmtcp::PosixMQConnection".toList with
  | .error a => .error a
  | .ok o0 =>
    match o0.str c.name with
    | .error a => .error a
    | .ok (o1, name) =>
      match o1.num c.oflag with
      | .error a => .error a
      | .ok (o2, oflag) =>
        match o2.num c.mode with
        | .error a => .error a
        | .ok (o3, mode) =>
          match o3.attr c.attr with
          | .error a => .error a
          | .ok (o4, attr) =>
            .ok (o4, { c with name := name, oflag := oflag, mode := mode, attr := attr })

/-- Serializing `c` and deserializing the image into the instance `fresh`:
`serializeSubClass` with a writer on `c`, then with a reader of the image that
was written on `fresh`. -/
def mqRoundTrip (c fresh : PosixMQConnection) : Except Abort PosixMQConnection :=
  match c.serializeSubClass (.writer []) with
  | .ok (.writer image, _) =>
    (match fresh.serializeSubClass (.reader image) with
     | .ok (_, restored) => .ok restored
     | .error a => .error a)
  | .ok (.reader _, _) => .error .fatal
  | .error a => .error a

/-! ## Profiler plugin (`src/contrib/profiler/profiler.c`) -/

/-- The enumeration `profiler_event_type`. -/
inductive profiler_event_type
  | PROFILER_EVENT_TYPE_NONE
  | PROFILER_EVENT_TYPE_RESTART
  | PROFILER_EVENT_TYPE_CHECKPOINT
  deriving DecidableEq, Repr

/-- The value of an enumerator of `profiler_event_type` as an `int`. -/
def profiler_event_type.toInt : profiler_event_type → Int
  | .PROFILER_EVENT_TYPE_NONE => 0
  | .PROFILER_EVENT_TYPE_RESTART => 1
  | .PROFILER_EVENT_TYPE_CHECKPOINT => 2

/-- The events of `DmtcpEvent_t` that `event_hook` has a case for; `other`
stands for the events it has no case for. -/
inductive DmtcpEvent
  | DMTCP_EVENT_INIT
  | DMTCP_EVENT_EXIT
  | DMTCP_EVENT_PRECHECKPOINT
  | DMTCP_EVENT_RESTART
  | DMTCP_EVENT_RESUME
  | other
  deriving DecidableEq, Repr

/-- The texts the profiler prints or writes.  A time is a reading of the
monotonic clock; a duration is kept as its two ends. -/
inductive ProfilerText
  /-- Text "Pid=%d,PPid=%d\n" -/
  | pids (pid ppid : Int)
  /-- Text "[DMTCP_profiler] Unable to open file %s!\n" -/
  | unableToOpen (file : String)
  /-- Text "[DMTCP_profiler] Logging to file %s\n" -/
  | loggingTo (file : String)
  /-- Text "Total time is %fs\n" -/
  | totalTime (since now : Int)
  /-- One of the fixed messages "DMTCP_EVENT_PRECHECKPOINT\n",
  "DMTCP_EVENT_RESTART\n", "DMTCP_EVENT_RESUME\n" -/
  | message (msg : String)
  /-- Text "Restart Epoch Time: %lu\n" -/
  | restartEpoch (ms : Nat)
  /-- Text "Checkpoint took %fs\n" -/
  | checkpointTook (since now : Int)
  /-- Text "Restart took %fs\n" -/
  | restartTook (since now : Int)
  /-- Text "Unknown event %d!\n" -/
  | unknownEvent (type : Int)
  deriving DecidableEq, Repr

/-- The calls of the profiler to the C library. -/
inductive ProfilerCall
  | printf (text : ProfilerText)
  | open (file : String)
  | write (fd : Int) (text : ProfilerText)
  | close (fd : Int)
  | exit
  deriving DecidableEq, Repr

/-- What the process and the system answer during one call of `event_hook`:
`getpid()`, `getppid()`, the reading of the monotonic clock, `epochTime()`,
the environment variables `DMTCP_PROFILER_FILE` and `DMTCP_PROFILER_KILL`, and
the result of `open`. -/
structure ProfilerEnv where
  getpid : Int
  getppid : Int
  now : Int
  epoch : Nat
  profilerFile : Option String
  profilerKill : Bool
  openRet : Int
  deriving DecidableEq, Repr

/-- The static variables of profiler.c, the calls made so far, and whether the
process has called `exit`. -/
structure Profiler where
  outputFile : Option String
  outputFileFD : Int
  startTime : Int
  pid : Int
  exitOnCheckpointRestart : Bool
  eventTime : Int
  eventType : profiler_event_type
  is_initialized : Bool
  calls : List ProfilerCall
  exited : Bool
  deriving DecidableEq, Repr

/-- The static variables when the plugin is loaded: `pid = -1`, the others
zero. -/
def profilerStart : Profiler :=
  { outputFile := none, outputFileFD := 0, startTime := 0, pid := -1,
    exitOnCheckpointRestart := false, eventTime := 0,
    eventType := .PROFILER_EVENT_TYPE_NONE, is_initialized := false, calls := [],
    exited := false }

/-- The `switch (event)` of `event_hook`. -/
def eventSwitch (env : ProfilerEnv) (event : DmtcpEvent) (s : Profiler) : Profiler :=
  match event with
  | .DMTCP_EVENT_INIT =>
    if s.is_initialized = true then s
    else
      let file : String :=
        match env.profilerFile with
        | some f => if f.length = 0 then "/tmp/DMTCP_profile.out" else f
        | none => "/tmp/DMTCP_profile.out"
      { s with
          is_initialized := true, startTime := env.now, outputFile := some file,
          outputFileFD := env.openRet,
          calls := s.calls ++ [.open file,
            .printf (if env.openRet = -1 then .unableToOpen file else .loggingTo file)],
          exitOnCheckpointRestart :=
            if env.profilerKill = true then true else s.exitOnCheckpointRestart }
  | .DMTCP_EVENT_EXIT =>
    { s with calls := s.calls ++ [.write s.outputFileFD (.totalTime s.startTime env.now),
        .close s.outputFileFD, .printf (.totalTime s.startTime env.now)] }
  | .DMTCP_EVENT_PRECHECKPOINT =>
    { s with
        eventType := .PROFILER_EVENT_TYPE_CHECKPOINT, eventTime := env.now,
        calls := s.calls ++ [.write s.outputFileFD (.message "DMTCP_EVENT_PRECHECKPOINT\n")] }
  | .DMTCP_EVENT_RESTART =>
    if s.exitOnCheckpointRestart = true then
      { s with
          eventType := .PROFILER_EVENT_TYPE_NONE,
          calls := s.calls ++ [.write s.outputFileFD (.message "DMTCP_EVENT_RESTART\n"),
            .write s.outputFileFD (.restartEpoch env.epoch), .exit],
          exited := true }
    else
      { s with
          eventType := .PROFILER_EVENT_TYPE_NONE,
          calls := s.calls ++ [.write s.outputFileFD (.message "DMTCP_EVENT_RESTART\n"),
            .write s.outputFileFD (.restartEpoch env.epoch)] }
  | .DMTCP_EVENT_RESUME =>
    if s.eventType = .PROFILER_EVENT_TYPE_CHECKPOINT then
      if s.exitOnCheckpointRestart = true then
        { s with
            calls := s.calls ++ [.write s.outputFileFD (.message "DMTCP_EVENT_RESUME\n"),
              .write s.outputFileFD (.checkpointTook s.eventTime env.now), .exit],
            exited := true }
      else
        { s with
            eventType := .PROFILER_EVENT_TYPE_NONE,
            calls := s.calls ++ [.write s.outputFileFD (.message "DMTCP_EVENT_RESUME\n"),
              .write s.outputFileFD (.checkpointTook s.eventTime env.now)] }
    else if s.eventType = .PROFILER_EVENT_TYPE_RESTART then
      { s with
          eventType := .PROFILER_EVENT_TYPE_NONE,
          calls := s.calls ++ [.write s.outputFileFD (.message "DMTCP_EVENT_RESUME\n"),
            .write s.outputFileFD (.restartTook s.eventTime env.now)] }
    else
      { s with
          eventType := .PROFILER_EVENT_TYPE_NONE,
          calls := s.calls ++ [.write s.outputFileFD (.message "DMTCP_EVENT_RESUME\n"),
            .write s.outputFileFD (.unknownEvent s.eventType.toInt)] }
  | .other => s

/-- The function `event_hook(event, data)`. -/
def event_hook (env : ProfilerEnv) (event : DmtcpEvent) (s : Profiler) : Profiler :=
  if s.pid = -1 then
    eventSwitch env event
      { s with calls := s.calls ++ [.printf (.pids env.getpid env.getppid)], pid := env.getpid }
  else if s.pid ≠ env.getpid then s
  else eventSwitch env event s

/-- The events of a process in the order they arrive, each with the answers of
the system during its call of `event_hook`; nothing arrives after `exit`. -/
def runEvents : List (ProfilerEnv × DmtcpEvent) → Profiler → Profiler
  | [], s => s
  | (env, event) :: rest, s =>
    if s.exited = true then s else runEvents rest (event_hook env event s)

/-! ## Inputs of further examples -/

/-- The message queue connection `mqConn` after a checkpoint that captured the
messages `mqMsgs`, with a notification registered. -/
def mqCaptured : PosixMQConnection :=
  { fds := [4], name := ['/', 'q'], oflag := 2, mode := 384,
    attr := { mq_flags := 0, mq_maxmsg := 10, mq_msgsize := 8192, mq_curmsgs := 3 },
    qnum := 3, msgInQueue := [[65], [66], [67]], msgInQueuePrio := [5, 1, 5],
    notifyReg := true, sevp := 7 }

/-- A new instance of `PosixMQConnection` on the descriptor 4, with nothing
recorded. -/
def mqFresh : PosixMQConnection :=
  { fds := [4], name := [], oflag := 0, mode := 0,
    attr := { mq_flags := 0, mq_maxmsg := 0, mq_msgsize := 0, mq_curmsgs := 0 },
    qnum := 0, msgInQueue := [], msgInQueuePrio := [], notifyReg := false, sevp := 0 }

/-- A kernel whose working directory is "/A/B". -/
def abKernel : Kernel := { baseKernel with cwd := "/A/B".toList }

/-- A kernel of the process 456. -/
def procKernel : Kernel := { baseKernel with pid := 456 }

/-- The file "/proc/123/maps", classified `FILE_PROCFS`, present on disk. -/
def procSys : Sys :=
  sysOf (fileConn "/proc/123/maps".toList FileType.FILE_PROCFS)
    (diskWith "/proc/123/maps".toList 0)

/-- A file of the process 123 whose path has 70 characters, classified
`FILE_PROCFS`, present on disk. -/
def procLongSys : Sys :=
  sysOf (fileConn ("/proc/123/".toList ++ List.replicate 60 'a') FileType.FILE_PROCFS)
    (diskWith ("/proc/123/".toList ++ List.replicate 60 'a') 0)

/-- The master of a checkpoint with two pending reads of 5000 bytes each and
the array of 10000 bytes of `PtyConnection::preCheckpoint`. -/
def fullMaster : Master :=
  { pending := [.data (List.replicate 5000 7), .data (List.replicate 5000 7)],
    answers := [], calls := [], written := [], errno := .EINVAL,
    mem := List.replicate 10000 0 }

/-- A `_real_dup2` that succeeds in every round but round 2. -/
def dup2Script (fds : List Int) : Nat → Int :=
  fun i => if i = 2 then -1 else fds.getD i 0

/-- The answers of the system to the profiler in the process `pid` at the time
`now`, with `DMTCP_PROFILER_KILL` set or not. -/
def profEnv (pid now : Int) (kill : Bool) : ProfilerEnv :=
  { getpid := pid, getppid := 1, now := now, epoch := 0, profilerFile := none,
    profilerKill := kill, openRet := 3 }

/-! ## Notions used by further statements -/

/-- The conventional descriptor of a role: 0 for input, 1 for output, 2 for
error. -/
def conventionalFd : StdioType → Int
  | .STDIO_IN => 0
  | .STDIO_OUT => 1
  | .STDIO_ERR => 2
  | .STDIO_INVALID => -1

/-- The duplications among the calls of `StdioConnection::postRestart`. -/
def dup2Calls : List StdioEvent → List (Int × Int)
  | [] => []
  | .dup2 oldFd fd :: rest => (oldFd, fd) :: dup2Calls rest
  | .warning _ _ :: rest => dup2Calls rest

/-- What round `i` of the reconstruction of the alias `fd` does: nothing for
0, 1 and 2, else the duplication of `oldFd` onto `fd` and, if its result
`ret` is not `fd`, a warning. -/
def aliasRound (oldFd : Int) (ret : Int) (fd : Int) : List StdioEvent :=
  if fd = 0 ∨ fd = 1 ∨ fd = 2 then []
  else if ret = fd then [.dup2 oldFd fd] else [.dup2 oldFd fd, .warning oldFd fd]

/-- The rounds of the aliases `fds`, the first of which is round `i`. -/
def aliasRounds (oldFd : Int) (dup2Ret : Nat → Int) : List Int → Nat → List StdioEvent
  | [], _ => []
  | fd :: rest, i => aliasRound oldFd (dup2Ret i) fd ++ aliasRounds oldFd dup2Ret rest (i + 1)

/-- The prefixes `path[0..i)` with `path[i] = '/'` and `i > 1`, from the
shortest to the longest. -/
def ancestorDirs (path : Str) : List Str :=
  ((List.range path.length).filter (fun i => decide (1 < i) && decide (path[i]? = some '/'))).map
    (fun i => path.take i)

/-- The non-empty prefixes `path[0..i)` with `path[i] = '/'`, from the shortest
to the longest. -/
def nonEmptyAncestorDirs (path : Str) : List Str :=
  ((List.range path.length).filter (fun i => decide (0 < i) && decide (path[i]? = some '/'))).map
    (fun i => path.take i)

/-- The call `mkdir(dir, mode)` fails with an error other than "already
exists". -/
def mkdirFails (k : Kernel) (dir : Str) : Bool :=
  decide ((k.mkdirRet dir).1 = -1) && decide ((k.mkdirRet dir).2 ≠ Errno.EEXIST)

/-- The directories of `dirs` up to and including the first on which `mkdir`
fails. -/
def upToFailure (k : Kernel) : List Str → List Str
  | [] => []
  | d :: rest => if mkdirFails k d = true then [d] else d :: upToFailure k rest

/-- The text `<pid>` of a path "/proc/<pid>/...": what stands between "/proc/"
and the next '/'. -/
def procPidText (path : Str) : Str := (path.drop 6).takeWhile (fun ch => ch ≠ '/')

/-- The path has the form "/proc/<pid>/..." with `<pid>` a positive number: it
starts with "/proc/", a '/' follows the text `<pid>`, `strtol` reads `<pid>`
to its end, and the number it reads is positive as a `pid_t`. -/
def procPidForm (path : Str) : Bool :=
  strStartsWith path "/proc/".toList && decide ('/' ∈ path.drop 6) &&
    (strtol (procPidText path)).2.isEmpty && decide (0 < toPid (strtol (procPidText path)).1)

/-- The number `<pid>` of a path "/proc/<pid>/...", as a `pid_t`. -/
def procPidOf (path : Str) : Int := toPid (strtol (procPidText path)).1

/-! # Theorems

## Pseudo-terminal master -/

theorem encodeStream_cons (c : List Byte) (cs : List (List Byte)) :
    encodeStream (c :: cs) = encodeHdr (c.length : Int) ++ c ++ encodeStream cs := by
  simp [encodeStream]

theorem streamLen_cons (c : List Byte) (cs : List (List Byte)) :
    streamLen (c :: cs) = 4 + c.length + streamLen cs := by
  simp [streamLen]

theorem encodeHdr_length (v : Int) : (encodeHdr v).length = 4 := by
  simp [encodeHdr]

theorem encodeStream_length (chunks : List (List Byte)) :
    (encodeStream chunks).length = streamLen chunks := by
  induction chunks with
  | nil => simp [encodeStream, streamLen]
  | cons c cs ih =>
    rw [encodeStream_cons, streamLen_cons, List.length_append, List.length_append,
      encodeHdr_length, ih]

theorem store_append (pre rm bs : List Byte) (h : bs.length ≤ rm.length) :
    store (pre ++ rm) pre.length bs = .ok (pre ++ bs ++ rm.drop bs.length) := by
  unfold store
  rw [if_pos (by simp; omega)]
  simp [List.take_append_eq_append_take, List.drop_append_eq_append_drop]

theorem store_hdr_payload (pre rm h c : List Byte) (hh : h.length = 4)
    (hfit : 4 + c.length ≤ rm.length) :
    ∃ m1, store (pre ++ rm) (pre.length + 4) c = .ok m1 ∧
      store m1 pre.length h = .ok (pre ++ h ++ c ++ rm.drop (4 + c.length)) := by
  have e1 : pre ++ rm = (pre ++ rm.take 4) ++ rm.drop 4 := by simp
  have l1 : (pre ++ rm.take 4).length = pre.length + 4 := by simp; omega
  refine ⟨pre ++ rm.take 4 ++ c ++ (rm.drop 4).drop c.length, ?_, ?_⟩
  · rw [e1, ← l1]
    exact store_append _ _ _ (by simp; omega)
  · have e2 : pre ++ rm.take 4 ++ c ++ (rm.drop 4).drop c.length
        = pre ++ (rm.take 4 ++ c ++ (rm.drop 4).drop c.length) := by simp
    rw [e2, store_append _ _ _ (by simp; omega)]
    have h4 : 4 ≤ rm.length := by omega
    simp [hh, List.drop_append_eq_append_drop, List.drop_drop, Nat.add_comm, Nat.min_eq_left h4]

theorem readOnePacketLoop_pos (maxCount off : Nat) (l : List ReadOutcome) (rc : Int)
    (s : Master) (h : 0 < rc) :
    readOnePacketLoop maxCount off l rc s = .ok (rc, { s with pending := l }) := by
  cases l with
  | nil => simp [readOnePacketLoop]
  | cons o rest => simp [readOnePacketLoop, not_le.mpr h]

theorem readCount_eq (maxCount : Nat) (h : 4 ≤ maxCount) : readCount maxCount = maxCount - 4 := by
  simp [readCount, h]

theorem readOnePacket_chunk (maxCount : Nat) (pre rm c : List Byte) (rest : List ReadOutcome)
    (s : Master) (hpend : s.pending = ReadOutcome.data c :: rest) (hmem : s.mem = pre ++ rm)
    (hpos : 0 < c.length) (hlt : (c.length : Int) < (maxCount : Int) - 4)
    (hfit : 4 + c.length ≤ rm.length) :
    readOnePacket maxCount pre.length s =
      .ok ((c.length : Int) + 4,
        { s with pending := rest,
                 mem := pre ++ encodeHdr (c.length : Int) ++ c ++ rm.drop (4 + c.length) }) := by
  have h4 : 4 ≤ maxCount := by omega
  have htake : c.take (readCount maxCount) = c := by
    rw [readCount_eq _ h4]; apply List.take_of_length_le; omega
  obtain ⟨m1, hs1, hs2⟩ := store_hdr_payload pre rm (encodeHdr (c.length : Int)) c
    (encodeHdr_length _) hfit
  unfold readOnePacket
  rw [hpend]
  unfold readOnePacketLoop
  simp only [le_refl, if_true, htake, hmem, hs1, hs2]
  have hb : decide ((maxCount : Int) - 4 ≤ (c.length : Int)) = false := by
    simp; omega
  simp only [hb]
  have hne : ¬ ((c.length : Int) = -1) := by omega
  simp [hne]
  rw [readOnePacketLoop_pos _ _ _ _ _ (by omega)]
  have : ¬ ((c.length : Int) ≤ 0) := by omega
  simp [this]

theorem ptmxReadAllLoop_chunks (maxCount : Nat) (chunks : List (List Byte)) :
    ∀ (fuel : Nat) (pre rm : List Byte) (s : Master),
      s.pending = chunks.map ReadOutcome.data → s.mem = pre ++ rm →
      (∀ c ∈ chunks, 0 < c.length ∧ (c.length : Int) < (maxCount : Int) - 4) →
      streamLen chunks ≤ rm.length → chunks.length < fuel →
      ptmxReadAllLoop maxCount fuel pre.length s =
        .ok (0, pre.length + streamLen chunks,
          { s with pending := [],
                   mem := pre ++ encodeStream chunks ++ rm.drop (streamLen chunks) }) := by
  induction chunks with
  | nil =>
    intro fuel pre rm s hpend hmem _ _ hfuel
    obtain ⟨f, rfl⟩ : ∃ f, fuel = f + 1 := ⟨fuel - 1, by simp at hfuel; omega⟩
    simp [ptmxReadAllLoop, readOnePacket, hpend, readOnePacketLoop, encodeStream, streamLen,
      hmem]
  | cons c cs ih =>
    intro fuel pre rm s hpend hmem hlen hfit hfuel
    obtain ⟨f, rfl⟩ : ∃ f, fuel = f + 1 := ⟨fuel - 1, by simp at hfuel; omega⟩
    have hc := hlen c (List.mem_cons_self _ _)
    rw [streamLen_cons] at hfit
    unfold ptmxReadAllLoop
    rw [readOnePacket_chunk maxCount pre rm c (cs.map ReadOutcome.data) s
      (by simpa using hpend) hmem hc.1 hc.2 (by omega)]
    have hpos : (0 : Int) < (c.length : Int) + 4 := by omega
    simp only [hpos, if_true]
    have hoff : pre.length + ((c.length : Int) + 4).toNat
        = (pre ++ encodeHdr (c.length : Int) ++ c).length := by
      simp [encodeHdr_length]; omega
    rw [hoff]
    rw [ih f (pre ++ encodeHdr (c.length : Int) ++ c) (rm.drop (4 + c.length)) _ rfl rfl
      (fun x hx => hlen x (List.mem_cons_of_mem _ hx)) (by simp; omega)
      (by simp at hfuel; omega)]
    simp [encodeStream_cons, streamLen_cons, encodeHdr_length, List.drop_drop]
    omega

theorem ptmxReadAll_of_chunks (maxCount : Nat) (chunks : List (List Byte)) (s : Master)
    (hpend : s.pending = chunks.map ReadOutcome.data)
    (hlen : ∀ c ∈ chunks, 0 < c.length ∧ (c.length : Int) < (maxCount : Int) - 4)
    (hfit : streamLen chunks + 4 ≤ s.mem.length) :
    ptmxReadAll maxCount s =
      .ok (((streamLen chunks + 4 : Nat) : Int),
        { s with pending := [],
                 mem := encodeStream chunks ++ encodeHdr 0
                          ++ s.mem.drop (streamLen chunks + 4) }) := by
  unfold ptmxReadAll
  have h := ptmxReadAllLoop_chunks maxCount chunks (s.pending.length + 1) [] s.mem s hpend
    (by simp) hlen (by omega) (by simp [hpend])
  simp only [List.length_nil, List.nil_append, Nat.zero_add] at h
  rw [h]
  have hl : (encodeStream chunks).length = streamLen chunks := encodeStream_length chunks
  have hst := store_append (encodeStream chunks) (s.mem.drop (streamLen chunks)) (encodeHdr 0)
    (by simp [encodeHdr_length]; omega)
  rw [hl] at hst
  simp only [hst]
  simp [encodeHdr_length, List.drop_drop, Nat.add_comm]
  omega

/-- C1 (as amended): for every sequence of reads from the master, the i-th
returning `n_i` bytes with `0 < n_i < maxCount - 4`, after which the
descriptor is not ready to read, and whose stream `sum (4 + n_i) + 4` fits
into the `maxCount` bytes of the buffer, `ptmxReadAll` leaves in the buffer
for each read in order a 4-byte header holding `n_i` followed by those `n_i`
bytes, then a 4-byte header holding 0, leaves the rest of the buffer as it
was, and returns `sum (4 + n_i) + 4`. -/
theorem ptmxReadAll_chunk_format (maxCount : Nat) (chunks : List (List Byte)) (s : Master)
    (hpend : s.pending = chunks.map ReadOutcome.data)
    (hlen : ∀ c ∈ chunks, 0 < c.length ∧ (c.length : Int) < (maxCount : Int) - 4)
    (hcap : s.mem.length = maxCount)
    (hfit : streamLen chunks + 4 ≤ maxCount) :
    ptmxReadAll maxCount s =
      .ok (((streamLen chunks + 4 : Nat) : Int),
        { s with pending := [],
                 mem := encodeStream chunks ++ encodeHdr 0
                          ++ s.mem.drop (streamLen chunks + 4) }) := by
  have hroom : streamLen chunks + 4 ≤ s.mem.length := by omega
  unfold ptmxReadAll
  have h := ptmxReadAllLoop_chunks maxCount chunks (s.pending.length + 1) [] s.mem s hpend
    (by simp) hlen (by omega) (by simp [hpend])
  simp only [List.length_nil, List.nil_append, Nat.zero_add] at h
  rw [h]
  have hl : (encodeStream chunks).length = streamLen chunks := encodeStream_length chunks
  have hst := store_append (encodeStream chunks) (s.mem.drop (streamLen chunks)) (encodeHdr 0)
    (by simp [encodeHdr_length]; omega)
  rw [hl] at hst
  simp only [hst]
  simp [encodeHdr_length, List.drop_drop, Nat.add_comm]
  omega

/-- C1, the example of the claim: a single read of "abc" into a buffer of 16
bytes leaves `[3]"abc"[0]` and returns 11. -/
theorem ptmxReadAll_chunk_format_witness :
    (smallMaster [.data [97, 98, 99]]).pending = [[97, 98, 99]].map ReadOutcome.data ∧
    (∀ c ∈ [[97, 98, 99]], 0 < c.length ∧ (c.length : Int) < ((16 : Nat) : Int) - 4) ∧
    (smallMaster [.data [97, 98, 99]]).mem.length = 16 ∧
    streamLen [[97, 98, 99]] + 4 ≤ 16 ∧
    ptmxReadAll 16 (smallMaster [.data [97, 98, 99]]) =
      .ok (((streamLen [[97, 98, 99]] + 4 : Nat) : Int),
        { smallMaster [.data [97, 98, 99]] with
            pending := [],
            mem := encodeStream [[97, 98, 99]] ++ encodeHdr 0
                     ++ (smallMaster [.data [97, 98, 99]]).mem.drop
                          (streamLen [[97, 98, 99]] + 4) }) :=
  ⟨by decide, by decide, by decide, by decide,
    ptmxReadAll_chunk_format 16 [[97, 98, 99]] (smallMaster [.data [97, 98, 99]])
      (by decide) (by decide) (by decide) (by decide)⟩

/-- C1 as stated fails: two reads of 8 bytes each satisfy `0 < n_i < 16 - 4`,
but the second packet does not fit into the 16 bytes of the buffer and
`ptmxReadAll` stores outside of it instead of leaving both packets in it and
returning 28. -/
theorem ptmxReadAll_chunk_format_counterexample :
    overflowMaster.pending
        = [[1, 2, 3, 4, 5, 6, 7, 8], [1, 2, 3, 4, 5, 6, 7, 8]].map ReadOutcome.data ∧
    (∀ c ∈ [[1, 2, 3, 4, 5, 6, 7, 8], [1, 2, 3, 4, 5, 6, 7, 8]],
        0 < c.length ∧ (c.length : Int) < ((16 : Nat) : Int) - 4) ∧
    overflowMaster.mem.length = 16 ∧
    ptmxReadAll 16 overflowMaster = .error .outOfBounds := by
  decide

theorem store_too_long (buf : List Byte) (off : Nat) (bs : List Byte)
    (h : buf.length < off + bs.length) : store buf off bs = .error .outOfBounds := by
  unfold store
  rw [if_neg (by omega)]

theorem chunksOf_cons_empty (o : ReadOutcome) (rest : List ReadOutcome) (h : o.payload = []) :
    chunksOf (o :: rest) = chunksOf rest := by
  simp [chunksOf, h]

theorem chunksOf_cons_data (c : List Byte) (rest : List ReadOutcome) (h : 0 < c.length) :
    chunksOf (ReadOutcome.data c :: rest) = c :: chunksOf rest := by
  cases c with
  | nil => simp at h
  | cons b bs => simp [chunksOf, ReadOutcome.payload]

theorem readOnePacketLoop_spec (maxCount : Nat) (pre : List Byte) :
    ∀ (l : List ReadOutcome) (rc : Int) (s : Master) (rm : List Byte) (r : Int) (s1 : Master),
      rc ≤ 0 → s.mem = pre ++ rm →
      readOnePacketLoop maxCount pre.length l rc s = .ok (r, s1) →
      s1.answers = s.answers ∧ s1.calls = s.calls ∧ s1.written = s.written ∧
      (0 < r → ∃ c tail, chunksOf l = c :: chunksOf s1.pending ∧ (c.length : Int) = r ∧
          r < (maxCount : Int) - 4 ∧ s1.mem = pre ++ encodeHdr r ++ c ++ tail ∧
          s1.pending.length < l.length) ∧
      (r = 0 → chunksOf l = [] ∧ s1.pending = [] ∧ ∃ tail, s1.mem = pre ++ tail) := by
  intro l
  induction l with
  | nil =>
    intro rc s rm r s1 hrc hmem hrun
    simp only [readOnePacketLoop, Except.ok.injEq, Prod.mk.injEq] at hrun
    obtain ⟨rfl, rfl⟩ := hrun
    refine ⟨rfl, rfl, rfl, fun h => absurd h (not_lt.mpr hrc), fun _ => ⟨rfl, rfl, rm, hmem⟩⟩
  | cons o rest ih =>
    intro rc s rm r s1 hrc hmem hrun
    unfold readOnePacketLoop at hrun
    simp only [hrc, if_true] at hrun
    cases o with
    | data bs =>
      simp only [] at hrun
      obtain ⟨got, hgot⟩ : ∃ got, bs.take (readCount maxCount) = got := ⟨_, rfl⟩
      simp only [hgot] at hrun
      by_cases hfit : 4 + got.length ≤ rm.length
      · obtain ⟨m1, hs1, hs2⟩ := store_hdr_payload pre rm (encodeHdr (got.length : Int)) got
          (encodeHdr_length _) hfit
        rw [hmem] at hrun
        simp only [hs1, hs2] at hrun
        by_cases hbig : (maxCount : Int) - 4 ≤ (got.length : Int)
        · simp [hbig] at hrun
          obtain ⟨rfl, rfl⟩ := hrun
          refine ⟨rfl, rfl, rfl, fun h => by omega, fun h => by omega⟩
        · have hne : ¬ ((got.length : Int) = -1) := by omega
          simp only [hbig, decide_False, Bool.false_eq_true, if_false, hne, false_and] at hrun
          have h4 : 4 ≤ maxCount := by omega
          have hrc4 := readCount_eq _ h4
          have hlen : got.length = min (readCount maxCount) bs.length := by
            rw [← hgot, List.length_take]
          have hbs : got = bs := by
            rw [← hgot, List.take_eq_self_iff]
            omega
          by_cases hz : got.length = 0
          · have hg : got = [] := List.length_eq_zero.mp hz
            rw [hz] at hrun
            have := ih 0 _ (encodeHdr ((0 : Nat) : Int) ++ got ++ rm.drop (4 + 0)) r s1 (le_refl _)
              ?_ hrun
            swap
            · simp
            obtain ⟨a1, a2, a3, a4, a5⟩ := this
            have hc : chunksOf (ReadOutcome.data bs :: rest) = chunksOf rest :=
              chunksOf_cons_empty _ _ (by simp [ReadOutcome.payload, ← hbs, hg])
            refine ⟨a1, a2, a3, ?_, ?_⟩
            · intro hr
              obtain ⟨c, tail, b1, b2, b3, b4, b5⟩ := a4 hr
              exact ⟨c, tail, by rw [hc, b1], b2, b3, b4, by simp; omega⟩
            · intro hr
              obtain ⟨b1, b2, b3⟩ := a5 hr
              exact ⟨by rw [hc, b1], b2, b3⟩
          · have hpos : (0 : Int) < (got.length : Int) := by omega
            rw [readOnePacketLoop_pos _ _ _ _ _ hpos] at hrun
            simp only [Except.ok.injEq, Prod.mk.injEq] at hrun
            obtain ⟨rfl, rfl⟩ := hrun
            refine ⟨rfl, rfl, rfl, fun _ => ?_, fun h => by omega⟩
            refine ⟨got, rm.drop (4 + got.length), ?_, rfl, by omega, rfl, by simp⟩
            rw [← hbs]
            exact chunksOf_cons_data _ _ (by omega)
      · exfalso
        rw [hmem] at hrun
        rw [store_too_long _ _ _ (by simp; omega)] at hrun
        simp at hrun
    | error e =>
      simp only [] at hrun
      by_cases hfit : 4 + ([] : List Byte).length ≤ rm.length
      · obtain ⟨m1, hs1, hs2⟩ := store_hdr_payload pre rm (encodeHdr (-1)) []
          (encodeHdr_length _) hfit
        rw [hmem] at hrun
        simp only [hs1, hs2] at hrun
        have hc : chunksOf (ReadOutcome.error e :: rest) = chunksOf rest :=
          chunksOf_cons_empty _ _ (by simp [ReadOutcome.payload])
        by_cases hbig : (maxCount : Int) - 4 ≤ -1
        · simp [hbig] at hrun
          obtain ⟨rfl, rfl⟩ := hrun
          refine ⟨rfl, rfl, rfl, fun h => by omega, fun h => by omega⟩
        · simp only [hbig, decide_False, Bool.false_eq_true, if_false, true_and] at hrun
          by_cases hbrk : e ≠ Errno.EAGAIN ∧ e ≠ Errno.EINTR
          · rw [if_pos hbrk] at hrun
            simp only [Except.ok.injEq, Prod.mk.injEq] at hrun
            obtain ⟨rfl, rfl⟩ := hrun
            refine ⟨rfl, rfl, rfl, fun h => by omega, fun h => by omega⟩
          · rw [if_neg hbrk] at hrun
            have := ih (-1) _ (encodeHdr (-1) ++ [] ++ rm.drop (4 + 0)) r s1 (by omega)
              ?_ hrun
            swap
            · simp
            obtain ⟨a1, a2, a3, a4, a5⟩ := this
            refine ⟨a1, a2, a3, ?_, ?_⟩
            · intro hr
              obtain ⟨c, tail, b1, b2, b3, b4, b5⟩ := a4 hr
              exact ⟨c, tail, by rw [hc, b1], b2, b3, b4, by simp; omega⟩
            · intro hr
              obtain ⟨b1, b2, b3⟩ := a5 hr
              exact ⟨by rw [hc, b1], b2, b3⟩
      · exfalso
        rw [hmem] at hrun
        rw [store_too_long _ _ _
          (by simp only [List.length_append, List.length_nil] at hfit ⊢; omega)] at hrun
        simp at hrun

theorem ptmxReadAllLoop_spec (maxCount : Nat) :
    ∀ (fuel : Nat) (pre rm : List Byte) (s : Master) (rc : Int) (off : Nat) (s1 : Master),
      s.mem = pre ++ rm →
      ptmxReadAllLoop maxCount fuel pre.length s = .ok (rc, off, s1) → 0 ≤ rc →
      s1.answers = s.answers ∧ s1.calls = s.calls ∧ s1.written = s.written ∧
      off = pre.length + streamLen (chunksOf s.pending) ∧
      (∀ c ∈ chunksOf s.pending, (c.length : Int) < (maxCount : Int) - 4) ∧
      ∃ tail, s1.mem = pre ++ encodeStream (chunksOf s.pending) ++ tail := by
  intro fuel
  induction fuel with
  | zero =>
    intro pre rm s rc off s1 _ hrun
    simp [ptmxReadAllLoop] at hrun
  | succ f ih =>
    intro pre rm s rc off s1 hmem hrun hrc
    unfold ptmxReadAllLoop readOnePacket at hrun
    cases hloop : readOnePacketLoop maxCount pre.length s.pending 0 s with
    | error a => simp [hloop] at hrun
    | ok p =>
      obtain ⟨r, s2⟩ := p
      obtain ⟨a1, a2, a3, a4, a5⟩ :=
        readOnePacketLoop_spec maxCount pre s.pending 0 s rm r s2 (le_refl _) hmem hloop
      simp only [hloop] at hrun
      by_cases hr : 0 < r
      · have hr1 : ¬ r ≤ 0 := by omega
        have hr2 : (0 : Int) < r + 4 := by omega
        simp only [hr1, if_false, hr2, if_true] at hrun
        obtain ⟨c, tail, b1, b2, b3, b4, _⟩ := a4 hr
        have hoff : pre.length + (r + 4).toNat = (pre ++ encodeHdr r ++ c).length := by
          simp [encodeHdr_length]; omega
        rw [hoff] at hrun
        obtain ⟨c1, c2, c3, c4, c5, tail2, c6⟩ :=
          ih (pre ++ encodeHdr r ++ c) tail s2 rc off s1 b4 hrun hrc
        refine ⟨c1.trans a1, c2.trans a2, c3.trans a3, ?_, ?_, tail2, ?_⟩
        · rw [c4, b1, streamLen_cons]
          simp [encodeHdr_length]; omega
        · intro x hx
          rw [b1] at hx
          rcases List.mem_cons.mp hx with rfl | hx
          · omega
          · exact c5 x hx
        · rw [c6, b1, encodeStream_cons, b2]
          simp
      · have hr1 : r ≤ 0 := by omega
        simp only [hr1, if_true, hr, if_false, Except.ok.injEq, Prod.mk.injEq] at hrun
        obtain ⟨rfl, rfl, rfl⟩ := hrun
        have hr0 : r = 0 := by omega
        obtain ⟨b1, _, tail, b3⟩ := a5 hr0
        refine ⟨a1, a2, a3, ?_, ?_, tail, ?_⟩
        · simp [b1, streamLen]
        · simp [b1]
        · simp [b1, encodeStream, b3]

theorem ptmxReadAll_spec (maxCount : Nat) (s s1 : Master) (n : Int)
    (hread : ptmxReadAll maxCount s = .ok (n, s1)) (hn : 0 ≤ n) :
    s1.answers = s.answers ∧ s1.calls = s.calls ∧ s1.written = s.written ∧
    n = ((streamLen (chunksOf s.pending) + 4 : Nat) : Int) ∧
    (∀ c ∈ chunksOf s.pending, (c.length : Int) < (maxCount : Int) - 4) ∧
    ∃ tail, s1.mem = encodeStream (chunksOf s.pending) ++ encodeHdr 0 ++ tail := by
  unfold ptmxReadAll at hread
  cases hloop : ptmxReadAllLoop maxCount (s.pending.length + 1) 0 s with
  | error a => simp [hloop] at hread
  | ok p =>
    obtain ⟨rc, off, s2⟩ := p
    simp only [hloop] at hread
    cases hst : store s2.mem off (encodeHdr 0) with
    | error a => simp [hst] at hread
    | ok mem2 =>
      simp only [hst] at hread
      have hpos : (0 : Int) < ((off + 4 : Nat) : Int) := by omega
      simp only [hpos, or_true, if_true, Except.ok.injEq, Prod.mk.injEq] at hread
      obtain ⟨h1, rfl⟩ := hread
      have hrc : ¬ rc < 0 := by
        intro h
        rw [if_pos h] at h1
        omega
      rw [if_neg hrc] at h1
      obtain ⟨a1, a2, a3, a4, a5, tail, a6⟩ :=
        ptmxReadAllLoop_spec maxCount (s.pending.length + 1) [] s.mem s rc off s2 (by simp)
          hloop (by omega)
      simp only [List.length_nil, Nat.zero_add, List.nil_append] at a4 a6
      refine ⟨a1, a2, a3, ?_, a5, tail.drop 4, ?_⟩
      · rw [← h1, a4]
      · have hl := encodeStream_length (chunksOf s.pending)
        rw [a6, a4, ← hl] at hst
        by_cases hfit : (encodeHdr 0).length ≤ tail.length
        · rw [store_append _ _ _ hfit] at hst
          simp only [Except.ok.injEq] at hst
          simp [← hst, encodeHdr_length]
        · rw [store_too_long _ _ _ (by simp only [List.length_append]; omega)] at hst
          simp at hst

theorem decodeHdr_encodeHdr (n : Nat) (h : n < 2147483648) :
    decodeHdr (encodeHdr (n : Int)) = (n : Int) := by
  have hu : ((n : Int) % 4294967296).toNat = n := by omega
  simp only [encodeHdr, decodeHdr, hu]
  have hs : n % 256 + 256 * (n / 256 % 256) + 65536 * (n / 65536 % 256)
      + 16777216 * (n / 16777216 % 256) = n := by omega
  rw [hs, if_pos h]

theorem load_append (pre x tail : List Byte) :
    load (pre ++ x ++ tail) pre.length x.length = .ok x := by
  unfold load
  rw [if_pos (by simp)]
  simp [List.append_assoc]

theorem writeOnePacketLoop_done (off : Nat) (count : Int) (l : List WriteOutcome)
    (cum rc : Int) (s : Master) (h : ¬ cum < count) :
    writeOnePacketLoop off count l cum rc s = .ok (cum, rc, { s with answers := l }) := by
  cases l with
  | nil => simp [writeOnePacketLoop, h]
  | cons a rest => simp [writeOnePacketLoop, h]

theorem writeOnePacket_chunk (pre c tail : List Byte) (k : Nat) (rest : List WriteOutcome)
    (isPacketMode : Bool) (s : Master)
    (hmem : s.mem = pre ++ encodeHdr (c.length : Int) ++ c ++ tail)
    (hans : s.answers = WriteOutcome.accepts k :: rest)
    (hpos : 0 < c.length) (hlt : c.length < 2147483648) (hk : c.length ≤ k)
    (hpm : ¬ (c.length = 1 ∧ isPacketMode = true)) :
    writeOnePacket pre.length isPacketMode s =
      .ok ((c.length : Int) + 4,
        { s with answers := rest, calls := s.calls ++ [c], written := s.written ++ c }) := by
  unfold writeOnePacket
  have hl1 : load s.mem pre.length 4 = .ok (encodeHdr (c.length : Int)) := by
    rw [hmem, List.append_assoc, ← encodeHdr_length (c.length : Int)]
    exact load_append _ _ _
  have hl2 : load s.mem (pre.length + 4 + (0 : Int).toNat) ((c.length : Int) - 0).toNat
      = .ok c := by
    have e : pre.length + 4 + (0 : Int).toNat = (pre ++ encodeHdr (c.length : Int)).length := by
      simp [encodeHdr_length]
    have e2 : ((c.length : Int) - 0).toNat = c.length := by simp
    rw [hmem, e, e2]
    exact load_append _ _ _
  have hc0 : ¬ ((c.length : Int) = 0) := by omega
  have hc1 : ¬ ((c.length : Int) = 1 ∧ isPacketMode = true) := by
    intro h
    exact hpm ⟨by omega, h.2⟩
  have htake : c.take k = c := List.take_of_length_le hk
  simp only [hl1, decodeHdr_encodeHdr _ hlt, hc0, if_false, hc1, hans]
  unfold writeOnePacketLoop
  have hlt0 : (0 : Int) < (c.length : Int) := by omega
  simp only [hlt0, if_true, hl2, htake]
  rw [writeOnePacketLoop_done _ _ _ _ _ _ (by omega)]
  have hneg : ¬ ((c.length : Int) < 0) := by omega
  simp [hc0, hneg]

theorem writeOnePacket_end (pre tail : List Byte) (isPacketMode : Bool) (s : Master)
    (hmem : s.mem = pre ++ encodeHdr 0 ++ tail) :
    writeOnePacket pre.length isPacketMode s = .ok (4, s) := by
  unfold writeOnePacket
  have hl1 : load s.mem pre.length 4 = .ok (encodeHdr 0) := by
    rw [hmem, ← encodeHdr_length 0]
    exact load_append _ _ _
  have hd : decodeHdr (encodeHdr 0) = 0 := by decide
  simp [hl1, hd]

theorem ptmxWriteAllLoop_stream (bound : Nat) (cs : List (List Byte)) :
    ∀ (fuel : Nat) (pre tail : List Byte) (s : Master),
      s.mem = pre ++ encodeStream cs ++ encodeHdr 0 ++ tail →
      (∀ c ∈ cs, 0 < c.length ∧ c.length ≤ bound ∧ c.length < 2147483648) →
      (∀ a ∈ s.answers, ∃ k, a = WriteOutcome.accepts k ∧ bound ≤ k) →
      cs.length ≤ s.answers.length → cs.length < fuel →
      ptmxWriteAllLoop false fuel pre.length s =
        .ok (4, pre.length + streamLen cs,
          { s with answers := s.answers.drop cs.length, calls := s.calls ++ cs,
                   written := s.written ++ cs.flatten }) := by
  induction cs with
  | nil =>
    intro fuel pre tail s hmem _ _ _ hfuel
    obtain ⟨f, rfl⟩ : ∃ f, fuel = f + 1 := ⟨fuel - 1, by simp at hfuel; omega⟩
    unfold ptmxWriteAllLoop
    rw [writeOnePacket_end pre tail false s (by simpa [encodeStream] using hmem)]
    simp [streamLen]
  | cons c cs ih =>
    intro fuel pre tail s hmem hlen hacc hans hfuel
    obtain ⟨f, rfl⟩ : ∃ f, fuel = f + 1 := ⟨fuel - 1, by simp at hfuel; omega⟩
    obtain ⟨hc1, hc2, hc3⟩ := hlen c (List.mem_cons_self _ _)
    cases hanswers : s.answers with
    | nil => simp [hanswers] at hans
    | cons a rest =>
      obtain ⟨k, rfl, hk⟩ := hacc a (by simp [hanswers])
      unfold ptmxWriteAllLoop
      rw [writeOnePacket_chunk pre c (encodeStream cs ++ encodeHdr 0 ++ tail) k rest false s
        (by rw [hmem, encodeStream_cons]; simp) hanswers hc1 hc3 (by omega) (by simp)]
      have hpos : (4 : Int) < (c.length : Int) + 4 := by omega
      simp only [hpos, if_true]
      have hoff : pre.length + ((c.length : Int) + 4).toNat
          = (pre ++ encodeHdr (c.length : Int) ++ c).length := by
        simp [encodeHdr_length]; omega
      rw [hoff]
      rw [ih f (pre ++ encodeHdr (c.length : Int) ++ c) tail _
        (by rw [hmem, encodeStream_cons]; simp)
        (fun x hx => hlen x (List.mem_cons_of_mem _ hx))
        (fun x hx => hacc x (by rw [hanswers]; exact List.mem_cons_of_mem _ hx))
        (by simp [hanswers] at hans ⊢; omega) (by simp at hfuel; omega)]
      simp [streamLen_cons, encodeHdr_length, hanswers]
      omega

theorem chunksOf_pos (l : List ReadOutcome) : ∀ c ∈ chunksOf l, 0 < c.length := by
  intro c hc
  simp only [chunksOf, List.mem_filter] at hc
  cases c with
  | nil => simp at hc
  | cons b bs => simp

theorem chunksOf_flatten (l : List ReadOutcome) : (chunksOf l).flatten = drained l := by
  induction l with
  | nil => simp [chunksOf, drained]
  | cons o rest ih =>
    cases hp : o.payload with
    | nil =>
      rw [chunksOf_cons_empty o rest hp, ih]
      simp [drained, hp]
    | cons b bs =>
      have : chunksOf (o :: rest) = (b :: bs) :: chunksOf rest := by
        simp [chunksOf, hp]
      rw [this, List.flatten_cons, ih]
      simp [drained, hp]

theorem length_le_streamLen (cs : List (List Byte)) : cs.length ≤ streamLen cs := by
  induction cs with
  | nil => simp [streamLen]
  | cons c cs ih => rw [streamLen_cons, List.length_cons]; omega

theorem ptmxWriteAll_of_stream (bound : Nat) (cs : List (List Byte)) (tail : List Byte)
    (s : Master) (hmem : s.mem = encodeStream cs ++ encodeHdr 0 ++ tail)
    (hlen : ∀ c ∈ cs, 0 < c.length ∧ c.length ≤ bound ∧ c.length < 2147483648)
    (hacc : ∀ a ∈ s.answers, ∃ k, a = WriteOutcome.accepts k ∧ bound ≤ k)
    (hans : cs.length ≤ s.answers.length) :
    ptmxWriteAll false s =
      .ok (((streamLen cs + 4 : Nat) : Int),
        { s with answers := s.answers.drop cs.length, calls := s.calls ++ cs,
                 written := s.written ++ cs.flatten }) := by
  unfold ptmxWriteAll
  have hfuel : cs.length < s.mem.length + 1 := by
    have h1 := length_le_streamLen cs
    have h2 := encodeStream_length cs
    rw [hmem]
    simp only [List.length_append]
    omega
  have h := ptmxWriteAllLoop_stream bound cs (s.mem.length + 1) [] tail s (by simpa using hmem)
    hlen hacc hans hfuel
  simp only [List.length_nil, Nat.zero_add] at h
  rw [h]
  simp

theorem ckptMaster_drain : ptmxReadAll 10000 ckptMaster = .ok (11, ckptMasterDrained) :=
  ptmxReadAll_of_chunks 10000 [[97, 98, 99]] ckptMaster rfl (by decide)
    (by
      show 11 ≤ (List.replicate 10000 0).length
      rw [List.length_replicate]
      decide)

theorem ckptMaster_answers :
    ∀ a ∈ ckptMaster.answers, ∃ k, a = WriteOutcome.accepts k ∧ 10000 ≤ k := by
  intro a ha
  simp only [ckptMaster, List.mem_singleton] at ha
  exact ⟨10000, ha, le_refl _⟩

/-- C2: for every chunk stream that `ptmxReadAll` produced without error
(result `n ≥ 0`, `maxCount` in the range of an `int`), the buffer holds the
chunks of the drain followed by the zero header, and `ptmxWriteAll` with
marker mode off, on a terminal whose writes take all bytes offered, issues
exactly one write per chunk, in order, each of that chunk's payload, so that
the bytes written are the bytes drained, and returns the same `n`; hence the
assertion `numRead == numWritten` of `PtyConnection::preCheckpoint` holds and
the method returns. -/
theorem ptmx_drain_replay_round_trip (maxCount : Nat) (s s1 : Master) (n : Int)
    (hmax : maxCount < 2147483648)
    (hread : ptmxReadAll maxCount s = .ok (n, s1)) (hn : 0 ≤ n)
    (hacc : ∀ a ∈ s.answers, ∃ k, a = WriteOutcome.accepts k ∧ maxCount ≤ k)
    (hans : (chunksOf s.pending).length ≤ s.answers.length) :
    s1.mem.take n.toNat = encodeStream (chunksOf s.pending) ++ encodeHdr 0 ∧
    (chunksOf s.pending).flatten = drained s.pending ∧
    ptmxWriteAll false s1 =
      .ok (n, { s1 with answers := s.answers.drop (chunksOf s.pending).length,
                        calls := s.calls ++ chunksOf s.pending,
                        written := s.written ++ drained s.pending }) ∧
    (∀ (c : PtyConnection) (p : Probe), maxCount = 10000 → c.type = PtyType.PTY_MASTER →
      ptmxTestPacketMode p = .ok false →
      PtyConnection.preCheckpoint c p s =
        .ok ({ c with ptmxIsPacketMode := false },
          { s1 with answers := s.answers.drop (chunksOf s.pending).length,
                    calls := s.calls ++ chunksOf s.pending,
                    written := s.written ++ drained s.pending })) := by
  obtain ⟨a1, a2, a3, a4, a5, tail, a6⟩ := ptmxReadAll_spec maxCount s s1 n hread hn
  have hw : ptmxWriteAll false s1 =
      .ok (n, { s1 with answers := s.answers.drop (chunksOf s.pending).length,
                        calls := s.calls ++ chunksOf s.pending,
                        written := s.written ++ drained s.pending }) := by
    have hlen : ∀ c ∈ chunksOf s.pending,
        0 < c.length ∧ c.length ≤ maxCount ∧ c.length < 2147483648 := by
      intro c hc
      have h1 := chunksOf_pos s.pending c hc
      have h2 := a5 c hc
      omega
    rw [ptmxWriteAll_of_stream maxCount (chunksOf s.pending) tail s1 a6 hlen
      (by rw [a1]; exact hacc) (by rw [a1]; exact hans)]
    rw [a1, a2, a3, a4, chunksOf_flatten]
  refine ⟨?_, chunksOf_flatten _, hw, ?_⟩
  · have hl := encodeStream_length (chunksOf s.pending)
    have hlen : n.toNat = (encodeStream (chunksOf s.pending) ++ encodeHdr 0).length := by
      rw [a4, List.length_append, hl, encodeHdr_length]
      omega
    rw [a6, hlen, List.take_left]
  · intro c p h10 hc hp
    subst h10
    unfold PtyConnection.preCheckpoint
    simp [hc, hread, hp, hw]

/-- C2, an example: the drain of "abc" in `PtyConnection::preCheckpoint` and
its replay. -/
theorem ptmx_drain_replay_round_trip_witness :
    (10000 : Nat) < 2147483648 ∧
    ptmxReadAll 10000 ckptMaster = .ok (11, ckptMasterDrained) ∧
    (0 : Int) ≤ 11 ∧
    (∀ a ∈ ckptMaster.answers, ∃ k, a = WriteOutcome.accepts k ∧ 10000 ≤ k) ∧
    (chunksOf ckptMaster.pending).length ≤ ckptMaster.answers.length ∧
    ptmxWriteAll false ckptMasterDrained =
      .ok (11, { ckptMasterDrained with
                   answers := ckptMaster.answers.drop (chunksOf ckptMaster.pending).length,
                   calls := ckptMaster.calls ++ chunksOf ckptMaster.pending,
                   written := ckptMaster.written ++ drained ckptMaster.pending }) :=
  ⟨by decide, ckptMaster_drain, by decide, ckptMaster_answers, by decide,
    (ptmx_drain_replay_round_trip 10000 ckptMaster ckptMasterDrained 11 (by decide)
      ckptMaster_drain (by decide) (ckptMaster_answers) (by decide)).2.2.1⟩

/-- C3 (as amended): when marker mode was recorded as active, replaying a
captured chunk whose payload length is 1 (`writeOnePacket` with
`isPacketMode = true` and header count 1) issues no write at all: the byte is
skipped, nothing reaches the master, and 4 + 1 bytes of the chunk stream are
consumed. -/
theorem writeOnePacket_marker_single_byte (pre tail : List Byte) (b : Byte) (s : Master)
    (hmem : s.mem = pre ++ encodeHdr 1 ++ [b] ++ tail) :
    writeOnePacket pre.length true s = .ok (4 + 1, s) := by
  unfold writeOnePacket
  have hl1 : load s.mem pre.length 4 = .ok (encodeHdr 1) := by
    rw [hmem, List.append_assoc, ← encodeHdr_length 1]
    exact load_append _ _ _
  have hd : decodeHdr (encodeHdr 1) = 1 := by decide
  simp [hl1, hd]

/-- C3, an example: the chunk `[1]"x"` at the start of the stream. -/
theorem writeOnePacket_marker_single_byte_witness :
    markerMaster.mem = ([] : List Byte) ++ encodeHdr 1 ++ [120] ++ [0, 0, 0, 0] ∧
    writeOnePacket ([] : List Byte).length true markerMaster = .ok (4 + 1, markerMaster) :=
  ⟨by decide, writeOnePacket_marker_single_byte [] [0, 0, 0, 0] 120 markerMaster (by decide)⟩

/-- C3 as stated fails: replaying the chunk `[1]"x"` in marker mode returns 5
and leaves the terminal untouched; no run of `writeOnePacket` on it writes the
byte 120 to the master. -/
theorem writeOnePacket_marker_single_byte_counterexample :
    writeOnePacket 0 true markerMaster = .ok (5, markerMaster) ∧
    markerMaster.calls = [] ∧ markerMaster.written = [] ∧
    ¬ ∃ s1, writeOnePacket 0 true markerMaster = .ok (5, s1) ∧ s1.written = [120] := by
  refine ⟨by decide, by decide, by decide, ?_⟩
  rintro ⟨s1, h, hw⟩
  have h0 : writeOnePacket 0 true markerMaster = .ok (5, markerMaster) := by decide
  rw [h0] at h
  simp only [Except.ok.injEq, Prod.mk.injEq, true_and] at h
  rw [← h] at hw
  exact absurd hw (by decide)

/-! ## FIFO connection -/

theorem fifoFlush_reads (datas : List (List Byte)) (e : Errno) (rest : List ReadOutcome) :
    ∀ acc : List Byte,
      fifoFlush (datas.map ReadOutcome.data ++ ReadOutcome.error e :: rest) acc =
        .ok (acc ++ (datas.map (List.take 256)).flatten, rest) := by
  induction datas with
  | nil => intro acc; simp [fifoFlush]
  | cons d ds ih =>
    intro acc
    rw [List.map_cons, List.cons_append, fifoFlush, ih]
    simp

theorem fifoRefillLoop_spec (in_data : List Byte) (writeAll : Nat → List Byte → Int)
    (hall : ∀ k bs, writeAll k bs = (bs.length : Int)) :
    ∀ (n i : Nat) (calls : List (List Byte)), (i + n) * 256 ≤ in_data.length →
      ∃ calls1, fifoRefillLoop in_data writeAll n i calls = .ok calls1 ∧
        calls1.flatten = calls.flatten ++ (in_data.drop (i * 256)).take (n * 256) ∧
        calls1.length = calls.length + n ∧
        (∀ w ∈ calls1, w ∈ calls ∨ w.length = 256) := by
  intro n
  induction n with
  | zero =>
    intro i calls _
    exact ⟨calls, by simp [fifoRefillLoop], by simp, by simp, fun w hw => Or.inl hw⟩
  | succ n ih =>
    intro i calls hle
    have hbuf : ((in_data.drop (i * 256)).take 256).length = 256 := by
      rw [List.length_take, List.length_drop]
      omega
    obtain ⟨calls1, h1, h2, h3, h4⟩ :=
      ih (i + 1) (calls ++ [(in_data.drop (i * 256)).take 256]) (by omega)
    refine ⟨calls1, ?_, ?_, ?_, ?_⟩
    · unfold fifoRefillLoop
      simp only [hall, hbuf]
      simpa using h1
    · rw [h2, List.flatten_append, List.flatten_singleton, List.append_assoc]
      congr 1
      have e1 : (n + 1) * 256 = 256 + n * 256 := by omega
      have e2 : (i + 1) * 256 = i * 256 + 256 := by omega
      rw [e1, List.take_add, List.drop_drop, e2]
    · rw [h3, List.length_append, List.length_singleton]
      omega
    · intro w hw
      rcases h4 w hw with h | h
      · rcases List.mem_append.mp h with h | h
        · exact Or.inl h
        · rw [List.mem_singleton] at h
          exact Or.inr (by rw [h, hbuf])
      · exact Or.inr h

/-- C4: for every sequence of reads made by `FifoConnection::preCheckpoint`,
each returning zero or more bytes and ended by the first read with a negative
result, the captured buffer is the concatenation of the bytes read, in order,
whatever the buffer held before; and `FifoConnection::refill`, when
`Util::writeAll` writes every byte it is given, makes `N / 256 + 1` calls of
at most 256 bytes each whose concatenation in order is the buffer, for every
buffer of every length `N`. -/
theorem fifo_capture_replay_round_trip (c : FifoConnection) (openFd : Int)
    (datas : List (List Byte)) (e : Errno) (rest : List ReadOutcome)
    (writeAll : Nat → List Byte → Int)
    (hfds : 0 < c.fds.length) (hopen : 0 ≤ openFd)
    (hall : ∀ k bs, writeAll k bs = (bs.length : Int)) :
    c.preCheckpoint openFd (datas.map ReadOutcome.data ++ ReadOutcome.error e :: rest) =
      .ok ({ c with ckptfd := openFd, in_data := (datas.map (List.take 256)).flatten }, rest) ∧
    ∃ calls, c.refill openFd writeAll = .ok ({ c with ckptfd := openFd }, calls) ∧
      calls.flatten = c.in_data ∧ (∀ w ∈ calls, w.length ≤ 256) ∧
      calls.length = c.in_data.length / 256 + 1 := by
  constructor
  · unfold FifoConnection.preCheckpoint
    simp [hfds, hopen, fifoFlush_reads]
  · obtain ⟨calls1, h1, h2, h3, h4⟩ :=
      fifoRefillLoop_spec c.in_data writeAll hall (c.in_data.length / 256) 0 []
        (by have := Nat.div_mul_le_self c.in_data.length 256; omega)
    have hrem : ((c.in_data.drop (c.in_data.length / 256 * 256)).take
        (c.in_data.length % 256)).length = c.in_data.length % 256 := by
      rw [List.length_take, List.length_drop]
      have := Nat.div_add_mod c.in_data.length 256
      omega
    refine ⟨calls1 ++ [(c.in_data.drop (c.in_data.length / 256 * 256)).take
        (c.in_data.length % 256)], ?_, ?_, ?_, ?_⟩
    · unfold FifoConnection.refill
      simp only [hopen, if_true, h1, hall, hrem]
    · rw [List.flatten_append, List.flatten_singleton, h2]
      simp only [List.flatten_nil, List.nil_append, Nat.zero_mul, List.drop_zero]
      have htk : (c.in_data.drop (c.in_data.length / 256 * 256)).take
          (c.in_data.length % 256) = c.in_data.drop (c.in_data.length / 256 * 256) := by
        apply List.take_of_length_le
        rw [List.length_drop]
        have := Nat.div_add_mod c.in_data.length 256
        omega
      rw [htk, List.take_append_drop]
    · intro w hw
      rcases List.mem_append.mp hw with h | h
      · rcases h4 w h with h | h
        · simp at h
        · omega
      · rw [List.mem_singleton] at h
        rw [h, hrem]
        have := Nat.mod_lt c.in_data.length (show 0 < 256 by decide)
        omega
    · rw [List.length_append, h3]
      simp

/-- C4, an example: reads of "ab", "" and "c" ended by a failing read, and the
replay of a buffer of two bytes. -/
theorem fifo_capture_replay_round_trip_witness :
    0 < fifoConn.fds.length ∧ (0 : Int) ≤ 7 ∧
    (∀ k bs, writeAllOk k bs = (bs.length : Int)) ∧
    (fifoConn.preCheckpoint 7
        ([[97, 98], [], [99]].map ReadOutcome.data ++ ReadOutcome.error Errno.EAGAIN :: []) =
      .ok ({ fifoConn with
               ckptfd := 7,
               in_data := ([[97, 98], [], [99]].map (List.take 256)).flatten }, []) ∧
    ∃ calls, fifoConn.refill 7 writeAllOk = .ok ({ fifoConn with ckptfd := 7 }, calls) ∧
      calls.flatten = fifoConn.in_data ∧ (∀ w ∈ calls, w.length ≤ 256) ∧
      calls.length = fifoConn.in_data.length / 256 + 1) :=
  ⟨by decide, by decide, fun _ _ => rfl,
    fifo_capture_replay_round_trip fifoConn 7 [[97, 98], [], [99]] Errno.EAGAIN [] writeAllOk
      (by decide) (by decide) (fun _ _ => rfl)⟩

/-! ## File connection -/

@[simp] theorem FM.bind_apply {α β : Type} (m : FM α) (f : α → FM β) (s : Sys) :
    (m >>= f) s = FM.andThen m f s := rfl

@[simp] theorem FM.pure_apply {α : Type} (a : α) (s : Sys) :
    (pure a : FM α) s = (.ok a, s) := rfl

@[simp] theorem FM.andThen_apply {α β : Type} (m : FM α) (f : α → FM β) (s : Sys) :
    FM.andThen m f s =
      match m s with
      | (.ok a, s1) => f a s1
      | (.error e, s1) => (.error e, s1) := rfl

@[simp] theorem emit_apply (e : Event) (s : Sys) :
    emit e s = (.ok (), { s with trace := s.trace ++ [e] }) := rfl

@[simp] theorem abort_apply {α : Type} (a : Abort) (s : Sys) :
    (abort a : FM α) s = (.error a, s) := rfl

@[simp] theorem JASSERT_apply (b : Bool) (s : Sys) :
    JASSERT b s = if b then (.ok (), s) else (.error .fatal, s) := rfl

@[simp] theorem JWARNING_apply (b : Bool) (w : Warning) (s : Sys) :
    JWARNING b w s =
      if b then (.ok (), s) else (.ok (), { s with trace := s.trace ++ [.warning w] }) := rfl

@[simp] theorem getConn_apply (s : Sys) : getConn s = (.ok s.conn, s) := rfl

@[simp] theorem modifyConn_apply (f : FileConnection → FileConnection) (s : Sys) :
    modifyConn f s = (.ok (), { s with conn := f s.conn }) := rfl

@[simp] theorem statPath_apply (path : Str) (s : Sys) :
    statPath path s = (.ok (s.disk path), s) := rfl

@[simp] theorem FileExists_apply (path : Str) (s : Sys) :
    FileExists path s = (.ok (s.disk path).isSome, s) := rfl

@[simp] theorem setInode_apply (path : Str) (i : Option Inode) (s : Sys) :
    setInode path i s
      = (.ok (), { s with disk := fun p => if p = path then i else s.disk p }) := rfl

theorem fds0_cons (s : Sys) (fd : Int) (rest : List Int) (h : s.conn.fds = fd :: rest) :
    fds0 s = (.ok fd, s) := by
  simp [fds0, h]

theorem refillSeek_run (k : Kernel) (s : Sys) (buf : Inode) (fd : Int) (rest : List Int)
    (hdisk : s.disk s.conn.path = some buf) (hreg : buf.isReg = true)
    (hfds : s.conn.fds = fd :: rest) :
    FileConnection.refillSeek k s =
      if s.conn.offset ≤ buf.size ∧ s.conn.offset ≤ s.conn.stat.st_size then
        (if k.lseekSet fd s.conn.offset = s.conn.offset then .ok () else .error .fatal,
          { s with trace := s.trace ++ [Event.lseek fd s.conn.offset] })
      else (.ok (), { s with trace := s.trace ++ [Event.warning Warning.noLseek] }) := by
  unfold FileConnection.refillSeek
  simp only [FM.bind_apply, FM.andThen_apply, getConn_apply, statPath_apply, hdisk, hreg, if_true]
  by_cases h : s.conn.offset ≤ buf.size ∧ s.conn.offset ≤ s.conn.stat.st_size
  · simp only [h, and_self, if_true, FM.bind_apply, FM.andThen_apply, fds0_cons s fd rest hfds,
      emit_apply, JASSERT_apply]
    by_cases h2 : k.lseekSet fd s.conn.offset = s.conn.offset
    · simp [h2]
    · simp [h2]
  · have h3 : buf.size < s.conn.offset ∨ s.conn.stat.st_size < s.conn.offset := by omega
    simp [h, h3]

@[simp] theorem FM.ite_apply {α : Type} (c : Prop) [Decidable c] (m1 m2 : FM α) (s : Sys) :
    (if c then m1 else m2) s = if c then m1 s else m2 s := by
  split <;> rfl

theorem refreshPath_run (k : Kernel) (s : Sys) :
    ∃ r c1, FileConnection.refreshPath k s = (r, { s with conn := c1 }) := by
  unfold FileConnection.refreshPath
  have hf : (∃ fd, fds0 s = (.ok fd, s)) ∨ fds0 s = (.error .outOfBounds, s) := by
    unfold fds0
    cases s.conn.fds with
    | nil => exact Or.inr rfl
    | cons fd rest => exact Or.inl ⟨fd, rfl⟩
  simp only [FM.bind_apply, FM.andThen_apply, getConn_apply, FileExists_apply,
    modifyConn_apply, FM.pure_apply, abort_apply, FM.ite_apply]
  rcases hf with ⟨fd, hf⟩ | hf <;> rw [hf]
  all_goals repeat' first
    | exact ⟨_, _, rfl⟩
    | exact ⟨_, s.conn, rfl⟩
    | simp only [FM.bind_apply, FM.andThen_apply, getConn_apply, FileExists_apply,
        modifyConn_apply, FM.pure_apply, abort_apply, FM.ite_apply]
    | split

/-- The tail of the first block of `refill`: `openFile` and `Util::dupFds`. -/
theorem openFile_dup_run (k : Kernel) (s : Sys) (buf : Inode)
    (hdisk : s.disk s.conn.path = some buf) :
    (FileConnection.openFile k >>= fun tempfd =>
      getConn >>= fun c1 => emit (Event.dupFds tempfd c1.fds)) s =
      if k.openRet s.conn.path s.conn.fcntlFlags ≠ -1 then
        (.ok (), { s with trace := s.trace ++ [Event.open s.conn.path s.conn.fcntlFlags,
          Event.dupFds (k.openRet s.conn.path s.conn.fcntlFlags) s.conn.fds] })
      else
        (.error .fatal,
          { s with trace := s.trace ++ [Event.open s.conn.path s.conn.fcntlFlags] }) := by
  unfold FileConnection.openFile
  simp only [FM.bind_apply, FM.andThen_apply, getConn_apply, FileExists_apply, hdisk,
    Option.isSome_some, JASSERT_apply, if_true, emit_apply, FM.pure_apply]
  by_cases h : k.openRet s.conn.path s.conn.fcntlFlags = -1
  · simp [h]
  · simp [h]

theorem emits_of_same {α : Type} (P : Event → Prop) (m : FM α)
    (h : ∀ s, (m s).2.trace = s.trace) : Emits P m :=
  ⟨fun s => ⟨[], by simp [h s], by simp⟩⟩

theorem emits_pure {α : Type} (P : Event → Prop) (a : α) : Emits P (pure a : FM α) :=
  emits_of_same P _ (fun _ => rfl)

theorem emits_abort {α : Type} (P : Event → Prop) (a : Abort) : Emits P (abort a : FM α) :=
  emits_of_same P _ (fun _ => rfl)

theorem emits_getConn (P : Event → Prop) : Emits P getConn :=
  emits_of_same P _ (fun _ => rfl)

theorem emits_modifyConn (P : Event → Prop) (f : FileConnection → FileConnection) :
    Emits P (modifyConn f) :=
  emits_of_same P _ (fun _ => rfl)

theorem emits_statPath (P : Event → Prop) (path : Str) : Emits P (statPath path) :=
  emits_of_same P _ (fun _ => rfl)

theorem emits_FileExists (P : Event → Prop) (path : Str) : Emits P (FileExists path) :=
  emits_of_same P _ (fun _ => rfl)

theorem emits_setInode (P : Event → Prop) (path : Str) (i : Option Inode) :
    Emits P (setInode path i) :=
  emits_of_same P _ (fun _ => rfl)

theorem emits_JASSERT (P : Event → Prop) (b : Bool) : Emits P (JASSERT b) :=
  emits_of_same P _ (fun s => by cases b <;> rfl)

theorem emits_fds0 (P : Event → Prop) : Emits P fds0 :=
  emits_of_same P _ (fun s => by unfold Dmtcp.fds0; split <;> rfl)

theorem emits_substrFrom (P : Event → Prop) (str : Str) (pos : Nat) :
    Emits P (substrFrom str pos) :=
  emits_of_same P _ (fun s => by unfold Dmtcp.substrFrom; split <;> rfl)

theorem emits_emit (P : Event → Prop) (e : Event) (h : P e) : Emits P (emit e) :=
  ⟨fun _ => ⟨[e], rfl, by simpa using h⟩⟩

theorem emits_JWARNING (P : Event → Prop) (b : Bool) (w : Warning)
    (h : P (Event.warning w)) : Emits P (JWARNING b w) := by
  constructor
  intro s
  cases b
  · exact ⟨[Event.warning w], rfl, by simpa using h⟩
  · exact ⟨[], by simp, by simp⟩

theorem emits_bind {α β : Type} (P : Event → Prop) (m : FM α) (f : α → FM β)
    (hm : Emits P m) (hf : ∀ a, Emits P (f a)) : Emits P (m >>= f) := by
  constructor
  intro s
  obtain ⟨evs1, h1, h2⟩ := hm.run s
  simp only [FM.bind_apply, FM.andThen_apply]
  cases hms : m s with
  | mk r s1 =>
    rw [hms] at h1
    cases r with
    | error e => exact ⟨evs1, h1, h2⟩
    | ok a =>
      obtain ⟨evs2, h3, h4⟩ := (hf a).run s1
      refine ⟨evs1 ++ evs2, ?_, ?_⟩
      · simp only [] at h1 ⊢
        rw [h3, h1, List.append_assoc]
      · intro e he
        rcases List.mem_append.mp he with h | h
        · exact h2 e h
        · exact h4 e h

theorem emits_ite {α : Type} (P : Event → Prop) (c : Prop) [Decidable c] (m1 m2 : FM α)
    (h1 : Emits P m1) (h2 : Emits P m2) : Emits P (if c then m1 else m2) := by
  split
  · exact h1
  · exact h2

theorem emits_mono {α : Type} (P Q : Event → Prop) (m : FM α) (h : Emits P m)
    (hpq : ∀ e, P e → Q e) : Emits Q m := by
  constructor
  intro s
  obtain ⟨evs, h1, h2⟩ := h.run s
  exact ⟨evs, h1, fun e he => hpq e (h2 e he)⟩

theorem refreshPath_emits (k : Kernel) (P : Event → Prop) :
    Emits P (FileConnection.refreshPath k) := by
  apply emits_of_same
  intro s
  obtain ⟨r, c1, h⟩ := refreshPath_run k s
  rw [h]

theorem refillSeek_emits (k : Kernel) :
    Emits (fun e => e.isSeek = true) (FileConnection.refillSeek k) := by
  unfold FileConnection.refillSeek
  repeat' first
    | apply emits_bind
    | apply emits_getConn
    | apply emits_statPath
    | apply emits_fds0
    | apply emits_JASSERT
    | apply emits_pure
    | exact emits_emit _ _ (by rfl)
    | exact emits_JWARNING _ _ _ (by rfl)
    | intro _
    | split

theorem openFile_emits (k : Kernel) :
    Emits (fun e => e.isReopen = true) (FileConnection.openFile k) := by
  unfold FileConnection.openFile
  repeat' first
    | apply emits_bind
    | apply emits_getConn
    | apply emits_FileExists
    | apply emits_JASSERT
    | apply emits_pure
    | exact emits_emit _ _ (by rfl)
    | intro _

theorem refillReopen_emits (k : Kernel) :
    Emits (fun e => e.isReopen = true) (FileConnection.refillReopen k) := by
  unfold FileConnection.refillReopen
  repeat' first
    | apply openFile_emits
    | apply emits_bind
    | apply emits_getConn
    | apply emits_statPath
    | apply emits_FileExists
    | apply emits_setInode
    | apply emits_JASSERT
    | apply emits_pure
    | exact emits_emit _ _ (by rfl)
    | exact emits_JWARNING _ _ _ (by rfl)
    | intro _
    | split

theorem land_write_flags (n : Nat) :
    n &&& (O_WRONLY ||| O_RDWR) ≠ 0 ↔ n &&& O_WRONLY ≠ 0 ∨ n &&& O_RDWR ≠ 0 := by
  rw [Nat.and_or_distrib_left]
  have h1 : n &&& O_WRONLY ≤ 1 := Nat.and_le_right
  have h2 : n &&& O_RDWR ≤ 2 := Nat.and_le_right
  generalize n &&& O_WRONLY = a at h1 ⊢
  generalize n &&& O_RDWR = b at h2 ⊢
  interval_cases a <;> interval_cases b <;> decide

theorem refillReopen_run (k : Kernel) (s : Sys) (buf : Inode)
    (hcap : s.conn.checkpointed = false)
    (hdisk : s.disk s.conn.path = some buf) (hreg : buf.isReg = true) :
    FileConnection.refillReopen k s =
      if s.conn.stat.st_size < buf.size ∧ s.conn.fcntlFlags &&& (O_WRONLY ||| O_RDWR) ≠ 0 then
        if k.truncateRet s.conn.path s.conn.stat.st_size = 0 then
          reopened k { s with
            disk := fun p =>
              if p = s.conn.path then some { buf with size := s.conn.stat.st_size }
              else s.disk p,
            trace := s.trace ++ [Event.truncate s.conn.path s.conn.stat.st_size] }
        else
          (.error .fatal,
            { s with trace := s.trace ++ [Event.truncate s.conn.path s.conn.stat.st_size] })
      else if buf.size < s.conn.stat.st_size then
        reopened k { s with trace := s.trace ++ [Event.warning Warning.sizeSmaller] }
      else reopened k s := by
  unfold FileConnection.refillReopen
  simp only [FM.bind_apply, FM.andThen_apply, getConn_apply, hcap, if_true, FileExists_apply,
    hdisk, Option.isSome_some, JASSERT_apply, statPath_apply, hreg]
  by_cases hA : s.conn.stat.st_size < buf.size ∧ s.conn.fcntlFlags &&& (O_WRONLY ||| O_RDWR) ≠ 0
  · simp only [hA, and_self, ne_eq, not_false_eq_true, if_true, FM.bind_apply,
      FM.andThen_apply, emit_apply, FM.ite_apply]
    by_cases hT : k.truncateRet s.conn.path s.conn.stat.st_size = 0
    · simp only [hT, if_true, setInode_apply, JASSERT_apply, decide_True]
      rw [← FM.andThen_apply, ← FM.bind_apply]
      exact openFile_dup_run k _ { isReg := true, size := s.conn.stat.st_size } (by simp)
    · simp [hT]
  · simp only [hA, if_false]
    by_cases hB : buf.size < s.conn.stat.st_size
    · simp only [hB, if_true, JWARNING_apply, Bool.false_eq_true, if_false]
      rw [← FM.andThen_apply, ← FM.bind_apply]
      exact openFile_dup_run k _ buf hdisk
    · simp only [hB, if_false, FM.pure_apply]
      rw [← FM.andThen_apply, ← FM.bind_apply]
      exact openFile_dup_run k _ buf hdisk

theorem refill_tail_emits (k : Kernel) :
    Emits (fun e => e.isSeek = true ∨ e = Event.restoreOptions)
      (FileConnection.refillSeek k >>= fun _ =>
        FileConnection.refreshPath k >>= fun _ => emit Event.restoreOptions) := by
  apply emits_bind
  · exact emits_mono _ _ _ (refillSeek_emits k) (fun e h => Or.inl h)
  · intro _
    apply emits_bind
    · exact refreshPath_emits k _
    · intro _
      exact emits_emit _ _ (Or.inr rfl)

theorem refill_of_reopen_ok (k : Kernel) (s s1 : Sys)
    (h : FileConnection.refillReopen k s = (.ok (), s1)) :
    FileConnection.refill k s =
      (FileConnection.refillSeek k >>= fun _ =>
        FileConnection.refreshPath k >>= fun _ => emit Event.restoreOptions) s1 := by
  unfold FileConnection.refill
  rw [FM.bind_apply, FM.andThen_apply, h]

theorem refill_of_reopen_error (k : Kernel) (s s1 : Sys) (a : Abort)
    (h : FileConnection.refillReopen k s = (.error a, s1)) :
    FileConnection.refill k s = (.error a, s1) := by
  unfold FileConnection.refill
  rw [FM.bind_apply, FM.andThen_apply, h]

theorem refill_trace (k : Kernel) (s : Sys) :
    ∃ evs, (FileConnection.refill k s).2.trace
        = (FileConnection.refillReopen k s).2.trace ++ evs ∧
      ∀ e ∈ evs, e.isSeek = true ∨ e = Event.restoreOptions := by
  cases h : FileConnection.refillReopen k s with
  | mk r s1 =>
    cases r with
    | error a =>
      rw [refill_of_reopen_error k s s1 a h]
      exact ⟨[], by simp, by simp⟩
    | ok u =>
      rw [refill_of_reopen_ok k s s1 h]
      exact (refill_tail_emits k).run s1

theorem reopened_trace (k : Kernel) (s : Sys) :
    ∃ evs, (reopened k s).2.trace = s.trace ++ evs ∧
      Event.open s.conn.path s.conn.fcntlFlags ∈ evs ∧
      (∀ p n, Event.truncate p n ∉ evs) ∧ Event.warning Warning.sizeSmaller ∉ evs := by
  unfold reopened
  split
  · exact ⟨_, rfl, by simp, by simp, by simp⟩
  · exact ⟨_, rfl, by simp, by simp, by simp⟩

/-- C5: in `FileConnection::refill`, for a regular file whose content was not
captured, `truncate` is called if and only if the current size exceeds the
checkpoint-time size and the open flags include `O_WRONLY` or `O_RDWR`, and
then it is `truncate(path, checkpoint-time size)`; if the current size is
smaller a warning is emitted, nothing is truncated, and the run goes on to
reopen the file (the first block returns normally when `_real_open`
succeeds); if the sizes are equal neither happens. -/
theorem refill_size_policy (k : Kernel) (s : Sys) (buf : Inode)
    (hcap : s.conn.checkpointed = false)
    (hdisk : s.disk s.conn.path = some buf) (hreg : buf.isReg = true)
    (htrace : s.trace = []) :
    ((∃ p n, Event.truncate p n ∈ (FileConnection.refill k s).2.trace) ↔
      s.conn.stat.st_size < buf.size ∧
        (s.conn.fcntlFlags &&& O_WRONLY ≠ 0 ∨ s.conn.fcntlFlags &&& O_RDWR ≠ 0)) ∧
    (∀ p n, Event.truncate p n ∈ (FileConnection.refill k s).2.trace →
      p = s.conn.path ∧ n = s.conn.stat.st_size) ∧
    (buf.size < s.conn.stat.st_size →
      Event.warning Warning.sizeSmaller ∈ (FileConnection.refill k s).2.trace ∧
      (∀ p n, Event.truncate p n ∉ (FileConnection.refill k s).2.trace) ∧
      Event.open s.conn.path s.conn.fcntlFlags ∈ (FileConnection.refill k s).2.trace ∧
      (k.openRet s.conn.path s.conn.fcntlFlags ≠ -1 →
        (FileConnection.refillReopen k s).1 = .ok ())) ∧
    (buf.size = s.conn.stat.st_size →
      Event.warning Warning.sizeSmaller ∉ (FileConnection.refill k s).2.trace ∧
      ∀ p n, Event.truncate p n ∉ (FileConnection.refill k s).2.trace) := by
  obtain ⟨evs, ht, hev⟩ := refill_trace k s
  have hnt : ∀ p n, Event.truncate p n ∉ evs := by
    intro p n hm
    rcases hev _ hm with h | h
    · simp [Event.isSeek] at h
    · simp at h
  have hnw : Event.warning Warning.sizeSmaller ∉ evs := by
    intro hm
    rcases hev _ hm with h | h
    · simp [Event.isSeek] at h
    · simp at h
  have hR := refillReopen_run k s buf hcap hdisk hreg
  rw [ht, ← land_write_flags]
  by_cases hA : s.conn.stat.st_size < buf.size ∧ s.conn.fcntlFlags &&& (O_WRONLY ||| O_RDWR) ≠ 0
  · rw [if_pos hA] at hR
    by_cases hT : k.truncateRet s.conn.path s.conn.stat.st_size = 0
    · rw [if_pos hT] at hR
      obtain ⟨ev2, h2, _, h4, h5⟩ := reopened_trace k
        { s with
          disk := fun p =>
            if p = s.conn.path then some { buf with size := s.conn.stat.st_size } else s.disk p,
          trace := s.trace ++ [Event.truncate s.conn.path s.conn.stat.st_size] }
      rw [hR, h2]
      simp only [htrace, List.nil_append, List.mem_append, List.mem_singleton, Event.truncate.injEq]
      refine ⟨⟨fun _ => hA, fun _ => ⟨_, _, Or.inl (Or.inl ⟨rfl, rfl⟩)⟩⟩, ?_, ?_, ?_⟩
      · rintro p n ((⟨rfl, rfl⟩ | h) | h)
        · exact ⟨rfl, rfl⟩
        · exact absurd h (h4 p n)
        · exact absurd h (hnt p n)
      · intro h; omega
      · intro h; omega
    · rw [if_neg hT] at hR
      rw [hR]
      simp only [htrace, List.nil_append, List.mem_append, List.mem_singleton,
        Event.truncate.injEq]
      refine ⟨⟨fun _ => hA, fun _ => ⟨_, _, Or.inl ⟨rfl, rfl⟩⟩⟩, ?_, ?_, ?_⟩
      · rintro p n (⟨rfl, rfl⟩ | h)
        · exact ⟨rfl, rfl⟩
        · exact absurd h (hnt p n)
      · intro h; omega
      · intro h; omega
  · rw [if_neg hA] at hR
    by_cases hB : buf.size < s.conn.stat.st_size
    · rw [if_pos hB] at hR
      obtain ⟨ev2, h2, h3, h4, h5⟩ := reopened_trace k
        { s with trace := s.trace ++ [Event.warning Warning.sizeSmaller] }
      have hnone : ∀ p n, Event.truncate p n ∉
          (s.trace ++ [Event.warning Warning.sizeSmaller] ++ ev2) ++ evs := by
        intro p n hm
        simp only [htrace, List.nil_append, List.mem_append, List.mem_singleton] at hm
        rcases hm with (h | h) | h
        · simp at h
        · exact h4 p n h
        · exact hnt p n h
      have hopen : (FileConnection.refillReopen k s).1 =
          (reopened k { s with trace := s.trace ++ [Event.warning Warning.sizeSmaller] }).1 := by
        rw [hR]
      rw [hopen, hR, h2]
      refine ⟨⟨fun ⟨p, n, h⟩ => absurd h (hnone p n), fun h => absurd h hA⟩, ?_, ?_, ?_⟩
      · intro p n h
        exact absurd h (hnone p n)
      · intro _
        refine ⟨by simp, hnone, ?_, ?_⟩
        · simp only [List.mem_append]
          exact Or.inl (Or.inr h3)
        · intro ho
          simp [reopened, ho]
      · intro h; omega
    · rw [if_neg hB] at hR
      obtain ⟨ev2, h2, h3, h4, h5⟩ := reopened_trace k s
      have hnone : ∀ p n, Event.truncate p n ∉ (s.trace ++ ev2) ++ evs := by
        intro p n hm
        simp only [htrace, List.nil_append, List.mem_append] at hm
        rcases hm with h | h
        · exact h4 p n h
        · exact hnt p n h
      rw [hR, h2]
      refine ⟨⟨fun ⟨p, n, h⟩ => absurd h (hnone p n), fun h => absurd h hA⟩, ?_, ?_, ?_⟩
      · intro p n h
        exact absurd h (hnone p n)
      · intro h; exact absurd h hB
      · intro _
        refine ⟨?_, hnone⟩
        simp only [htrace, List.nil_append, List.mem_append]
        rintro (h | h)
        · exact h5 h
        · exact hnw h

theorem keeps_pure {α β : Type} (f : FileConnection → β) (a : α) :
    Keeps f (pure a : FM α) := ⟨fun _ => rfl⟩

theorem keeps_abort {α β : Type} (f : FileConnection → β) (a : Abort) :
    Keeps f (abort a : FM α) := ⟨fun _ => rfl⟩

theorem keeps_getConn {β : Type} (f : FileConnection → β) : Keeps f getConn := ⟨fun _ => rfl⟩

theorem keeps_statPath {β : Type} (f : FileConnection → β) (path : Str) :
    Keeps f (statPath path) := ⟨fun _ => rfl⟩

theorem keeps_FileExists {β : Type} (f : FileConnection → β) (path : Str) :
    Keeps f (FileExists path) := ⟨fun _ => rfl⟩

theorem keeps_setInode {β : Type} (f : FileConnection → β) (path : Str) (i : Option Inode) :
    Keeps f (setInode path i) := ⟨fun _ => rfl⟩

theorem keeps_emit {β : Type} (f : FileConnection → β) (e : Event) : Keeps f (emit e) :=
  ⟨fun _ => rfl⟩

theorem keeps_JASSERT {β : Type} (f : FileConnection → β) (b : Bool) : Keeps f (JASSERT b) :=
  ⟨fun _ => by cases b <;> rfl⟩

theorem keeps_JWARNING {β : Type} (f : FileConnection → β) (b : Bool) (w : Warning) :
    Keeps f (JWARNING b w) :=
  ⟨fun _ => by cases b <;> rfl⟩

theorem keeps_fds0 {β : Type} (f : FileConnection → β) : Keeps f fds0 :=
  ⟨fun s => by unfold Dmtcp.fds0; split <;> rfl⟩

theorem keeps_substrFrom {β : Type} (f : FileConnection → β) (str : Str) (pos : Nat) :
    Keeps f (substrFrom str pos) :=
  ⟨fun s => by unfold Dmtcp.substrFrom; split <;> rfl⟩

theorem keeps_modifyConn {β : Type} (f : FileConnection → β)
    (g : FileConnection → FileConnection) (h : ∀ c, f (g c) = f c) :
    Keeps f (modifyConn g) :=
  ⟨fun s => h s.conn⟩

theorem keeps_bind {α β γ : Type} (g : FileConnection → γ) (m : FM α) (f : α → FM β)
    (hm : Keeps g m) (hf : ∀ a, Keeps g (f a)) : Keeps g (m >>= f) := by
  constructor
  intro s
  have h1 := hm.run s
  simp only [FM.bind_apply, FM.andThen_apply]
  cases hms : m s with
  | mk r s1 =>
    rw [hms] at h1
    cases r with
    | error e => exact h1
    | ok a =>
      have h2 := (hf a).run s1
      simp only [] at h1 ⊢
      rw [h2, h1]

theorem openFile_keeps {β : Type} (f : FileConnection → β) (k : Kernel) :
    Keeps f (FileConnection.openFile k) := by
  unfold FileConnection.openFile
  repeat' first
    | apply keeps_bind
    | apply keeps_getConn
    | apply keeps_FileExists
    | apply keeps_JASSERT
    | apply keeps_emit
    | apply keeps_pure
    | intro _

theorem refillReopen_keeps {β : Type} (f : FileConnection → β) (k : Kernel) :
    Keeps f (FileConnection.refillReopen k) := by
  unfold FileConnection.refillReopen
  repeat' first
    | apply openFile_keeps
    | apply keeps_bind
    | apply keeps_getConn
    | apply keeps_statPath
    | apply keeps_FileExists
    | apply keeps_setInode
    | apply keeps_JASSERT
    | apply keeps_JWARNING
    | apply keeps_emit
    | apply keeps_pure
    | intro _
    | split

theorem refillReopen_conn (k : Kernel) (s : Sys) :
    (FileConnection.refillReopen k s).2.conn = s.conn :=
  (refillReopen_keeps id k).run s

/-- C6: in `FileConnection::refill`, when after the first block a regular file
exists at the path, `lseek` is called, as `lseek(_fds[0], offset, SEEK_SET)`,
if and only if the checkpoint-time offset is at most the current on-disk size
and at most the checkpoint-time size; in every other case a warning is
emitted, no seek is performed and the offset block returns normally. -/
theorem refill_offset_policy (k : Kernel) (s : Sys) (buf : Inode) (fd : Int) (rest : List Int)
    (hre : (FileConnection.refillReopen k s).1 = .ok ())
    (hdisk : (FileConnection.refillReopen k s).2.disk s.conn.path = some buf)
    (hreg : buf.isReg = true)
    (hfds : s.conn.fds = fd :: rest) (htrace : s.trace = []) :
    ((∃ d off, Event.lseek d off ∈ (FileConnection.refill k s).2.trace) ↔
      s.conn.offset ≤ buf.size ∧ s.conn.offset ≤ s.conn.stat.st_size) ∧
    (∀ d off, Event.lseek d off ∈ (FileConnection.refill k s).2.trace →
      d = fd ∧ off = s.conn.offset) ∧
    (¬ (s.conn.offset ≤ buf.size ∧ s.conn.offset ≤ s.conn.stat.st_size) →
      Event.warning Warning.noLseek ∈ (FileConnection.refill k s).2.trace ∧
      (FileConnection.refillSeek k (FileConnection.refillReopen k s).2).1 = .ok ()) := by
  have hconn := refillReopen_conn k s
  cases hR : FileConnection.refillReopen k s with
  | mk r s1 =>
    rw [hR] at hre hdisk hconn
    simp only [] at hre hdisk hconn
    subst hre
    -- the calls of the first block are none of the offset block
    obtain ⟨ev1, he1, hp1⟩ := (refillReopen_emits k).run s
    rw [hR, htrace, List.nil_append] at he1
    simp only [] at he1
    have hno1 : ∀ d off, Event.lseek d off ∉ s1.trace := by
      intro d off hm
      rw [he1] at hm
      have := hp1 _ hm
      simp [Event.isReopen] at this
    have hS := refillSeek_run k s1 buf fd rest (by rw [hconn]; exact hdisk) hreg
      (by rw [hconn]; exact hfds)
    rw [hconn] at hS
    have hrefill := refill_of_reopen_ok k s s1 hR
    rw [FM.bind_apply, FM.andThen_apply] at hrefill
    by_cases hc : s.conn.offset ≤ buf.size ∧ s.conn.offset ≤ s.conn.stat.st_size
    · rw [if_pos hc] at hS
      have htr : ∃ ev, (FileConnection.refill k s).2.trace
          = s1.trace ++ [Event.lseek fd s.conn.offset] ++ ev ∧
          ∀ e ∈ ev, e = Event.restoreOptions := by
        rw [hrefill, hS]
        by_cases hl : k.lseekSet fd s.conn.offset = s.conn.offset
        · simp only [hl, if_true]
          exact (emits_bind (fun e => e = Event.restoreOptions)
            (FileConnection.refreshPath k) (fun _ => emit Event.restoreOptions)
            (refreshPath_emits k _) (fun _ => emits_emit _ _ rfl)).run _
        · simp only [hl, if_false]
          exact ⟨[], by simp, by simp⟩
      obtain ⟨ev, htr, hev⟩ := htr
      rw [htr]
      refine ⟨⟨fun _ => hc, fun _ => ⟨fd, s.conn.offset, by simp⟩⟩, ?_, fun h => absurd hc h⟩
      intro d off hm
      simp only [List.mem_append, List.mem_singleton, Event.lseek.injEq] at hm
      rcases hm with (h | h) | h
      · exact absurd h (hno1 d off)
      · exact h
      · have := hev _ h
        simp at this
    · rw [if_neg hc] at hS
      have htr : ∃ ev, (FileConnection.refill k s).2.trace
          = s1.trace ++ [Event.warning Warning.noLseek] ++ ev ∧
          ∀ e ∈ ev, e = Event.restoreOptions := by
        rw [hrefill, hS]
        exact (emits_bind (fun e => e = Event.restoreOptions)
          (FileConnection.refreshPath k) (fun _ => emit Event.restoreOptions)
          (refreshPath_emits k _) (fun _ => emits_emit _ _ rfl)).run _
      obtain ⟨ev, htr, hev⟩ := htr
      rw [htr]
      have hnone : ∀ d off, Event.lseek d off ∉
          s1.trace ++ [Event.warning Warning.noLseek] ++ ev := by
        intro d off hm
        simp only [List.mem_append, List.mem_singleton] at hm
        rcases hm with (h | h) | h
        · exact hno1 d off h
        · simp at h
        · have := hev _ h
          simp at this
      refine ⟨⟨fun ⟨d, off, h⟩ => absurd h (hnone d off), fun h => absurd h hc⟩, ?_, ?_⟩
      · intro d off h
        exact absurd h (hnone d off)
      · intro _
        refine ⟨by simp, ?_⟩
        rw [hS]

/-- C5, the example of the claim: checkpoint-time size 100, current size 150, a
file opened for reading and writing. -/
theorem refill_size_policy_witness :
    grownSys.conn.checkpointed = false ∧
    grownSys.disk grownSys.conn.path = some { isReg := true, size := 150 } ∧
    ({ isReg := true, size := 150 } : Inode).isReg = true ∧
    grownSys.trace = [] ∧
    (((∃ p n, Event.truncate p n ∈ (FileConnection.refill baseKernel grownSys).2.trace) ↔
      grownSys.conn.stat.st_size < ({ isReg := true, size := 150 } : Inode).size ∧
        (grownSys.conn.fcntlFlags &&& O_WRONLY ≠ 0 ∨
          grownSys.conn.fcntlFlags &&& O_RDWR ≠ 0)) ∧
    (∀ p n, Event.truncate p n ∈ (FileConnection.refill baseKernel grownSys).2.trace →
      p = grownSys.conn.path ∧ n = grownSys.conn.stat.st_size) ∧
    (({ isReg := true, size := 150 } : Inode).size < grownSys.conn.stat.st_size →
      Event.warning Warning.sizeSmaller ∈ (FileConnection.refill baseKernel grownSys).2.trace ∧
      (∀ p n, Event.truncate p n ∉ (FileConnection.refill baseKernel grownSys).2.trace) ∧
      Event.open grownSys.conn.path grownSys.conn.fcntlFlags
        ∈ (FileConnection.refill baseKernel grownSys).2.trace ∧
      (baseKernel.openRet grownSys.conn.path grownSys.conn.fcntlFlags ≠ -1 →
        (FileConnection.refillReopen baseKernel grownSys).1 = .ok ())) ∧
    (({ isReg := true, size := 150 } : Inode).size = grownSys.conn.stat.st_size →
      Event.warning Warning.sizeSmaller ∉ (FileConnection.refill baseKernel grownSys).2.trace ∧
      ∀ p n, Event.truncate p n ∉ (FileConnection.refill baseKernel grownSys).2.trace)) ∧
    (FileConnection.refill baseKernel grownSys).2.trace =
      [Event.truncate dataPath 100, Event.open dataPath O_RDWR, Event.dupFds 7 [5],
        Event.lseek 5 50, Event.restoreOptions] ∧
    (FileConnection.refill baseKernel shrunkSys).1 = .ok () ∧
    (FileConnection.refill baseKernel shrunkSys).2.trace =
      [Event.warning Warning.sizeSmaller, Event.open dataPath O_RDWR, Event.dupFds 7 [5],
        Event.warning Warning.noLseek, Event.restoreOptions] :=
  ⟨by decide, by decide, rfl, rfl,
    refill_size_policy baseKernel grownSys { isReg := true, size := 150 }
      (by decide) (by decide) rfl rfl,
    by decide, by decide, by decide⟩

/-- C6, the example of the claim: the file that grew from 100 to 150 has been
truncated back to 100 by the first block, and the offset 50 is restored by
`lseek(5, 50, SEEK_SET)`. -/
theorem refill_offset_policy_witness :
    (FileConnection.refillReopen baseKernel grownSys).1 = .ok () ∧
    (FileConnection.refillReopen baseKernel grownSys).2.disk grownSys.conn.path
      = some { isReg := true, size := 100 } ∧
    ({ isReg := true, size := 100 } : Inode).isReg = true ∧
    grownSys.conn.fds = 5 :: [] ∧ grownSys.trace = [] ∧
    (((∃ d off, Event.lseek d off ∈ (FileConnection.refill baseKernel grownSys).2.trace) ↔
      grownSys.conn.offset ≤ ({ isReg := true, size := 100 } : Inode).size ∧
        grownSys.conn.offset ≤ grownSys.conn.stat.st_size) ∧
    (∀ d off, Event.lseek d off ∈ (FileConnection.refill baseKernel grownSys).2.trace →
      d = 5 ∧ off = grownSys.conn.offset) ∧
    (¬ (grownSys.conn.offset ≤ ({ isReg := true, size := 100 } : Inode).size ∧
        grownSys.conn.offset ≤ grownSys.conn.stat.st_size) →
      Event.warning Warning.noLseek ∈ (FileConnection.refill baseKernel grownSys).2.trace ∧
      (FileConnection.refillSeek baseKernel
        (FileConnection.refillReopen baseKernel grownSys).2).1 = .ok ())) ∧
    (FileConnection.refill baseKernel grownSys).2.trace =
      [Event.truncate dataPath 100, Event.open dataPath O_RDWR, Event.dupFds 7 [5],
        Event.lseek 5 50, Event.restoreOptions] :=
  ⟨by decide, by decide, rfl, rfl, rfl,
    refill_offset_policy baseKernel grownSys { isReg := true, size := 100 } 5 []
      (by decide) (by decide) rfl rfl rfl,
    by decide⟩

theorem createDirectoryLoop_emits (k : Kernel) (path : Str) (P : Event → Prop)
    (hP : ∀ p, P (Event.mkdir p)) :
    ∀ (rest : List Char) (index : Nat), Emits P (createDirectoryLoop k path rest index) := by
  intro rest
  induction rest with
  | nil => intro index; exact emits_pure _ _
  | cons ch rest ih =>
    intro index
    unfold createDirectoryLoop
    apply emits_bind
    · repeat' first
        | apply emits_bind
        | apply emits_JASSERT
        | apply emits_setInode
        | apply emits_pure
        | exact emits_emit _ _ (hP _)
        | intro _
        | split
    · intro _
      exact ih _

theorem createDirectoryLoop_keeps {β : Type} (f : FileConnection → β) (k : Kernel)
    (path : Str) :
    ∀ (rest : List Char) (index : Nat), Keeps f (createDirectoryLoop k path rest index) := by
  intro rest
  induction rest with
  | nil => intro index; exact keeps_pure _ _
  | cons ch rest ih =>
    intro index
    unfold createDirectoryLoop
    apply keeps_bind
    · repeat' first
        | apply keeps_bind
        | apply keeps_JASSERT
        | apply keeps_setInode
        | apply keeps_pure
        | apply keeps_emit
        | intro _
        | split
    · intro _
      exact ih _

theorem CreateDirectoryStructure_emits (k : Kernel) (path : Str) (P : Event → Prop)
    (hP : ∀ p, P (Event.mkdir p)) : Emits P (CreateDirectoryStructure k path) := by
  unfold CreateDirectoryStructure
  split
  · exact createDirectoryLoop_emits k path P hP _ _
  · exact emits_pure _ _

theorem CreateDirectoryStructure_keeps {β : Type} (f : FileConnection → β) (k : Kernel)
    (path : Str) : Keeps f (CreateDirectoryStructure k path) := by
  unfold CreateDirectoryStructure
  split
  · exact createDirectoryLoop_keeps f k path _ _
  · exact keeps_pure _ _

theorem CopyFile_emits (k : Kernel) (src dest : Str) (P : Event → Prop)
    (hP : ∀ c, P (Event.system c)) : Emits P (CopyFile k src dest) := by
  unfold CopyFile
  repeat' first
    | apply emits_bind
    | apply emits_JASSERT
    | apply emits_setInode
    | apply emits_statPath
    | apply emits_pure
    | exact emits_emit _ _ (hP _)
    | intro _
    | split

theorem CopyFile_keeps {β : Type} (f : FileConnection → β) (k : Kernel) (src dest : Str) :
    Keeps f (CopyFile k src dest) := by
  unfold CopyFile
  repeat' first
    | apply keeps_bind
    | apply keeps_JASSERT
    | apply keeps_setInode
    | apply keeps_statPath
    | apply keeps_pure
    | apply keeps_emit
    | intro _
    | split

theorem saveFileCopy_emits (k : Kernel) (fd : Int) :
    Emits (fun e => e.isCopy = true) (FileConnection.saveFileCopy k fd) := by
  unfold FileConnection.saveFileCopy
  repeat' first
    | exact CreateDirectoryStructure_emits _ _ _ (fun _ => by rfl)
    | exact CopyFile_emits _ _ _ _ (fun _ => by rfl)
    | apply emits_bind
    | apply emits_getConn
    | apply emits_FileExists
    | apply emits_JASSERT
    | apply emits_pure
    | exact emits_emit _ _ (by rfl)
    | intro _
    | split

theorem saveFileCopy_keeps {β : Type} (f : FileConnection → β) (k : Kernel) (fd : Int) :
    Keeps f (FileConnection.saveFileCopy k fd) := by
  unfold FileConnection.saveFileCopy
  repeat' first
    | apply CreateDirectoryStructure_keeps
    | apply CopyFile_keeps
    | apply keeps_bind
    | apply keeps_getConn
    | apply keeps_FileExists
    | apply keeps_JASSERT
    | apply keeps_pure
    | apply keeps_emit
    | intro _
    | split

theorem saveFile_run (k : Kernel) (s : Sys) (fd : Int) (rest : List Int)
    (hfds : s.conn.fds = fd :: rest) :
    (∃ evs, (FileConnection.saveFile k s).2.trace = s.trace ++ Event.saveFile fd :: evs) ∧
    (FileConnection.saveFile k s).2.conn.checkpointed = true := by
  unfold FileConnection.saveFile
  simp only [FM.bind_apply, FM.andThen_apply, fds0_cons s fd rest hfds, emit_apply,
    modifyConn_apply]
  constructor
  · obtain ⟨evs, h, _⟩ := (saveFileCopy_emits k fd).run
      { conn := { s.conn with checkpointed := true }, disk := s.disk,
        trace := s.trace ++ [Event.saveFile fd] }
    exact ⟨evs, by rw [h]; simp⟩
  · exact (saveFileCopy_keeps (fun c => c.checkpointed) k fd).run
      { conn := { s.conn with checkpointed := true }, disk := s.disk,
        trace := s.trace ++ [Event.saveFile fd] }

theorem bqAgrees_iff (k : Kernel) (c : FileConnection) :
    (match bqShouldCkptFile k c with
      | some (agrees, _) => agrees
      | none => false) = true ↔ bqAgrees k c := by
  unfold bqShouldCkptFile bqAgrees
  by_cases ht : c.type = FileType.FILE_BATCH_QUEUE
  · cases hb : k.bqShouldCkpt with
    | none => simp [ht]
    | some f => simp [ht]
  · simp [ht]

theorem captureDecision_saves (k : Kernel) (s : Sys) (h : savesContent k s.conn) :
    FileConnection.captureDecision k s = FileConnection.saveFile k (afterBq k s) := by
  have hstep : ∀ x : Option (Bool × Nat),
      (match x with
        | some (_, rmtype) => modifyConn (fun c => { c with rmtype := rmtype })
        | none => (pure () : FM Unit)) s =
      (.ok (), match x with
        | some (_, rmtype) => { s with conn := { s.conn with rmtype := rmtype } }
        | none => s) := by
    intro x
    cases x with
    | none => rfl
    | some p => rfl
  unfold FileConnection.captureDecision
  simp only [FM.bind_apply, FM.andThen_apply, getConn_apply, hstep, FM.ite_apply]
  have hcond := bqAgrees_iff k s.conn
  unfold savesContent at h
  rcases h with h | ⟨hb, h⟩
  · rw [if_pos (hcond.mpr h)]
    rfl
  · by_cases hbq : bqAgrees k s.conn
    · rw [if_pos (hcond.mpr hbq)]
      rfl
    · rw [if_neg (mt hcond.mp hbq), if_neg (by simp [hb])]
      rcases h with h | h | h | h
      · rw [if_pos h]; rfl
      · by_cases h1 : k.ckptOpenFiles = true ∧ s.conn.stat.st_uid = k.uid
        · rw [if_pos h1]; rfl
        · rw [if_neg h1, if_pos h]; rfl
      · by_cases h1 : k.ckptOpenFiles = true ∧ s.conn.stat.st_uid = k.uid
        · rw [if_pos h1]; rfl
        · by_cases h2 : s.conn.type = FileType.FILE_DELETED
          · rw [if_neg h1, if_pos h2]; rfl
          · rw [if_neg h1, if_neg h2, if_pos h]; rfl
      · by_cases h1 : k.ckptOpenFiles = true ∧ s.conn.stat.st_uid = k.uid
        · rw [if_pos h1]; rfl
        · by_cases h2 : s.conn.type = FileType.FILE_DELETED
          · rw [if_neg h1, if_pos h2]; rfl
          · by_cases h3 : _isVimApp k = true ∧
                (strEndsWith s.conn.path ".swp".toList = false ∨
                  strEndsWith s.conn.path ".swo".toList = false)
            · rw [if_neg h1, if_neg h2, if_pos h3]; rfl
            · rw [if_neg h1, if_neg h2, if_neg h3, if_pos h]; rfl

theorem captureDecision_skips (k : Kernel) (s : Sys) (h : ¬ savesContent k s.conn) :
    FileConnection.captureDecision k s = (.ok (), afterBq k s) := by
  have hstep : ∀ x : Option (Bool × Nat),
      (match x with
        | some (_, rmtype) => modifyConn (fun c => { c with rmtype := rmtype })
        | none => (pure () : FM Unit)) s =
      (.ok (), match x with
        | some (_, rmtype) => { s with conn := { s.conn with rmtype := rmtype } }
        | none => s) := by
    intro x
    cases x with
    | none => rfl
    | some p => rfl
  unfold FileConnection.captureDecision
  simp only [FM.bind_apply, FM.andThen_apply, getConn_apply, hstep, FM.ite_apply]
  have hcond := bqAgrees_iff k s.conn
  unfold savesContent at h
  have hbq : ¬ bqAgrees k s.conn := fun hb => h (Or.inl hb)
  rw [if_neg (mt hcond.mp hbq)]
  by_cases hb : _isBlacklistedFile k s.conn.path = true
  · rw [if_pos hb]
    rfl
  · have hb2 : _isBlacklistedFile k s.conn.path = false := by simpa using hb
    rw [if_neg hb, if_neg (fun h1 => h (Or.inr ⟨hb2, Or.inl h1⟩)),
      if_neg (fun h1 => h (Or.inr ⟨hb2, Or.inr (Or.inl h1)⟩)),
      if_neg (fun h1 => h (Or.inr ⟨hb2, Or.inr (Or.inr (Or.inl h1))⟩)),
      if_neg (fun h1 => h (Or.inr ⟨hb2, Or.inr (Or.inr (Or.inr h1))⟩))]
    rfl

theorem afterBq_fields (k : Kernel) (s : Sys) :
    (afterBq k s).trace = s.trace ∧ (afterBq k s).conn.fds = s.conn.fds ∧
    (afterBq k s).conn.checkpointed = s.conn.checkpointed := by
  unfold afterBq
  split <;> exact ⟨rfl, rfl, rfl⟩

theorem swp_not_swo (path : Str) (h : strEndsWith path ".swp".toList = true) :
    strEndsWith path ".swo".toList = false := by
  unfold strEndsWith at h ⊢
  rw [List.isSuffixOf_iff_suffix] at h
  cases h2 : List.isSuffixOf ".swo".toList path with
  | false => rfl
  | true =>
    rw [List.isSuffixOf_iff_suffix] at h2
    have h3 := (List.suffix_of_suffix_length_le h h2 (by decide)).eq_of_length (by decide)
    exact absurd h3 (by decide)

theorem updatePath_emits (k : Kernel) (P : Event → Prop) :
    Emits P (FileConnection.updatePath k) := by
  unfold FileConnection.updatePath
  repeat' first
    | apply emits_bind
    | apply emits_fds0
    | apply emits_FileExists
    | apply emits_modifyConn
    | apply emits_pure
    | intro _
    | split

theorem updatePath_keeps {β : Type} (f : FileConnection → β) (k : Kernel)
    (hf : ∀ (c : FileConnection) (p : Str), f { c with path := p } = f c) :
    Keeps f (FileConnection.updatePath k) := by
  unfold FileConnection.updatePath
  repeat' first
    | apply keeps_bind
    | apply keeps_fds0
    | apply keeps_FileExists
    | exact keeps_modifyConn _ _ (fun c => hf c _)
    | apply keeps_pure
    | intro _
    | split

theorem handleUnlinkedFile_emits (k : Kernel) :
    Emits (fun e => e.isSaveFile = false) (FileConnection.handleUnlinkedFile k) := by
  unfold FileConnection.handleUnlinkedFile
  repeat' first
    | apply updatePath_emits
    | apply emits_bind
    | apply emits_getConn
    | apply emits_FileExists
    | apply emits_modifyConn
    | apply emits_JASSERT
    | exact emits_JWARNING _ _ _ (by rfl)
    | apply emits_pure
    | intro _
    | split

theorem handleUnlinkedFile_keeps {β : Type} (f : FileConnection → β) (k : Kernel)
    (hf : ∀ (c : FileConnection) (p : Str) (t : FileType),
      f { c with path := p, type := t } = f c) :
    Keeps f (FileConnection.handleUnlinkedFile k) := by
  unfold FileConnection.handleUnlinkedFile
  repeat' first
    | exact updatePath_keeps f k (fun c p => hf c p c.type)
    | apply keeps_bind
    | apply keeps_getConn
    | apply keeps_FileExists
    | exact keeps_modifyConn _ _ (fun c => hf c _ _)
    | exact keeps_modifyConn _ _ (fun c => hf c c.path _)
    | apply keeps_JASSERT
    | apply keeps_JWARNING
    | apply keeps_pure
    | intro _
    | split

theorem calculateRelativePath_emits (k : Kernel) (P : Event → Prop) :
    Emits P (FileConnection.calculateRelativePath k) := by
  unfold FileConnection.calculateRelativePath
  repeat' first
    | apply emits_bind
    | apply emits_getConn
    | apply emits_substrFrom
    | apply emits_modifyConn
    | apply emits_pure
    | intro _
    | split

theorem calculateRelativePath_keeps {β : Type} (f : FileConnection → β) (k : Kernel)
    (hf : ∀ (c : FileConnection) (p : Str), f { c with rel_path := p } = f c) :
    Keeps f (FileConnection.calculateRelativePath k) := by
  unfold FileConnection.calculateRelativePath
  repeat' first
    | apply keeps_bind
    | apply keeps_getConn
    | apply keeps_substrFrom
    | exact keeps_modifyConn _ _ (fun c => hf c _)
    | apply keeps_pure
    | intro _
    | split

theorem captureMetadata_emits (k : Kernel) :
    Emits (fun e => e.isSaveFile = false) (FileConnection.captureMetadata k) := by
  unfold FileConnection.captureMetadata
  repeat' first
    | apply handleUnlinkedFile_emits
    | apply calculateRelativePath_emits
    | apply emits_bind
    | apply emits_getConn
    | apply emits_fds0
    | apply emits_JASSERT
    | apply emits_modifyConn
    | intro _

theorem captureMetadata_keeps {β : Type} (f : FileConnection → β) (k : Kernel)
    (h1 : ∀ (c : FileConnection) (p : Str) (t : FileType),
      f { c with path := p, type := t } = f c)
    (h2 : ∀ (c : FileConnection) (p : Str), f { c with rel_path := p } = f c)
    (h3 : ∀ (c : FileConnection) (d : Str) (o : Int) (st : Stat),
      f { c with ckptFilesDir := d, offset := o, stat := st } = f c) :
    Keeps f (FileConnection.captureMetadata k) := by
  unfold FileConnection.captureMetadata
  repeat' first
    | exact handleUnlinkedFile_keeps f k h1
    | exact calculateRelativePath_keeps f k h2
    | apply keeps_bind
    | apply keeps_getConn
    | apply keeps_fds0
    | apply keeps_JASSERT
    | exact keeps_modifyConn _ _ (fun c => h3 c _ _ _)
    | intro _

theorem captureMetadata_fds (k : Kernel) (s : Sys)
    (h : (FileConnection.captureMetadata k s).1 = .ok ()) :
    ∃ fd rest, (FileConnection.captureMetadata k s).2.conn.fds = fd :: rest := by
  have hk := (captureMetadata_keeps (fun c => c.fds) k (fun _ _ _ => rfl) (fun _ _ => rfl)
    (fun _ _ _ _ => rfl)).run s
  simp only [] at hk
  rw [hk]
  cases hf : s.conn.fds with
  | cons fd rest => exact ⟨fd, rest, rfl⟩
  | nil =>
    exfalso
    unfold FileConnection.captureMetadata at h
    simp [hf] at h

theorem preCheckpoint_of_metadata (k : Kernel) (s : Sys) :
    FileConnection.preCheckpoint k s =
      match FileConnection.captureMetadata k s with
      | (.ok _, s1) => FileConnection.captureDecision k s1
      | (.error e, s1) => (.error e, s1) := by
  unfold FileConnection.preCheckpoint
  rw [FM.bind_apply, FM.andThen_apply]
  cases FileConnection.captureMetadata k s with
  | mk r s1 => cases r <;> rfl

theorem bind_keeps_at {α β γ : Type} (g : FileConnection → γ) (m : FM α) (f : α → FM β)
    (s : Sys) (h1 : g (m s).2.conn = g s.conn) (h2 : ∀ a, Keeps g (f a)) :
    g ((m >>= f) s).2.conn = g s.conn := by
  simp only [FM.bind_apply, FM.andThen_apply]
  cases hms : m s with
  | mk r s1 =>
    rw [hms] at h1
    cases r with
    | error e => exact h1
    | ok a =>
      have h3 := (h2 a).run s1
      simp only [] at h1 ⊢
      rw [h3, h1]

theorem handleUnlinkedFile_blacklisted (k : Kernel) (s : Sys)
    (hb : _isBlacklistedFile k s.conn.path = true) :
    (FileConnection.handleUnlinkedFile k s).1 = .ok () ∧
    (FileConnection.handleUnlinkedFile k s).2.conn.path = s.conn.path := by
  unfold FileConnection.handleUnlinkedFile
  simp only [FM.bind_apply, FM.andThen_apply, getConn_apply, FileExists_apply, hb,
    Bool.not_true, Bool.and_false, Bool.false_eq_true, if_false, FM.ite_apply]
  split
  · cases k.accessW s.conn.path <;> exact ⟨rfl, rfl⟩
  · exact ⟨rfl, rfl⟩

theorem captureMetadata_blacklisted (k : Kernel) (s : Sys)
    (hb : _isBlacklistedFile k s.conn.path = true) :
    (FileConnection.captureMetadata k s).2.conn.path = s.conn.path := by
  unfold FileConnection.captureMetadata
  rw [FM.bind_apply, FM.andThen_apply, getConn_apply]
  simp only []
  rw [FM.bind_apply, FM.andThen_apply, JASSERT_apply]
  by_cases hpos : decide (0 < s.conn.fds.length) = true
  · rw [if_pos hpos]
    apply bind_keeps_at (fun c => c.path)
    · exact (handleUnlinkedFile_blacklisted k s hb).2
    · intro _
      repeat' first
        | exact calculateRelativePath_keeps _ k (fun _ _ => rfl)
        | apply keeps_bind
        | apply keeps_fds0
        | exact keeps_modifyConn _ _ (fun _ => rfl)
        | intro _
  · rw [if_neg hpos]

/-- C7 (as amended): for every file whose path, once `preCheckpoint` has
recorded the metadata, is not blacklisted, `FileConnection::preCheckpoint`
calls `saveFile` and sets the content-was-captured flag whenever one of these
holds: the checkpoint-all-open-files toggle is set and the owner of the file
is the checkpointing user; the classification is Deleted; the program is a
vi/vim variant and the path ends with ".swp" or ".swo"; the name of the
program starts with "emacs"; the classification is BatchQueueManaged and the
batch-queue callback is present and returns true.  When the program is not a
vi/vim variant, `saveFile` is called only if one of the other four holds, and
otherwise the flag is left as it was. -/
theorem preCheckpoint_capture_decision (k : Kernel) (s s1 : Sys)
    (hmeta : FileConnection.captureMetadata k s = (.ok (), s1))
    (htrace : s.trace = [])
    (hbl : _isBlacklistedFile k s1.conn.path = false) :
    (((k.ckptOpenFiles = true ∧ s1.conn.stat.st_uid = k.uid) ∨
        s1.conn.type = FileType.FILE_DELETED ∨
        (_isVimApp k = true ∧
          (strEndsWith s1.conn.path ".swp".toList = true ∨
            strEndsWith s1.conn.path ".swo".toList = true)) ∨
        strStartsWith k.progName "emacs".toList = true ∨
        bqAgrees k s1.conn) →
      (∃ fd, Event.saveFile fd ∈ (FileConnection.preCheckpoint k s).2.trace) ∧
      (FileConnection.preCheckpoint k s).2.conn.checkpointed = true) ∧
    (_isVimApp k = false →
      ((∃ fd, Event.saveFile fd ∈ (FileConnection.preCheckpoint k s).2.trace) →
        (k.ckptOpenFiles = true ∧ s1.conn.stat.st_uid = k.uid) ∨
        s1.conn.type = FileType.FILE_DELETED ∨
        strStartsWith k.progName "emacs".toList = true ∨
        bqAgrees k s1.conn) ∧
      (¬ ((k.ckptOpenFiles = true ∧ s1.conn.stat.st_uid = k.uid) ∨
          s1.conn.type = FileType.FILE_DELETED ∨
          strStartsWith k.progName "emacs".toList = true ∨
          bqAgrees k s1.conn) →
        (FileConnection.preCheckpoint k s).2.conn.checkpointed = s.conn.checkpointed)) := by
  have hpre : FileConnection.preCheckpoint k s = FileConnection.captureDecision k s1 := by
    rw [preCheckpoint_of_metadata, hmeta]
  obtain ⟨evs, he, hp⟩ := (captureMetadata_emits k).run s
  rw [hmeta, htrace, List.nil_append] at he
  simp only [] at he
  have hno : ∀ d, Event.saveFile d ∉ s1.trace := by
    intro d hd
    rw [he] at hd
    have := hp _ hd
    simp [Event.isSaveFile] at this
  obtain ⟨fd, rest, hfds⟩ := captureMetadata_fds k s (by rw [hmeta])
  rw [hmeta] at hfds
  simp only [] at hfds
  have hflag := (captureMetadata_keeps (fun c => c.checkpointed) k (fun _ _ _ => rfl)
    (fun _ _ => rfl) (fun _ _ _ _ => rfl)).run s
  rw [hmeta] at hflag
  simp only [] at hflag
  obtain ⟨hb1, hb2, hb3⟩ := afterBq_fields k s1
  have hskip : ¬ savesContent k s1.conn →
      (∀ d, Event.saveFile d ∉ (FileConnection.preCheckpoint k s).2.trace) ∧
      (FileConnection.preCheckpoint k s).2.conn.checkpointed = s.conn.checkpointed := by
    intro hn
    rw [hpre, captureDecision_skips k s1 hn]
    simp only [hb1, hb3, hflag]
    exact ⟨hno, trivial⟩
  constructor
  · intro hc
    have hs : savesContent k s1.conn := by
      rcases hc with h | h | h | h | h
      · exact Or.inr ⟨hbl, Or.inl h⟩
      · exact Or.inr ⟨hbl, Or.inr (Or.inl h)⟩
      · refine Or.inr ⟨hbl, Or.inr (Or.inr (Or.inl ⟨h.1, ?_⟩))⟩
        rcases h.2 with h2 | h2
        · exact Or.inr (swp_not_swo _ h2)
        · cases h3 : strEndsWith s1.conn.path ".swp".toList with
          | false => exact Or.inl rfl
          | true =>
            have := swp_not_swo _ h3
            rw [h2] at this
            exact absurd this (by decide)
      · exact Or.inr ⟨hbl, Or.inr (Or.inr (Or.inr h))⟩
      · exact Or.inl h
    rw [hpre, captureDecision_saves k s1 hs]
    obtain ⟨⟨ev2, h1⟩, h2⟩ := saveFile_run k (afterBq k s1) fd rest (by rw [hb2]; exact hfds)
    exact ⟨⟨fd, by rw [h1]; simp⟩, h2⟩
  · intro hv
    have hcases : savesContent k s1.conn →
        (k.ckptOpenFiles = true ∧ s1.conn.stat.st_uid = k.uid) ∨
        s1.conn.type = FileType.FILE_DELETED ∨
        strStartsWith k.progName "emacs".toList = true ∨
        bqAgrees k s1.conn := by
      intro hs
      rcases hs with h | ⟨_, h | h | h | h⟩
      · exact Or.inr (Or.inr (Or.inr h))
      · exact Or.inl h
      · exact Or.inr (Or.inl h)
      · rw [hv] at h
        exact absurd h.1 (by decide)
      · exact Or.inr (Or.inr (Or.inl h))
    constructor
    · rintro ⟨d, hd⟩
      by_contra hn
      exact (hskip (fun hs => hn (hcases hs))).1 d hd
    · intro hn
      exact (hskip (fun hs => hn (hcases hs))).2

/-- C7, an example: under emacs a regular file of the user is captured. -/
theorem preCheckpoint_capture_decision_witness :
    FileConnection.captureMetadata emacsKernel dataSys
      = (.ok (), (FileConnection.captureMetadata emacsKernel dataSys).2) ∧
    dataSys.trace = [] ∧
    _isBlacklistedFile emacsKernel
      (FileConnection.captureMetadata emacsKernel dataSys).2.conn.path = false ∧
    ((((emacsKernel.ckptOpenFiles = true ∧
          (FileConnection.captureMetadata emacsKernel dataSys).2.conn.stat.st_uid
            = emacsKernel.uid) ∨
        (FileConnection.captureMetadata emacsKernel dataSys).2.conn.type
          = FileType.FILE_DELETED ∨
        (_isVimApp emacsKernel = true ∧
          (strEndsWith (FileConnection.captureMetadata emacsKernel dataSys).2.conn.path
              ".swp".toList = true ∨
            strEndsWith (FileConnection.captureMetadata emacsKernel dataSys).2.conn.path
              ".swo".toList = true)) ∨
        strStartsWith emacsKernel.progName "emacs".toList = true ∨
        bqAgrees emacsKernel (FileConnection.captureMetadata emacsKernel dataSys).2.conn) →
      (∃ fd, Event.saveFile fd ∈ (FileConnection.preCheckpoint emacsKernel dataSys).2.trace) ∧
      (FileConnection.preCheckpoint emacsKernel dataSys).2.conn.checkpointed = true) ∧
    (_isVimApp emacsKernel = false →
      ((∃ fd, Event.saveFile fd ∈ (FileConnection.preCheckpoint emacsKernel dataSys).2.trace) →
        (emacsKernel.ckptOpenFiles = true ∧
          (FileConnection.captureMetadata emacsKernel dataSys).2.conn.stat.st_uid
            = emacsKernel.uid) ∨
        (FileConnection.captureMetadata emacsKernel dataSys).2.conn.type
          = FileType.FILE_DELETED ∨
        strStartsWith emacsKernel.progName "emacs".toList = true ∨
        bqAgrees emacsKernel (FileConnection.captureMetadata emacsKernel dataSys).2.conn) ∧
      (¬ ((emacsKernel.ckptOpenFiles = true ∧
            (FileConnection.captureMetadata emacsKernel dataSys).2.conn.stat.st_uid
              = emacsKernel.uid) ∨
          (FileConnection.captureMetadata emacsKernel dataSys).2.conn.type
            = FileType.FILE_DELETED ∨
          strStartsWith emacsKernel.progName "emacs".toList = true ∨
          bqAgrees emacsKernel (FileConnection.captureMetadata emacsKernel dataSys).2.conn) →
        (FileConnection.preCheckpoint emacsKernel dataSys).2.conn.checkpointed
          = dataSys.conn.checkpointed))) :=
  ⟨Prod.ext (by decide) rfl, rfl, by decide,
    preCheckpoint_capture_decision emacsKernel dataSys
      (FileConnection.captureMetadata emacsKernel dataSys).2
      (Prod.ext (by decide) rfl) rfl (by decide)⟩

/-- C7 as stated fails: under emacs a regular file of the user whose path is
not blacklisted is captured although the toggle is off, the classification
is neither Deleted nor BatchQueueManaged, and the program is no vi/vim
variant. -/
theorem preCheckpoint_capture_decision_counterexample :
    (FileConnection.captureMetadata emacsKernel dataSys).1 = .ok () ∧
    _isBlacklistedFile emacsKernel
      (FileConnection.captureMetadata emacsKernel dataSys).2.conn.path = false ∧
    emacsKernel.ckptOpenFiles = false ∧
    (FileConnection.captureMetadata emacsKernel dataSys).2.conn.type
      = FileType.FILE_REGULAR ∧
    _isVimApp emacsKernel = false ∧
    Event.saveFile 5 ∈ (FileConnection.preCheckpoint emacsKernel dataSys).2.trace ∧
    (FileConnection.preCheckpoint emacsKernel dataSys).2.conn.checkpointed = true := by
  decide

/-- C8 (as amended): for every path that `_isBlacklistedFile` accepts,
`FileConnection::preCheckpoint` leaves the path as it is and calls `saveFile`
only if, when the decision is taken, the classification is BatchQueueManaged
and the batch-queue callback is present and returns true; in every other case
no content-capture call is made and the content-was-captured flag is left as
it was, whatever the owner, the toggle and the program name are.  In that one
case the content is captured. -/
theorem preCheckpoint_blacklisted (k : Kernel) (s : Sys) (htrace : s.trace = [])
    (hb : _isBlacklistedFile k s.conn.path = true) :
    (FileConnection.captureMetadata k s).2.conn.path = s.conn.path ∧
    ((∃ fd, Event.saveFile fd ∈ (FileConnection.preCheckpoint k s).2.trace) →
      bqAgrees k (FileConnection.captureMetadata k s).2.conn) ∧
    (¬ bqAgrees k (FileConnection.captureMetadata k s).2.conn →
      (FileConnection.preCheckpoint k s).2.conn.checkpointed = s.conn.checkpointed) ∧
    ((FileConnection.captureMetadata k s).1 = .ok () →
      bqAgrees k (FileConnection.captureMetadata k s).2.conn →
      (∃ fd, Event.saveFile fd ∈ (FileConnection.preCheckpoint k s).2.trace) ∧
      (FileConnection.preCheckpoint k s).2.conn.checkpointed = true) := by
  have hpath := captureMetadata_blacklisted k s hb
  have hfdsOk := captureMetadata_fds k s
  obtain ⟨evs, he, hp⟩ := (captureMetadata_emits k).run s
  have hflag := (captureMetadata_keeps (fun c => c.checkpointed) k (fun _ _ _ => rfl)
    (fun _ _ => rfl) (fun _ _ _ _ => rfl)).run s
  have hpre := preCheckpoint_of_metadata k s
  refine ⟨hpath, ?_⟩
  cases hm : FileConnection.captureMetadata k s with
  | mk r s1 =>
    rw [hm] at hpath hfdsOk he hflag hpre
    simp only [] at hpath hfdsOk he hflag hpre
    rw [htrace, List.nil_append] at he
    have hno : ∀ d, Event.saveFile d ∉ s1.trace := by
      intro d hd
      rw [he] at hd
      have := hp _ hd
      simp [Event.isSaveFile] at this
    cases r with
    | error e =>
      simp only [] at hpre
      rw [hpre]
      refine ⟨fun ⟨d, hd⟩ => absurd hd (hno d), fun _ => hflag, fun h => ?_⟩
      simp at h
    | ok u =>
      simp only [] at hpre
      obtain ⟨hb1, hb2, hb3⟩ := afterBq_fields k s1
      have hiff : savesContent k s1.conn ↔ bqAgrees k s1.conn := by
        unfold savesContent
        constructor
        · rintro (h | ⟨h, _⟩)
          · exact h
          · rw [hpath, hb] at h
            exact absurd h (by decide)
        · intro h
          exact Or.inl h
      have hskip : ¬ bqAgrees k s1.conn →
          (∀ d, Event.saveFile d ∉ (FileConnection.preCheckpoint k s).2.trace) ∧
          (FileConnection.preCheckpoint k s).2.conn.checkpointed = s.conn.checkpointed := by
        intro hn
        rw [hpre, captureDecision_skips k s1 (fun hs => hn (hiff.mp hs))]
        simp only [hb1, hb3, hflag]
        exact ⟨hno, trivial⟩
      refine ⟨?_, fun hn => (hskip hn).2, ?_⟩
      · rintro ⟨d, hd⟩
        by_contra hn
        exact (hskip hn).1 d hd
      · intro _ hbq
        obtain ⟨fd, rest, hfds⟩ := hfdsOk rfl
        rw [hpre, captureDecision_saves k s1 (hiff.mpr hbq)]
        obtain ⟨⟨ev2, h1⟩, h2⟩ := saveFile_run k (afterBq k s1) fd rest
          (by rw [hb2]; exact hfds)
        exact ⟨⟨fd, by rw [h1]; simp⟩, h2⟩

/-- C8, an example: `/dev/null`. -/
theorem preCheckpoint_blacklisted_witness :
    devNullSys.trace = [] ∧ _isBlacklistedFile baseKernel devNullSys.conn.path = true ∧
    ((FileConnection.captureMetadata baseKernel devNullSys).2.conn.path = devNullSys.conn.path ∧
    ((∃ fd, Event.saveFile fd ∈ (FileConnection.preCheckpoint baseKernel devNullSys).2.trace) →
      bqAgrees baseKernel (FileConnection.captureMetadata baseKernel devNullSys).2.conn) ∧
    (¬ bqAgrees baseKernel (FileConnection.captureMetadata baseKernel devNullSys).2.conn →
      (FileConnection.preCheckpoint baseKernel devNullSys).2.conn.checkpointed
        = devNullSys.conn.checkpointed) ∧
    ((FileConnection.captureMetadata baseKernel devNullSys).1 = .ok () →
      bqAgrees baseKernel (FileConnection.captureMetadata baseKernel devNullSys).2.conn →
      (∃ fd, Event.saveFile fd ∈ (FileConnection.preCheckpoint baseKernel devNullSys).2.trace) ∧
      (FileConnection.preCheckpoint baseKernel devNullSys).2.conn.checkpointed = true)) :=
  ⟨rfl, by decide, preCheckpoint_blacklisted baseKernel devNullSys rfl (by decide)⟩

/-- C8 as stated fails: a file under the private temp directory that is
classified BatchQueueManaged is captured when the batch-queue callback
returns true. -/
theorem preCheckpoint_blacklisted_counterexample :
    _isBlacklistedFile bqKernel tmpBqSys.conn.path = true ∧
    tmpBqSys.conn.checkpointed = false ∧
    Event.saveFile 5 ∈ (FileConnection.preCheckpoint bqKernel tmpBqSys).2.trace ∧
    (FileConnection.preCheckpoint bqKernel tmpBqSys).2.conn.checkpointed = true := by
  decide

/-- C9 (as amended): for every `FileConnection` whose content was not
captured, blacklisted or not, `FileConnection::postRestart` returns at once,
without an existence assertion, but `FileConnection::refill` asserts that a
file exists at the path and fails fatally, before any other call, when none
does.  The existence assertion that is skipped for a blacklisted path is the
one at checkpoint time: `handleUnlinkedFile` returns normally for it. -/
theorem restart_existence_assertion (k : Kernel) (s : Sys)
    (hcap : s.conn.checkpointed = false) :
    (0 < s.conn.fds.length → FileConnection.postRestart k s = (.ok (), s)) ∧
    (s.disk s.conn.path = none → FileConnection.refill k s = (.error .fatal, s)) ∧
    (_isBlacklistedFile k s.conn.path = true →
      (FileConnection.handleUnlinkedFile k s).1 = .ok ()) := by
  refine ⟨fun hfds => ?_, fun hdisk => ?_, fun hb => (handleUnlinkedFile_blacklisted k s hb).1⟩
  · unfold FileConnection.postRestart
    simp [hcap, hfds]
  · unfold FileConnection.refill FileConnection.refillReopen
    simp [hcap, hdisk]

/-- C9, an example: a file under the private temp directory that is gone at
restart. -/
theorem restart_existence_assertion_witness :
    tmpGoneSys.conn.checkpointed = false ∧
    ((0 < tmpGoneSys.conn.fds.length →
      FileConnection.postRestart baseKernel tmpGoneSys = (.ok (), tmpGoneSys)) ∧
    (tmpGoneSys.disk tmpGoneSys.conn.path = none →
      FileConnection.refill baseKernel tmpGoneSys = (.error .fatal, tmpGoneSys)) ∧
    (_isBlacklistedFile baseKernel tmpGoneSys.conn.path = true →
      (FileConnection.handleUnlinkedFile baseKernel tmpGoneSys).1 = .ok ())) :=
  ⟨rfl, restart_existence_assertion baseKernel tmpGoneSys rfl⟩

/-- C9 as stated fails: for a blacklisted path whose content was not captured
and at which no file exists at restart, `refill` fails fatally on the
assertion that the file exists. -/
theorem restart_existence_assertion_counterexample :
    _isBlacklistedFile baseKernel tmpGoneSys.conn.path = true ∧
    tmpGoneSys.conn.checkpointed = false ∧
    tmpGoneSys.disk tmpGoneSys.conn.path = none ∧
    (FileConnection.postRestart baseKernel tmpGoneSys).1 = .ok () ∧
    (FileConnection.refill baseKernel tmpGoneSys).1 = .error .fatal ∧
    (FileConnection.refill baseKernel tmpGoneSys).2.trace = [] := by
  decide

/-! ## POSIX message queue connection -/

theorem getElem?_append_cons {α : Type} (l1 : List α) (x : α) (l2 : List α) :
    (l1 ++ x :: l2)[l1.length]? = some x := by
  induction l1 with
  | nil => simp
  | cons a l ih => simpa using ih

theorem getElem?_map_append_cons {α β : Type} (f : α → β) (pre : List α) (x : α)
    (rest : List α) : ((pre ++ x :: rest).map f)[pre.length]? = some (f x) := by
  have h := getElem?_append_cons (pre.map f) (f x) (rest.map f)
  rw [List.length_map] at h
  rw [List.map_append, List.map_cons]
  exact h

theorem mqReceiveLoop_msgs (recv : Nat → RecvOutcome) (msgs : List (List Byte × Nat)) :
    ∀ (i : Nat) (c : PosixMQConnection),
      (∀ j (h : j < msgs.length), recv (i + j) = RecvOutcome.msg msgs[j].1 msgs[j].2) →
      mqReceiveLoop recv msgs.length i c =
        .ok { c with msgInQueue := c.msgInQueue ++ msgs.map Prod.fst,
                     msgInQueuePrio := c.msgInQueuePrio ++ msgs.map Prod.snd } := by
  induction msgs with
  | nil => intro i c _; simp [mqReceiveLoop]
  | cons mp rest ih =>
    intro i c hrecv
    have h0 := hrecv 0 (by simp)
    simp only [Nat.add_zero, List.getElem_cons_zero] at h0
    rw [List.length_cons, mqReceiveLoop]
    simp only [h0]
    rw [ih (i + 1) _ (fun j hj => by
      have := hrecv (j + 1) (by simp; omega)
      simpa [Nat.add_assoc, Nat.add_comm 1 j] using this)]
    simp

theorem mqSendLoop_all (c : PosixMQConnection) (sendRet : Nat → Int) (fd : Int)
    (fds : List Int) (hfds : c.fds = fd :: fds) (msgs : List (List Byte × Nat)) :
    ∀ (pre : List (List Byte × Nat)) (sent : List MqSend),
      c.msgInQueue = (pre ++ msgs).map Prod.fst →
      c.msgInQueuePrio = (pre ++ msgs).map Prod.snd →
      (∀ j, j < msgs.length → sendRet (pre.length + j) ≠ -1) →
      mqSendLoop c sendRet msgs.length pre.length sent
        = (sent ++ msgs.map (sendOf fd), .ok ()) := by
  induction msgs with
  | nil => intro pre sent _ _ _; simp [mqSendLoop]
  | cons mp rest ih =>
    intro pre sent hm hp hok
    have e1 : c.msgInQueue[pre.length]? = some mp.1 := by
      rw [hm]; exact getElem?_map_append_cons _ _ _ _
    have e2 : c.msgInQueuePrio[pre.length]? = some mp.2 := by
      rw [hp]; exact getElem?_map_append_cons _ _ _ _
    have e3 : c.fds[0]? = some fd := by rw [hfds]; simp
    have h0 := hok 0 (by simp)
    rw [List.length_cons, mqSendLoop]
    simp only [e1, e2, e3]
    simp only [Nat.add_zero] at h0
    rw [if_pos h0]
    have hl : pre.length + 1 = (pre ++ [mp]).length := by simp
    rw [hl, ih (pre ++ [mp]) _ (by simpa using hm) (by simpa using hp) (fun j hj => by
      have := hok (j + 1) (by simp; omega)
      simpa [Nat.add_assoc, Nat.add_comm 1 j] using this)]
    simp [sendOf]

theorem mqSendLoop_fail (c : PosixMQConnection) (sendRet : Nat → Int) (fd : Int)
    (fds : List Int) (hfds : c.fds = fd :: fds) (msgs : List (List Byte × Nat)) :
    ∀ (pre : List (List Byte × Nat)) (sent : List MqSend) (d : Nat),
      c.msgInQueue = (pre ++ msgs).map Prod.fst →
      c.msgInQueuePrio = (pre ++ msgs).map Prod.snd →
      d < msgs.length →
      (∀ j, j < d → sendRet (pre.length + j) ≠ -1) → sendRet (pre.length + d) = -1 →
      mqSendLoop c sendRet msgs.length pre.length sent
        = (sent ++ (msgs.take (d + 1)).map (sendOf fd), .error .fatal) := by
  induction msgs with
  | nil => intro pre sent d _ _ hd; simp at hd
  | cons mp rest ih =>
    intro pre sent d hm hp hd hok hfail
    have e1 : c.msgInQueue[pre.length]? = some mp.1 := by
      rw [hm]; exact getElem?_map_append_cons _ _ _ _
    have e2 : c.msgInQueuePrio[pre.length]? = some mp.2 := by
      rw [hp]; exact getElem?_map_append_cons _ _ _ _
    have e3 : c.fds[0]? = some fd := by rw [hfds]; simp
    rw [List.length_cons, mqSendLoop]
    simp only [e1, e2, e3]
    cases d with
    | zero =>
      simp only [Nat.add_zero] at hfail
      simp [hfail, sendOf]
    | succ d =>
      have h0 := hok 0 (by omega)
      simp only [Nat.add_zero] at h0
      rw [if_pos h0]
      have hl : pre.length + 1 = (pre ++ [mp]).length := by simp
      rw [hl, ih (pre ++ [mp]) _ d (by simpa using hm) (by simpa using hp)
        (by simpa using hd)
        (fun j hj => by
          have := hok (j + 1) (by omega)
          simpa [Nat.add_assoc, Nat.add_comm 1 j] using this)
        (by simpa [Nat.add_assoc, Nat.add_comm 1 d] using hfail)]
      simp [sendOf]

/-- C10: if `PosixMQConnection::preCheckpoint`, entered with nothing captured
and not yet replayed, received the N messages `(m_1,p_1),...,(m_N,p_N)` in
that order, then `PosixMQConnection::refill` issues exactly N sends on the
descriptor of the connection, the i-th with the bytes and the length of `m_i`
and the priority `p_i`, in the captured order, and leaves the captured message
list and priority list empty; and if the send of index `j` is the first that
fails, `refill` aborts fatally after that send. -/
theorem mq_replay_order (c : PosixMQConnection) (k : MqCapture) (fd : Int) (fds : List Int)
    (msgs : List (List Byte × Nat))
    (hfds : c.fds = fd :: fds)
    (hempty : c.msgInQueue = [] ∧ c.msgInQueuePrio = [])
    (hfstat : k.fstatRet ≠ -1) (hattr : k.getattrRet ≠ -1) (hopen : k.openFd ≠ -1)
    (hcur : k.attr.mq_curmsgs = (msgs.length : Int))
    (hrecv : ∀ i (h : i < msgs.length), k.recv i = RecvOutcome.msg msgs[i].1 msgs[i].2) :
    ∃ c1, c.preCheckpoint k = .ok c1 ∧
      c1.msgInQueue = msgs.map Prod.fst ∧ c1.msgInQueuePrio = msgs.map Prod.snd ∧
      c1.qnum = (msgs.length : Int) ∧ c1.fds = c.fds ∧
      (∀ sendRet : Nat → Int, (∀ i, i < msgs.length → sendRet i ≠ -1) →
        c1.refill sendRet =
          (msgs.map (sendOf fd), .ok { c1 with msgInQueue := [], msgInQueuePrio := [] })) ∧
      (∀ (sendRet : Nat → Int) (j : Nat), j < msgs.length →
        (∀ i, i < j → sendRet i ≠ -1) → sendRet j = -1 →
        c1.refill sendRet = ((msgs.take (j + 1)).map (sendOf fd), .error .fatal)) := by
  have hpos : 0 < c.fds.length := by rw [hfds]; simp
  have hneg : ¬ ((msgs.length : Int) < 0) := by omega
  obtain ⟨c0, hc0⟩ : ∃ c0, c0 = (if c.mode = 0 then { c with mode := k.st_mode } else c) :=
    ⟨_, rfl⟩
  have hm : c0.msgInQueue = [] := by rw [hc0]; split <;> exact hempty.1
  have hp : c0.msgInQueuePrio = [] := by rw [hc0]; split <;> exact hempty.2
  have hf : c0.fds = c.fds := by rw [hc0]; split <;> rfl
  have hrun := mqReceiveLoop_msgs k.recv msgs 0
    { c0 with attr := k.attr, qnum := k.attr.mq_curmsgs }
    (fun j h => by simpa using hrecv j h)
  simp only [hm, hp, List.nil_append] at hrun
  refine ⟨{ c0 with attr := k.attr, qnum := k.attr.mq_curmsgs,
                    msgInQueue := msgs.map Prod.fst, msgInQueuePrio := msgs.map Prod.snd },
    ?_, rfl, rfl, hcur, hf, ?_, ?_⟩
  · unfold PosixMQConnection.preCheckpoint
    simp only [hpos, if_true, hfstat, ne_eq, not_false_eq_true, hattr, hopen, hcur, hneg,
      if_false, Int.toNat_ofNat, ← hc0, hm, hp]
    rw [hcur] at hrun
    exact hrun
  · intro sendRet hok
    unfold PosixMQConnection.refill
    simp only [hcur, Int.toNat_ofNat]
    have h := mqSendLoop_all
      { c0 with attr := k.attr, qnum := (msgs.length : Int),
                msgInQueue := msgs.map Prod.fst, msgInQueuePrio := msgs.map Prod.snd }
      sendRet fd fds (by simp [hf, hfds]) msgs [] [] (by simp) (by simp) (by simpa using hok)
    simp only [List.length_nil, List.nil_append] at h
    simp only [h]
  · intro sendRet j hj hok hfail
    unfold PosixMQConnection.refill
    simp only [hcur, Int.toNat_ofNat]
    have h := mqSendLoop_fail
      { c0 with attr := k.attr, qnum := (msgs.length : Int),
                msgInQueue := msgs.map Prod.fst, msgInQueuePrio := msgs.map Prod.snd }
      sendRet fd fds (by simp [hf, hfds]) msgs [] [] j (by simp) (by simp) hj
      (by simpa using hok) (by simpa using hfail)
    simp only [List.length_nil, List.nil_append] at h
    simp only [h]

theorem mqKernel_recv :
    ∀ i (h : i < mqMsgs.length), mqKernel.recv i = RecvOutcome.msg mqMsgs[i].1 mqMsgs[i].2 := by
  intro i h
  show (match mqMsgs[i]? with
    | some mp => RecvOutcome.msg mp.1 mp.2
    | none => RecvOutcome.error) = _
  rw [List.getElem?_eq_getElem h]

/-- C10, the example of the claim: the captured messages `[(A,5),(B,1),(C,5)]`
are sent as `(A,5),(B,1),(C,5)` on descriptor 4. -/
theorem mq_replay_order_witness :
    mqConn.fds = 4 :: [] ∧ (mqConn.msgInQueue = [] ∧ mqConn.msgInQueuePrio = []) ∧
    mqKernel.fstatRet ≠ -1 ∧ mqKernel.getattrRet ≠ -1 ∧ mqKernel.openFd ≠ -1 ∧
    mqKernel.attr.mq_curmsgs = (mqMsgs.length : Int) ∧
    (∀ i (h : i < mqMsgs.length),
      mqKernel.recv i = RecvOutcome.msg mqMsgs[i].1 mqMsgs[i].2) ∧
    ∃ c1, mqConn.preCheckpoint mqKernel = .ok c1 ∧
      c1.msgInQueue = mqMsgs.map Prod.fst ∧ c1.msgInQueuePrio = mqMsgs.map Prod.snd ∧
      c1.qnum = (mqMsgs.length : Int) ∧ c1.fds = mqConn.fds ∧
      (∀ sendRet : Nat → Int, (∀ i, i < mqMsgs.length → sendRet i ≠ -1) →
        c1.refill sendRet =
          (mqMsgs.map (sendOf 4), .ok { c1 with msgInQueue := [], msgInQueuePrio := [] })) ∧
      (∀ (sendRet : Nat → Int) (j : Nat), j < mqMsgs.length →
        (∀ i, i < j → sendRet i ≠ -1) → sendRet j = -1 →
        c1.refill sendRet = ((mqMsgs.take (j + 1)).map (sendOf 4), .error .fatal)) :=
  ⟨rfl, by decide, by decide, by decide, by decide, by decide, mqKernel_recv,
    mq_replay_order mqConn mqKernel 4 [] mqMsgs rfl (by decide) (by decide) (by decide)
      (by decide) (by decide) mqKernel_recv⟩

/-! ## Message queue: serialization -/

theorem mqRoundTrip_fields (c fresh : PosixMQConnection) :
    mqRoundTrip c fresh =
      .ok { fresh with name := c.name, oflag := c.oflag, mode := c.mode, attr := c.attr } := by
  simp [mqRoundTrip, PosixMQConnection.serializeSubClass, JSERIALIZE_ASSERT_POINT,
    JBinarySerializer.str, JBinarySerializer.num, JBinarySerializer.attr]

/-- C11, the code at the failing input: the connection `mqCaptured` is what a
registration of a notification and a checkpoint that captures the messages A,
B, C leave; `serializeSubClass` writes the name, the flags, the mode and the
attributes only, so that the instance read back has no message, no priority,
the count 0 and no registration, and its `refill` sends nothing where the
`refill` of the original sends A, B, C. -/
theorem mq_serialize_round_trip_drops_capture :
    mqConn.on_mq_notify (some 7) = .ok { mqConn with notifyReg := true, sevp := 7 } ∧
    PosixMQConnection.preCheckpoint { mqConn with notifyReg := true, sevp := 7 } mqKernel
      = .ok mqCaptured ∧
    PosixMQConnection.serializeSubClass mqCaptured (.writer [])
      = .ok (.writer [.str "dmtcp::PosixMQConnection".toList, .str ['/', 'q'], .num 2, .num 384,
          .attr mqCaptured.attr], mqCaptured) ∧
    mqRoundTrip mqCaptured mqFresh
      = .ok { mqFresh with name := ['/', 'q'], oflag := 2, mode := 384,
                           attr := mqCaptured.attr } ∧
    (mqCaptured.refill (fun _ => 0)).1 = mqMsgs.map (sendOf 4) ∧
    (PosixMQConnection.refill
      { mqFresh with name := ['/', 'q'], oflag := 2, mode := 384, attr := mqCaptured.attr }
      (fun _ => 0)).1 = [] ∧
    (∀ c fresh : PosixMQConnection, ∃ r, mqRoundTrip c fresh = .ok r ∧
      r.qnum = fresh.qnum ∧ r.msgInQueue = fresh.msgInQueue ∧
      r.msgInQueuePrio = fresh.msgInQueuePrio ∧ r.notifyReg = fresh.notifyReg ∧
      r.sevp = fresh.sevp) :=
  ⟨by decide, by decide, by decide, by decide, by decide, by decide,
    fun c fresh => ⟨_, mqRoundTrip_fields c fresh, rfl, rfl, rfl, rfl, rfl⟩⟩

/-! ## Standard-stream connection -/

theorem stdioRestoreLoop_rounds (type : StdioType) (dup2Ret : Nat → Int)
    (hrole : type ≠ StdioType.STDIO_INVALID) :
    ∀ (fds : List Int) (i : Nat) (tr : List StdioEvent), (∀ fd ∈ fds, 0 ≤ fd) →
      stdioRestoreLoop type dup2Ret fds i tr
        = (tr ++ aliasRounds (conventionalFd type) dup2Ret fds i, .ok ()) := by
  intro fds
  induction fds with
  | nil => intro i tr _; simp [stdioRestoreLoop, aliasRounds]
  | cons fd rest ih =>
    intro i tr hfds
    have h0 : 0 ≤ fd := hfds fd (by simp)
    have hrest : ∀ x ∈ rest, 0 ≤ x := fun x hx => hfds x (by simp [hx])
    unfold stdioRestoreLoop
    by_cases hle : fd ≤ 2
    · rw [if_pos hle, ih _ _ hrest]
      have : fd = 0 ∨ fd = 1 ∨ fd = 2 := by omega
      simp [aliasRounds, aliasRound, this]
    · rw [if_neg hle]
      have hne : ¬ (fd = 0 ∨ fd = 1 ∨ fd = 2) := by omega
      cases type with
      | STDIO_INVALID => exact absurd rfl hrole
      | STDIO_IN =>
        simp only [ih _ _ hrest, aliasRounds, aliasRound, conventionalFd, if_neg hne]
        by_cases hr : dup2Ret i = fd <;> simp [hr]
      | STDIO_OUT =>
        simp only [ih _ _ hrest, aliasRounds, aliasRound, conventionalFd, if_neg hne]
        by_cases hr : dup2Ret i = fd <;> simp [hr]
      | STDIO_ERR =>
        simp only [ih _ _ hrest, aliasRounds, aliasRound, conventionalFd, if_neg hne]
        by_cases hr : dup2Ret i = fd <;> simp [hr]

theorem dup2Calls_append (a b : List StdioEvent) :
    dup2Calls (a ++ b) = dup2Calls a ++ dup2Calls b := by
  induction a with
  | nil => rfl
  | cons e a ih => cases e <;> simp [dup2Calls, ih]

theorem dup2Calls_aliasRounds (oldFd : Int) (dup2Ret : Nat → Int) :
    ∀ (fds : List Int) (i : Nat),
      dup2Calls (aliasRounds oldFd dup2Ret fds i)
        = (fds.filter (fun fd => decide (fd ≠ 0 ∧ fd ≠ 1 ∧ fd ≠ 2))).map (fun fd => (oldFd, fd)) := by
  intro fds
  induction fds with
  | nil => intro i; rfl
  | cons fd rest ih =>
    intro i
    rw [aliasRounds, dup2Calls_append, ih]
    by_cases h : fd = 0 ∨ fd = 1 ∨ fd = 2
    · have h2 : ¬ (fd ≠ 0 ∧ fd ≠ 1 ∧ fd ≠ 2) := by tauto
      simp [aliasRound, h, h2, dup2Calls, List.filter_cons]
    · have h2 : fd ≠ 0 ∧ fd ≠ 1 ∧ fd ≠ 2 := by tauto
      have h3 : decide (fd ≠ 0 ∧ fd ≠ 1 ∧ fd ≠ 2) = true := decide_eq_true h2
      rw [List.filter_cons, if_pos h3]
      by_cases hr : dup2Ret i = fd <;> simp [aliasRound, h, hr, dup2Calls]

/-- C12: for every list of aliased descriptor numbers and every role among
input, output and error, `StdioConnection::postRestart` returns, having left
the aliases 0, 1 and 2 untouched and having duplicated, for every other alias
`fd` in the order of the list, the conventional descriptor of the role onto
`fd` exactly once; a duplication whose result is not `fd` is followed by a
warning and the remaining aliases are still processed. -/
theorem stdio_postRestart_reconstruct (c : StdioConnection) (dup2Ret : Nat → Int)
    (hrole : c.type = .STDIO_IN ∨ c.type = .STDIO_OUT ∨ c.type = .STDIO_ERR)
    (hfds : ∀ fd ∈ c.fds, 0 ≤ fd) :
    (conventionalFd c.type = 0 ↔ c.type = .STDIO_IN) ∧
    (conventionalFd c.type = 1 ↔ c.type = .STDIO_OUT) ∧
    (conventionalFd c.type = 2 ↔ c.type = .STDIO_ERR) ∧
    c.postRestart dup2Ret = (aliasRounds (conventionalFd c.type) dup2Ret c.fds 0, .ok ()) ∧
    dup2Calls (c.postRestart dup2Ret).1
      = (c.fds.filter (fun fd => decide (fd ≠ 0 ∧ fd ≠ 1 ∧ fd ≠ 2))).map
          (fun fd => (conventionalFd c.type, fd)) := by
  have hne : c.type ≠ StdioType.STDIO_INVALID := by
    rcases hrole with h | h | h <;> rw [h] <;> decide
  have hrun : c.postRestart dup2Ret
      = (aliasRounds (conventionalFd c.type) dup2Ret c.fds 0, .ok ()) := by
    unfold StdioConnection.postRestart
    rw [stdioRestoreLoop_rounds c.type dup2Ret hne c.fds 0 [] hfds]
    simp
  refine ⟨?_, ?_, ?_, hrun, ?_⟩
  · rcases hrole with h | h | h <;> rw [h] <;> decide
  · rcases hrole with h | h | h <;> rw [h] <;> decide
  · rcases hrole with h | h | h <;> rw [h] <;> decide
  · rw [hrun]
    exact dup2Calls_aliasRounds _ _ _ _

/-- C12, an example: the output stream aliased as 1, 5, 7 and 2, where the
duplication onto 7 fails. -/
theorem stdio_postRestart_reconstruct_witness :
    ((StdioConnection.mk [1, 5, 7, 2] .STDIO_OUT).type = .STDIO_IN ∨
      (StdioConnection.mk [1, 5, 7, 2] .STDIO_OUT).type = .STDIO_OUT ∨
      (StdioConnection.mk [1, 5, 7, 2] .STDIO_OUT).type = .STDIO_ERR) ∧
    (∀ fd ∈ (StdioConnection.mk [1, 5, 7, 2] .STDIO_OUT).fds, 0 ≤ fd) ∧
    StdioConnection.postRestart (StdioConnection.mk [1, 5, 7, 2] .STDIO_OUT)
        (dup2Script [1, 5, 7, 2])
      = ([.dup2 1 5, .dup2 1 7, .warning 1 7], .ok ()) :=
  ⟨Or.inr (Or.inl rfl), by decide,
    (stdio_postRestart_reconstruct (StdioConnection.mk [1, 5, 7, 2] .STDIO_OUT)
      (dup2Script [1, 5, 7, 2]) (Or.inr (Or.inl rfl)) (by decide)).2.2.2.1.trans (by decide)⟩

/-! ## Decimal digits -/

theorem toDigitsCore_append (fuel : Nat) : ∀ (n : Nat) (ds : List Char),
    Nat.toDigitsCore 10 fuel n ds = Nat.toDigitsCore 10 fuel n [] ++ ds := by
  induction fuel with
  | zero => intro n ds; simp [Nat.toDigitsCore]
  | succ fuel ih =>
    intro n ds
    simp only [Nat.toDigitsCore]
    by_cases h : n / 10 = 0
    · simp [h]
    · rw [if_neg h, if_neg h, ih (n / 10) (Nat.digitChar (n % 10) :: ds),
        ih (n / 10) [Nat.digitChar (n % 10)]]
      simp

theorem toDigitsCore_succ (fuel n : Nat) :
    Nat.toDigitsCore 10 (fuel + 1) n [] =
      (if n / 10 = 0 then [] else Nat.toDigitsCore 10 fuel (n / 10) [])
        ++ [Nat.digitChar (n % 10)] := by
  simp only [Nat.toDigitsCore]
  by_cases h : n / 10 = 0
  · simp [h]
  · rw [if_neg h, if_neg h, toDigitsCore_append]

theorem digitValue_digitChar (m : Nat) (h : m < 10) :
    digitValue (Nat.digitChar m) = some m := by
  interval_cases m <;> rfl

theorem digitChar_ne_underscore (m : Nat) (h : m < 10) : Nat.digitChar m ≠ '_' := by
  interval_cases m <;> decide

theorem strtolDigits_digitChar (m : Nat) (h : m < 10) (rest : List Char) (acc cnt : Nat) :
    strtolDigits 10 (Nat.digitChar m :: rest) acc cnt
      = strtolDigits 10 rest (acc * 10 + m) (cnt + 1) := by
  rw [strtolDigits, digitValue_digitChar m h]
  simp [h]

theorem strtolDigits_toDigitsCore (fuel : Nat) : ∀ (n : Nat), n < fuel →
    ∀ (rest : List Char) (acc cnt : Nat),
      strtolDigits 10 (Nat.toDigitsCore 10 fuel n [] ++ rest) acc cnt =
        strtolDigits 10 rest (acc * 10 ^ (Nat.toDigitsCore 10 fuel n []).length + n)
          (cnt + (Nat.toDigitsCore 10 fuel n []).length) := by
  induction fuel with
  | zero => intro n h; omega
  | succ fuel ih =>
    intro n hn rest acc cnt
    rw [toDigitsCore_succ]
    have hm : n % 10 < 10 := Nat.mod_lt _ (by decide)
    by_cases h : n / 10 = 0
    · rw [if_pos h]
      have : n % 10 = n := by omega
      simp only [List.nil_append, List.singleton_append, List.length_singleton, pow_one]
      rw [strtolDigits_digitChar _ hm, this]
    · rw [if_neg h]
      have hlt : n / 10 < fuel := by omega
      rw [List.append_assoc, ih (n / 10) hlt, List.singleton_append,
        strtolDigits_digitChar _ hm]
      simp only [List.length_append, List.length_singleton]
      have e1 : (acc * 10 ^ (Nat.toDigitsCore 10 fuel (n / 10) []).length + n / 10) * 10 + n % 10
          = acc * 10 ^ ((Nat.toDigitsCore 10 fuel (n / 10) []).length + 1) + n := by
        rw [pow_succ]
        nlinarith [Nat.div_add_mod n 10]
      rw [e1, Nat.add_assoc]

theorem toDigits_injective (a b : Nat) (h : Nat.toDigits 10 a = Nat.toDigits 10 b) : a = b := by
  have ha := strtolDigits_toDigitsCore (a + 1) a (by omega) [] 0 0
  have hb := strtolDigits_toDigitsCore (b + 1) b (by omega) [] 0 0
  unfold Nat.toDigits at h
  rw [h, hb] at ha
  simp [strtolDigits] at ha
  omega

theorem toDigitsCore_no_underscore (fuel : Nat) : ∀ (n : Nat),
    ∀ c ∈ Nat.toDigitsCore 10 fuel n [], c ≠ '_' := by
  induction fuel with
  | zero => intro n c hc; simp [Nat.toDigitsCore] at hc
  | succ fuel ih =>
    intro n c hc
    rw [toDigitsCore_succ] at hc
    rw [List.mem_append] at hc
    rcases hc with hc | hc
    · by_cases h : n / 10 = 0
      · simp [h] at hc
      · rw [if_neg h] at hc
        exact ih _ c hc
    · simp only [List.mem_singleton] at hc
      rw [hc]
      exact digitChar_ne_underscore _ (Nat.mod_lt _ (by decide))

theorem toString_nat_toList (n : Nat) : (toString n).toList = Nat.toDigits 10 n := rfl

theorem append_underscore_cancel : ∀ (x y u v : List Char),
    (∀ c ∈ x, c ≠ '_') → (∀ c ∈ y, c ≠ '_') → x ++ '_' :: u = y ++ '_' :: v → x = y := by
  intro x
  induction x with
  | nil =>
    intro y u v _ hy h
    cases y with
    | nil => rfl
    | cons b y =>
      simp only [List.nil_append, List.cons_append, List.cons.injEq] at h
      exact absurd h.1.symm (hy b (by simp))
  | cons a x ih =>
    intro y u v hx hy h
    cases y with
    | nil =>
      simp only [List.nil_append, List.cons_append, List.cons.injEq] at h
      exact absurd h.1 (hx a (by simp))
    | cons b y =>
      simp only [List.cons_append, List.cons.injEq] at h
      rw [h.1, ih y u v (fun c hc => hx c (by simp [hc])) (fun c hc => hy c (by simp [hc])) h.2]

/-! ## File connection: location of the saved copy -/

/-- C13: `getSavedFilePath` returns the checkpoint files directory, "/", the
base name of the path, "_" and the decimal digits of the connection
identifier; and two connections with the same checkpoint files directory and
different identifiers have different saved paths, whatever their paths are. -/
theorem getSavedFilePath_collision_free (c1 c2 : FileConnection)
    (hdir : c1.ckptFilesDir = c2.ckptFilesDir) (hid : c1.conId ≠ c2.conId) :
    c1.getSavedFilePath
      = c1.ckptFilesDir ++ "/".toList ++ BaseName c1.path ++ "_".toList
          ++ Nat.toDigits 10 c1.conId ∧
    c1.getSavedFilePath ≠ c2.getSavedFilePath := by
  refine ⟨rfl, ?_⟩
  intro h
  unfold FileConnection.getSavedFilePath at h
  rw [hdir, toString_nat_toList, toString_nat_toList] at h
  simp only [List.append_assoc, List.append_cancel_left_eq] at h
  have h2 := congrArg List.reverse h
  simp only [List.reverse_append, List.append_assoc] at h2
  have h3 : (Nat.toDigits 10 c1.conId).reverse = (Nat.toDigits 10 c2.conId).reverse := by
    apply append_underscore_cancel _ _ (BaseName c1.path).reverse (BaseName c2.path).reverse
    · intro c hc
      exact toDigitsCore_no_underscore _ _ c (List.mem_reverse.mp hc)
    · intro c hc
      exact toDigitsCore_no_underscore _ _ c (List.mem_reverse.mp hc)
    · simpa using h2
  exact hid (toDigits_injective _ _ (List.reverse_injective h3))

/-- C13, an example: two files named "a_1" and "a" in different directories,
with the identifiers 2 and 12, are saved as "/ckpt/a_1_2" and "/ckpt/a_12". -/
theorem getSavedFilePath_collision_free_witness :
    ({ fileConn "/x/a_1".toList FileType.FILE_REGULAR with conId := 2 }).ckptFilesDir
      = ({ fileConn "/y/a".toList FileType.FILE_REGULAR with conId := 12 }).ckptFilesDir ∧
    ({ fileConn "/x/a_1".toList FileType.FILE_REGULAR with conId := 2 }).conId
      ≠ ({ fileConn "/y/a".toList FileType.FILE_REGULAR with conId := 12 }).conId ∧
    ({ fileConn "/x/a_1".toList FileType.FILE_REGULAR with conId := 2 }).getSavedFilePath
      = "/ckpt/a_1_2".toList ∧
    ({ fileConn "/y/a".toList FileType.FILE_REGULAR with conId := 12 }).getSavedFilePath
      = "/ckpt/a_12".toList ∧
    ({ fileConn "/x/a_1".toList FileType.FILE_REGULAR with conId := 2 }).getSavedFilePath
      ≠ ({ fileConn "/y/a".toList FileType.FILE_REGULAR with conId := 12 }).getSavedFilePath :=
  ⟨rfl, by decide, by decide, by decide,
    (getSavedFilePath_collision_free
      { fileConn "/x/a_1".toList FileType.FILE_REGULAR with conId := 2 }
      { fileConn "/y/a".toList FileType.FILE_REGULAR with conId := 12 } rfl (by decide)).2⟩

/-! ## File connection: relative path and path rewrite -/

/-- C14, the code at the failing inputs, with the working directory "/A/B":
for "/A/B/C/D" the relative path is "C/D"; for "/A/BC/D", which is not under
"/A/B", the relative path is "/D" and not the sentinel, and "/A/B" + "/" + "/D"
is not the path; for the path "/A/B" itself `substr` throws. -/
theorem calculateRelativePath_prefix_only :
    abKernel.cwd = "/A/B".toList ∧
    (FileConnection.calculateRelativePath abKernel
      (sysOf (fileConn "/A/B/C/D".toList FileType.FILE_REGULAR) emptyDisk)).2.conn.rel_path
        = "C/D".toList ∧
    (FileConnection.calculateRelativePath abKernel
      (sysOf (fileConn "/A/BC/D".toList FileType.FILE_REGULAR) emptyDisk)).1 = .ok () ∧
    (FileConnection.calculateRelativePath abKernel
      (sysOf (fileConn "/A/BC/D".toList FileType.FILE_REGULAR) emptyDisk)).2.conn.rel_path
        = "/D".toList ∧
    abKernel.cwd ++ "/".toList ++ "/D".toList ≠ "/A/BC/D".toList ∧
    (FileConnection.calculateRelativePath abKernel
      (sysOf (fileConn "/A/B".toList FileType.FILE_REGULAR) emptyDisk)).1
        = .error .outOfRange := by
  decide

/-- C15, the code at the failing inputs, in the process 456: the path
"/proc/123/maps" becomes "/proc/456//maps", with two slashes after the process
id, and not "/proc/456/maps"; for a path of 70 characters `sprintf` writes
beyond the 64 bytes of `buf`. -/
theorem refreshPath_procfs_rewrite :
    procKernel.pid = 456 ∧
    procSys.conn.type = FileType.FILE_PROCFS ∧
    procSys.conn.path = "/proc/123/maps".toList ∧
    procSys.conn.rel_path = "*".toList ∧
    (FileConnection.refreshPath procKernel procSys).1 = .ok () ∧
    (FileConnection.refreshPath procKernel procSys).2.conn.path = "/proc/456//maps".toList ∧
    (FileConnection.refreshPath procKernel procSys).2.conn.path ≠ "/proc/456/maps".toList ∧
    (FileConnection.refreshPath procKernel procLongSys).1 = .error .outOfBounds := by
  decide

/-! ## File connection: classification of the files of /proc -/

theorem toDigitsCore_head (fuel : Nat) : ∀ (n : Nat), 0 < n → n < fuel →
    ∃ m tail, 0 < m ∧ m < 10 ∧ Nat.toDigitsCore 10 fuel n [] = Nat.digitChar m :: tail := by
  induction fuel with
  | zero => intro n _ h; omega
  | succ fuel ih =>
    intro n hpos hn
    rw [toDigitsCore_succ]
    by_cases h : n / 10 = 0
    · rw [if_pos h]
      exact ⟨n % 10, [], by omega, Nat.mod_lt _ (by decide), rfl⟩
    · rw [if_neg h]
      obtain ⟨m, tail, h1, h2, h3⟩ := ih (n / 10) (by omega) (by omega)
      exact ⟨m, tail ++ [Nat.digitChar (n % 10)], h1, h2, by rw [h3]; rfl⟩

theorem strtol_decimal (n : Nat) (rest : Str) (hpos : 0 < n) (hmax : n ≤ 9223372036854775807) :
    strtol (Nat.toDigits 10 n ++ '/' :: rest) = ((n : Int), '/' :: rest) := by
  obtain ⟨m, tail, h1, h2, h3⟩ := toDigitsCore_head (n + 1) n hpos (by omega)
  have key := strtolDigits_toDigitsCore (n + 1) n (by omega) ('/' :: rest) 0 0
  have hlen : 0 < (Nat.toDigitsCore 10 (n + 1) n []).length := by rw [h3]; simp
  have hslash : ∀ a c, strtolDigits 10 ('/' :: rest) a c = (a, c, '/' :: rest) := by
    intro a c; rfl
  rw [hslash] at key
  simp only [Nat.zero_mul, Nat.zero_add] at key
  unfold Nat.toDigits
  rw [h3] at key hlen ⊢
  interval_cases m <;> simp only [Nat.digitChar, Nat.reduceEqDiff, if_true, if_false,
      OfNat.ofNat_ne_zero, OfNat.ofNat_ne_one, Nat.succ_ne_self, Nat.reduceEqDiff] at key hlen ⊢ <;>
    (rw [List.cons_append] at key
     simp only [List.length_cons] at key
     simp [strtol, isSpaceC, key, digitValue]
     omega)

theorem toPid_of_small (n : Nat) (h : n < 2147483648) : toPid (n : Int) = (n : Int) := by
  unfold toPid
  omega

theorem strtolDigits_append_slash (base : Nat) (rest : Str) :
    ∀ (d : Str) (acc n : Nat),
      strtolDigits base (d ++ '/' :: rest) acc n =
        ((strtolDigits base d acc n).1, (strtolDigits base d acc n).2.1,
          (strtolDigits base d acc n).2.2 ++ '/' :: rest) := by
  intro d
  induction d with
  | nil => intro acc n; rfl
  | cons c cs ih =>
    intro acc n
    simp only [List.cons_append, strtolDigits]
    cases hd : digitValue c with
    | none => rfl
    | some v =>
      simp only
      by_cases hv : v < base
      · rw [if_pos hv, if_pos hv]
        exact ih _ _
      · rw [if_neg hv, if_neg hv]; rfl

theorem dropWhile_isSpaceC_append_slash (rest : Str) : ∀ (num : Str),
    (num ++ '/' :: rest).dropWhile isSpaceC = num.dropWhile isSpaceC ++ '/' :: rest := by
  intro num
  induction num with
  | nil => rfl
  | cons c cs ih =>
    by_cases h : isSpaceC c = true
    · simp only [List.cons_append, List.dropWhile_cons, h, if_true, ih]
    · simp only [List.cons_append, List.dropWhile_cons, h, if_false]
      rfl

set_option maxHeartbeats 1600000 in
theorem strtol_append_slash (num rest : Str) :
    strtol (num ++ '/' :: rest) = ((strtol num).1, (strtol num).2 ++ '/' :: rest) := by
  unfold strtol
  simp only [dropWhile_isSpaceC_append_slash]
  generalize num.dropWhile isSpaceC = a
  rcases a with _ | ⟨c0, a⟩
  · simp [strtolDigits, digitValue]
  · by_cases h1 : c0 = '-'
    · subst h1
      simp only [List.cons_append, List.head?_cons]
      rcases a with _ | ⟨c, _ | ⟨x, _ | ⟨h, b⟩⟩⟩
      · simp [strtolDigits, digitValue]
      · have hd := strtolDigits_append_slash 10 rest [c] 0 0
        have hd8 := strtolDigits_append_slash 8 rest [c] 0 0
        simp only [List.singleton_append] at hd hd8
        by_cases hc : c = '0'
        · subst hc
          rcases rest with _ | ⟨r, rest⟩ <;> simp [hd8] <;> split_ifs <;> simp
        · simp [hc, hd]
          split_ifs <;> simp
      · have hd := strtolDigits_append_slash 10 rest [c, x] 0 0
        have hd8 := strtolDigits_append_slash 8 rest [c, x] 0 0
        simp only [List.cons_append, List.nil_append] at hd hd8
        by_cases hc : c = '0'
        · subst hc
          simp [hd8, digitValue]
          split_ifs <;> simp
        · simp [hc, hd]
          split_ifs <;> simp
      · have hd := strtolDigits_append_slash 10 rest (c :: x :: h :: b) 0 0
        have hd8 := strtolDigits_append_slash 8 rest (c :: x :: h :: b) 0 0
        have hd16 := strtolDigits_append_slash 16 rest (h :: b) 0 0
        simp only [List.cons_append] at hd hd8 hd16
        by_cases hc : c = '0'
        · subst hc
          simp only [List.cons_append, List.head?_cons, List.drop_succ_cons, List.drop_zero]
          split_ifs <;> simp_all
        · simp [hc, hd]
          split_ifs <;> simp
    · by_cases h2 : c0 = '+'
      · subst h2
        simp only [List.cons_append, List.head?_cons]
        rcases a with _ | ⟨c, _ | ⟨x, _ | ⟨h, b⟩⟩⟩
        · simp [strtolDigits, digitValue]
        · have hd := strtolDigits_append_slash 10 rest [c] 0 0
          have hd8 := strtolDigits_append_slash 8 rest [c] 0 0
          simp only [List.singleton_append] at hd hd8
          by_cases hc : c = '0'
          · subst hc
            rcases rest with _ | ⟨r, rest⟩ <;> simp [hd8] <;> split_ifs <;> simp
          · simp [hc, hd]
            split_ifs <;> simp
        · have hd := strtolDigits_append_slash 10 rest [c, x] 0 0
          have hd8 := strtolDigits_append_slash 8 rest [c, x] 0 0
          simp only [List.cons_append, List.nil_append] at hd hd8
          by_cases hc : c = '0'
          · subst hc
            simp [hd8, digitValue]
            split_ifs <;> simp
          · simp [hc, hd]
            split_ifs <;> simp
        · have hd := strtolDigits_append_slash 10 rest (c :: x :: h :: b) 0 0
          have hd8 := strtolDigits_append_slash 8 rest (c :: x :: h :: b) 0 0
          have hd16 := strtolDigits_append_slash 16 rest (h :: b) 0 0
          simp only [List.cons_append] at hd hd8 hd16
          by_cases hc : c = '0'
          · subst hc
            simp only [List.cons_append, List.head?_cons, List.drop_succ_cons, List.drop_zero]
            split_ifs <;> simp_all
          · simp [hc, hd]
            split_ifs <;> simp
      rcases a with _ | ⟨x, _ | ⟨h, b⟩⟩
      · have hd := strtolDigits_append_slash 10 rest [c0] 0 0
        have hd8 := strtolDigits_append_slash 8 rest [c0] 0 0
        simp only [List.singleton_append] at hd hd8
        by_cases hc : c0 = '0'
        · subst hc
          rcases rest with _ | ⟨r, rest⟩ <;> simp [hd8] <;> split_ifs <;> simp
        · simp [h1, h2, hc, hd]
          split_ifs <;> simp
      · have hd := strtolDigits_append_slash 10 rest [c0, x] 0 0
        have hd8 := strtolDigits_append_slash 8 rest [c0, x] 0 0
        simp only [List.cons_append, List.nil_append] at hd hd8
        by_cases hc : c0 = '0'
        · subst hc
          simp [hd8, digitValue]
          split_ifs <;> simp
        · simp [h1, h2, hc, hd]
          split_ifs <;> simp
      · have hd := strtolDigits_append_slash 10 rest (c0 :: x :: h :: b) 0 0
        have hd8 := strtolDigits_append_slash 8 rest (c0 :: x :: h :: b) 0 0
        have hd16 := strtolDigits_append_slash 16 rest (h :: b) 0 0
        simp only [List.cons_append] at hd hd8 hd16
        by_cases hc : c0 = '0'
        · subst hc
          simp only [List.cons_append, List.head?_cons, List.drop_succ_cons, List.drop_zero]
          split_ifs <;> simp_all
        · simp [h1, h2, hc, hd]
          split_ifs <;> simp

theorem strtolDigits_rest_mem (base : Nat) (ch : Char) :
    ∀ (d : Str) (acc n : Nat), ch ∈ (strtolDigits base d acc n).2.2 → ch ∈ d := by
  intro d
  induction d with
  | nil => intro acc n h; simp [strtolDigits] at h
  | cons c cs ih =>
    intro acc n h
    simp only [strtolDigits] at h
    cases hd : digitValue c with
    | none => simpa [hd] using h
    | some v =>
      simp only [hd] at h
      by_cases hv : v < base
      · rw [if_pos hv] at h
        exact List.mem_cons_of_mem _ (ih _ _ h)
      · rw [if_neg hv] at h
        exact h

theorem strtol_rest_mem (s : Str) (ch : Char) (h : ch ∈ (strtol s).2) : ch ∈ s := by
  unfold strtol at h
  simp only at h
  have hsub : ∀ x, x ∈ s.dropWhile isSpaceC → x ∈ s :=
    fun x hx => (List.dropWhile_sublist _).subset hx
  split_ifs at h
  all_goals first
    | exact h
    | (have h1 := strtolDigits_rest_mem _ ch _ _ _ h
       try replace h1 := List.mem_of_mem_drop h1
       revert hsub h1
       generalize s.dropWhile isSpaceC = s1
       intro hsub h1
       split at h1
       · exact hsub _ (List.mem_cons_of_mem _ h1)
       · exact hsub _ (List.mem_cons_of_mem _ h1)
       · exact hsub _ h1)

theorem takeWhile_not_slash_split : ∀ (t : Str), '/' ∈ t →
    ∃ rest, t = t.takeWhile (fun ch => ch ≠ '/') ++ '/' :: rest := by
  intro t
  induction t with
  | nil => intro h; simp at h
  | cons c cs ih =>
    intro h
    by_cases hc : c = '/'
    · subst hc
      exact ⟨cs, by simp [List.takeWhile]⟩
    · have hmem : '/' ∈ cs := by
        rcases List.mem_cons.mp h with h1 | h1
        · exact absurd h1.symm hc
        · exact h1
      obtain ⟨rest, hrest⟩ := ih hmem
      refine ⟨rest, ?_⟩
      simp only [List.takeWhile_cons, ne_eq, hc, not_false_eq_true, decide_True, if_true,
        List.cons_append]
      rw [← hrest]

theorem slash_not_mem_takeWhile (t : Str) : '/' ∉ t.takeWhile (fun ch => ch ≠ '/') := by
  intro h
  have := List.mem_takeWhile_imp h
  simp at this

/-- The test of `doLocking` on the text after "/proc/", in terms of the text
up to the next '/'. -/
theorem strtol_slash_iff (t : Str) :
    (0 < toPid (strtol t).1 ∧ (strtol t).2.head? = some '/') ↔
      ('/' ∈ t ∧ (strtol (t.takeWhile (fun ch => ch ≠ '/'))).2 = [] ∧
        0 < toPid (strtol (t.takeWhile (fun ch => ch ≠ '/'))).1) := by
  by_cases hs : '/' ∈ t
  · obtain ⟨rest, hrest⟩ := takeWhile_not_slash_split t hs
    have hL := strtol_append_slash (t.takeWhile (fun ch => ch ≠ '/')) rest
    rw [← hrest] at hL
    rw [hL]
    constructor
    · rintro ⟨hpos, hhead⟩
      refine ⟨hs, ?_, hpos⟩
      cases hr : (strtol (t.takeWhile (fun ch => ch ≠ '/'))).2 with
      | nil => rfl
      | cons x xs =>
        exfalso
        rw [hr] at hhead
        simp only [List.cons_append, List.head?_cons, Option.some.injEq] at hhead
        have hx : x ∈ (strtol (t.takeWhile (fun ch => ch ≠ '/'))).2 := by rw [hr]; simp
        have := strtol_rest_mem _ _ hx
        rw [hhead] at this
        exact slash_not_mem_takeWhile t this
    · rintro ⟨_, hnil, hpos⟩
      exact ⟨hpos, by rw [hnil]; rfl⟩
  · constructor
    · rintro ⟨_, hhead⟩
      exfalso
      apply hs
      apply strtol_rest_mem t
      cases hr : (strtol t).2 with
      | nil => rw [hr] at hhead; simp at hhead
      | cons x xs =>
        rw [hr] at hhead
        simp only [List.head?_cons, Option.some.injEq] at hhead
        rw [hhead]; simp
    · rintro ⟨h, _, _⟩
      exact absurd h hs

theorem strtol_value_of_form (t : Str) (h : '/' ∈ t) :
    (strtol t).1 = (strtol (t.takeWhile (fun ch => ch ≠ '/'))).1 := by
  obtain ⟨rest, hrest⟩ := takeWhile_not_slash_split t h
  have hL := strtol_append_slash (t.takeWhile (fun ch => ch ≠ '/')) rest
  rw [← hrest] at hL
  rw [hL]

theorem procPidForm_iff (path : Str) :
    procPidForm path = true ↔
      (strStartsWith path "/proc/".toList = true ∧
        0 < toPid (strtol (path.drop 6)).1 ∧ (strtol (path.drop 6)).2.head? = some '/') := by
  unfold procPidForm procPidText
  rw [strtol_slash_iff]
  simp only [Bool.and_eq_true, decide_eq_true_eq, List.isEmpty_iff]
  tauto

theorem procPidOf_eq (path : Str) (h : procPidForm path = true) :
    procPidOf path = toPid (strtol (path.drop 6)).1 := by
  unfold procPidOf procPidText
  unfold procPidForm at h
  simp only [Bool.and_eq_true, decide_eq_true_eq] at h
  rw [strtol_value_of_form _ h.1.1.2]

/-- C16 (as amended): `doLocking` classifies a file as ProcFilesystem if and
only if its path has the form "/proc/<pid>/..." with `<pid>` a positive number,
whether or not `<pid>` is the id of this process: every other path, under
"/proc/" or not, keeps its classification.  The comparison of `<pid>` with the
id of this process decides only whether the method goes on to take the lock
and to reset the content-captured flag.  Every "/proc/<n>/..." with `n` a
decimal number from 1 to 2147483647 has the form; "/proc/cpuinfo",
"/proc/self/maps", "/proc/0/x" and "/proc/123" do not have it. -/
theorem doLocking_classification (k : Kernel) (c : FileConnection) :
    (FileConnection.doLocking k c).1.type
      = (if procPidForm c.path = true then FileType.FILE_PROCFS else c.type) ∧
    ((FileConnection.doLocking k c).2 = false
      ↔ (procPidForm c.path = true ∧ procPidOf c.path ≠ k.pid)) ∧
    ((FileConnection.doLocking k c).1.checkpointed
      = if (FileConnection.doLocking k c).2 = true then false else c.checkpointed) ∧
    (∀ (n : Nat) (rest : Str), 0 < n → n < 2147483648 →
      procPidForm ("/proc/".toList ++ Nat.toDigits 10 n ++ '/' :: rest) = true ∧
      procPidOf ("/proc/".toList ++ Nat.toDigits 10 n ++ '/' :: rest) = (n : Int)) ∧
    (∀ path : Str, strStartsWith path "/proc/".toList = false → procPidForm path = false) ∧
    procPidForm "/proc/cpuinfo".toList = false ∧
    procPidForm "/proc/self/maps".toList = false ∧
    procPidForm "/proc/0/x".toList = false ∧
    procPidForm "/proc/123".toList = false := by
  have hrun : FileConnection.doLocking k c =
      if procPidForm c.path = true then
        if procPidOf c.path ≠ k.pid then ({ c with type := FileType.FILE_PROCFS }, false)
        else ({ c with type := FileType.FILE_PROCFS, checkpointed := false }, true)
      else ({ c with checkpointed := false }, true) := by
    unfold FileConnection.doLocking
    by_cases hform : procPidForm c.path = true
    · have hcode := (procPidForm_iff c.path).mp hform
      rw [if_pos hform, if_pos hcode.1, if_pos hcode.2, procPidOf_eq c.path hform]
    · rw [if_neg hform]
      have hcode := mt (procPidForm_iff c.path).mpr hform
      by_cases hs : strStartsWith c.path "/proc/".toList = true
      · rw [if_pos hs, if_neg (fun h => hcode ⟨hs, h⟩)]
      · rw [if_neg hs]
  have hdec : ∀ (n : Nat) (rest : Str), 0 < n → n < 2147483648 →
      procPidForm ("/proc/".toList ++ Nat.toDigits 10 n ++ '/' :: rest) = true ∧
      procPidOf ("/proc/".toList ++ Nat.toDigits 10 n ++ '/' :: rest) = (n : Int) := by
    intro n rest hpos hmax
    have hdrop : ("/proc/".toList ++ Nat.toDigits 10 n ++ '/' :: rest).drop 6
        = Nat.toDigits 10 n ++ '/' :: rest := by simp
    have hparse := strtol_decimal n rest hpos (by omega)
    have hpid := toPid_of_small n hmax
    have hform : procPidForm ("/proc/".toList ++ Nat.toDigits 10 n ++ '/' :: rest) = true := by
      rw [procPidForm_iff, hdrop, hparse, hpid]
      exact ⟨by simp [strStartsWith], by exact_mod_cast hpos, rfl⟩
    refine ⟨hform, ?_⟩
    rw [procPidOf_eq _ hform, hdrop, hparse, hpid]
  refine ⟨?_, ?_, ?_, hdec, ?_, by decide, by decide, by decide, by decide⟩
  · rw [hrun]
    by_cases hform : procPidForm c.path = true
    · rw [if_pos hform, if_pos hform]
      split <;> rfl
    · rw [if_neg hform, if_neg hform]
  · rw [hrun]
    by_cases hform : procPidForm c.path = true
    · rw [if_pos hform]
      by_cases hp : procPidOf c.path = k.pid
      · simp [hp, hform]
      · simp [hp, hform]
    · rw [if_neg hform]
      simp [hform]
  · rw [hrun]
    by_cases hform : procPidForm c.path = true
    · rw [if_pos hform]
      by_cases hp : procPidOf c.path = k.pid
      · simp [hp]
      · simp [hp]
    · rw [if_neg hform]
      simp
  · intro path hs
    unfold procPidForm
    rw [hs]
    rfl

/-- C16, examples: in the process 456 the file "/proc/123/maps" of the process
123 is classified ProcFilesystem and the lock is not taken; "/proc/cpuinfo",
"/proc/self/maps", "/proc/0/x" and "/proc/123" keep the classification
Regular. -/
theorem doLocking_classification_witness :
    (FileConnection.doLocking procKernel
      (fileConn "/proc/123/maps".toList FileType.FILE_REGULAR)).1.type = FileType.FILE_PROCFS ∧
    (FileConnection.doLocking procKernel
      (fileConn "/proc/123/maps".toList FileType.FILE_REGULAR)).2 = false ∧
    (FileConnection.doLocking procKernel
      (fileConn "/proc/cpuinfo".toList FileType.FILE_REGULAR)).1.type = FileType.FILE_REGULAR ∧
    (FileConnection.doLocking procKernel
      (fileConn "/proc/self/maps".toList FileType.FILE_REGULAR)).1.type
        = FileType.FILE_REGULAR ∧
    (FileConnection.doLocking procKernel
      (fileConn "/proc/0/x".toList FileType.FILE_REGULAR)).1.type = FileType.FILE_REGULAR ∧
    (FileConnection.doLocking procKernel
      (fileConn "/proc/123".toList FileType.FILE_REGULAR)).1.type = FileType.FILE_REGULAR :=
  ⟨(doLocking_classification procKernel
      (fileConn "/proc/123/maps".toList FileType.FILE_REGULAR)).1.trans (by decide),
    by decide,
    (doLocking_classification procKernel
      (fileConn "/proc/cpuinfo".toList FileType.FILE_REGULAR)).1.trans (by decide),
    (doLocking_classification procKernel
      (fileConn "/proc/self/maps".toList FileType.FILE_REGULAR)).1.trans (by decide),
    (doLocking_classification procKernel
      (fileConn "/proc/0/x".toList FileType.FILE_REGULAR)).1.trans (by decide),
    (doLocking_classification procKernel
      (fileConn "/proc/123".toList FileType.FILE_REGULAR)).1.trans (by decide)⟩

/-- C16 as stated fails: in the process 456 the file "/proc/123/maps" of the
process 123, classified Regular before, is classified ProcFilesystem. -/
theorem doLocking_classification_counterexample :
    (123 : Int) ≠ procKernel.pid ∧
    (fileConn "/proc/123/maps".toList FileType.FILE_REGULAR).type = FileType.FILE_REGULAR ∧
    (FileConnection.doLocking procKernel
      (fileConn "/proc/123/maps".toList FileType.FILE_REGULAR)).1.type
        = FileType.FILE_PROCFS := by
  decide

/-! ## File connection: parent directories -/

theorem mkdirFails_eq (k : Kernel) (d : Str) :
    (decide ((k.mkdirRet d).1 ≠ -1) || decide ((k.mkdirRet d).2 = Errno.EEXIST))
      = !mkdirFails k d := by
  unfold mkdirFails
  by_cases h1 : (k.mkdirRet d).1 = -1 <;> by_cases h2 : (k.mkdirRet d).2 = Errno.EEXIST <;>
    simp [h1, h2]

theorem createDirectoryLoop_run (k : Kernel) (path : Str) :
    ∀ (rest : List Char) (index : Nat) (s : Sys), path.drop index = rest →
      (createDirectoryLoop k path rest index s).2.trace
        = s.trace ++ (upToFailure k
            (((List.range' index rest.length).filter
              (fun i => decide (1 < i) && decide (path[i]? = some '/'))).map
                (fun i => path.take i))).map Event.mkdir ∧
      (createDirectoryLoop k path rest index s).1
        = if (((List.range' index rest.length).filter
              (fun i => decide (1 < i) && decide (path[i]? = some '/'))).map
                (fun i => path.take i)).any (mkdirFails k) = true
          then .error .fatal else .ok () := by
  intro rest
  induction rest with
  | nil =>
    intro index s _
    simp [createDirectoryLoop, upToFailure]
  | cons ch rest ih =>
    intro index s hdrop
    have hget : path[index]? = some ch := by
      have := congrArg List.head? hdrop
      simpa [List.head?_drop] using this
    have hdrop1 : path.drop (index + 1) = rest := by
      have := congrArg List.tail hdrop
      simpa [List.tail_drop] using this
    rw [List.length_cons, List.range'_succ, List.filter_cons]
    unfold createDirectoryLoop
    by_cases hc : ch = '/' ∧ 1 < index
    · have hp : (decide (1 < index) && decide (path[index]? = some '/')) = true := by
        simp [hget, hc.1, hc.2]
      rw [if_pos hp]
      simp only [FM.bind_apply, FM.andThen_apply, if_pos hc, emit_apply, JASSERT_apply,
        mkdirFails_eq, List.map_cons, upToFailure, List.any_cons]
      by_cases hf : mkdirFails k (path.take index) = true
      · simp [hf]
      · have hf2 : mkdirFails k (path.take index) = false := by simpa using hf
        simp only [hf2, Bool.not_false, if_true, Bool.false_eq_true, if_false, Bool.false_or]
        by_cases hr : (k.mkdirRet (path.take index)).1 ≠ -1
        · simp only [if_pos hr, setInode_apply]
          obtain ⟨h1, h2⟩ := ih (index + 1)
            { conn := s.conn,
              disk := fun p => if p = path.take index then some { isReg := false, size := 0 }
                else s.disk p,
              trace := s.trace ++ [Event.mkdir (path.take index)] } hdrop1
          exact ⟨by rw [h1]; simp, by rw [h2]⟩
        · simp only [if_neg hr, FM.pure_apply]
          obtain ⟨h1, h2⟩ := ih (index + 1)
            { s with trace := s.trace ++ [Event.mkdir (path.take index)] } hdrop1
          exact ⟨by rw [h1]; simp, by rw [h2]⟩
    · have hp : ¬ ((decide (1 < index) && decide (path[index]? = some '/')) = true) := by
        simp only [hget, Bool.and_eq_true, decide_eq_true_eq, Option.some.injEq]
        tauto
      rw [if_neg hp]
      simp only [FM.bind_apply, FM.andThen_apply, if_neg hc, FM.pure_apply]
      exact ih (index + 1) s hdrop1



theorem ancestorDirs_of_no_slash (path : Str) (h : '/' ∉ path) : ancestorDirs path = [] := by
  unfold ancestorDirs
  rw [List.map_eq_nil_iff, List.filter_eq_nil_iff]
  intro i _ hi
  simp only [Bool.and_eq_true, decide_eq_true_eq] at hi
  exact h (List.getElem?_mem hi.2)

theorem not_mem_ancestorDirs (path : Str) : path ∉ ancestorDirs path := by
  unfold ancestorDirs
  intro h
  rw [List.mem_map] at h
  obtain ⟨i, hi, heq⟩ := h
  have hlt : i < path.length := by
    have := (List.mem_filter.mp hi).1
    simpa using this
  have := congrArg List.length heq
  simp at this
  omega

/-- C17 (as amended): `CreateDirectoryStructure` attempts `mkdir` on the
prefixes `path[0..i)` with `path[i] = '/'` and `i > 1`, from the shortest to
the longest, up to and including the first on which `mkdir` fails with an error
other than "already exists", and on nothing else, never on the full path; it
fails fatally exactly when one of these calls fails with such an error, and
returns otherwise.  For a path without '/' it does nothing. -/
theorem CreateDirectoryStructure_ancestors (k : Kernel) (path : Str) (s : Sys) :
    (CreateDirectoryStructure k path s).2.trace
      = s.trace ++ (upToFailure k (ancestorDirs path)).map Event.mkdir ∧
    (CreateDirectoryStructure k path s).1
      = (if (ancestorDirs path).any (mkdirFails k) = true then .error .fatal else .ok ()) ∧
    ((ancestorDirs path).any (mkdirFails k) = false →
      upToFailure k (ancestorDirs path) = ancestorDirs path) ∧
    path ∉ ancestorDirs path ∧
    ('/' ∉ path → CreateDirectoryStructure k path s = (.ok (), s)) := by
  have hno : '/' ∉ path → CreateDirectoryStructure k path s = (.ok (), s) := by
    intro h
    unfold CreateDirectoryStructure
    rw [if_neg h]
    rfl
  have hall : ∀ dirs : List Str, dirs.any (mkdirFails k) = false → upToFailure k dirs = dirs := by
    intro dirs
    induction dirs with
    | nil => intro _; rfl
    | cons d rest ih =>
      intro h
      rw [List.any_cons, Bool.or_eq_false_iff] at h
      simp [upToFailure, h.1, ih h.2]
  refine ⟨?_, ?_, hall _, not_mem_ancestorDirs path, hno⟩
  · by_cases h : '/' ∈ path
    · unfold CreateDirectoryStructure
      rw [if_pos h]
      have := (createDirectoryLoop_run k path path 0 s rfl).1
      rw [this, ancestorDirs, List.range_eq_range']
    · rw [hno h, ancestorDirs_of_no_slash path h]
      simp [upToFailure]
  · by_cases h : '/' ∈ path
    · unfold CreateDirectoryStructure
      rw [if_pos h]
      have := (createDirectoryLoop_run k path path 0 s rfl).2
      rw [this, ancestorDirs, List.range_eq_range']
    · rw [hno h, ancestorDirs_of_no_slash path h]
      simp

/-- C17, an example: for "/home/u/data/f" the directories "/home", "/home/u"
and "/home/u/data" are made, in this order. -/
theorem CreateDirectoryStructure_ancestors_witness :
    ancestorDirs "/home/u/data/f".toList
      = ["/home".toList, "/home/u".toList, "/home/u/data".toList] ∧
    (CreateDirectoryStructure baseKernel "/home/u/data/f".toList dataSys).2.trace
      = [Event.mkdir "/home".toList, Event.mkdir "/home/u".toList,
          Event.mkdir "/home/u/data".toList] :=
  ⟨by decide,
    (CreateDirectoryStructure_ancestors baseKernel "/home/u/data/f".toList dataSys).1.trans
      (by decide)⟩

/-- C17 as stated fails: "a" is a non-empty prefix of "a/b/c" that ends before
a '/', and "/" is one of "//a/b", but `mkdir` is attempted on neither. -/
theorem CreateDirectoryStructure_ancestors_counterexample :
    nonEmptyAncestorDirs "a/b/c".toList = ["a".toList, "a/b".toList] ∧
    (CreateDirectoryStructure baseKernel "a/b/c".toList dataSys).2.trace
      = [Event.mkdir "a/b".toList] ∧
    nonEmptyAncestorDirs "//a/b".toList = ["/".toList, "//a".toList] ∧
    (CreateDirectoryStructure baseKernel "//a/b".toList dataSys).2.trace
      = [Event.mkdir "//a".toList] := by
  decide

/-! ## Pseudo-terminal master: bound of the drain -/

theorem readOnePacket_overflow (maxCount off : Nat) (c : List Byte) (rest : List ReadOutcome)
    (s : Master) (hpend : s.pending = ReadOutcome.data c :: rest)
    (hbig : s.mem.length < off + 4 + (c.take (readCount maxCount)).length) :
    readOnePacket maxCount off s = .error .outOfBounds := by
  unfold readOnePacket
  rw [hpend]
  unfold readOnePacketLoop
  simp only [le_refl, if_true]
  rw [store_too_long s.mem (off + 4) _ hbig]

theorem ptmxReadAll_two_chunks_overflow (maxCount : Nat) (c1 c2 : List Byte) (s : Master)
    (hpend : s.pending = [ReadOutcome.data c1, ReadOutcome.data c2])
    (hmem : s.mem.length = maxCount)
    (h1 : 0 < c1.length ∧ (c1.length : Int) < (maxCount : Int) - 4)
    (h2 : (c2.length : Int) < (maxCount : Int) - 4)
    (hover : maxCount < 4 + c1.length + 4 + c2.length) :
    ptmxReadAll maxCount s = .error .outOfBounds := by
  have hfirst := readOnePacket_chunk maxCount [] s.mem c1 [ReadOutcome.data c2] s hpend
    (by simp) h1.1 h1.2 (by omega)
  simp only [List.length_nil, List.nil_append] at hfirst
  have htake : (c2.take (readCount maxCount)).length = c2.length := by
    rw [readCount_eq _ (by omega), List.length_take]
    omega
  unfold ptmxReadAll
  rw [hpend]
  simp only [List.length_cons, List.length_nil]
  unfold ptmxReadAllLoop
  rw [hfirst]
  have hpos : (0 : Int) < (c1.length : Int) + 4 := by omega
  simp only [hpos, if_true]
  unfold ptmxReadAllLoop
  rw [readOnePacket_overflow maxCount _ c2 [] _ rfl]
  simp only [List.length_append, encodeHdr_length, List.length_drop, htake]
  have : ((c1.length : Int) + 4).toNat = c1.length + 4 := by omega
  rw [this]
  omega

/-- C18, the code at the failing input: at a checkpoint with two pending reads
of 5000 bytes each, both shorter than `maxCount - 4`, the drain of
`PtyConnection::preCheckpoint` stores the second packet beyond the 10000 bytes
of `buf` instead of returning a negative result. -/
theorem ptmxReadAll_overflow :
    fullMaster.mem.length = 10000 ∧
    fullMaster.pending = [.data (List.replicate 5000 7), .data (List.replicate 5000 7)] ∧
    ptmxReadAll 10000 fullMaster = .error .outOfBounds ∧
    PtyConnection.preCheckpoint { type := .PTY_MASTER, ptmxIsPacketMode := false } plainProbe
      fullMaster = .error .outOfBounds := by
  have hlen : fullMaster.mem.length = 10000 := by
    show (List.replicate 10000 0).length = 10000
    rw [List.length_replicate]
  have hrun : ptmxReadAll 10000 fullMaster = .error .outOfBounds := by
    apply ptmxReadAll_two_chunks_overflow 10000 (List.replicate 5000 7) (List.replicate 5000 7)
      fullMaster rfl hlen
    · rw [List.length_replicate]; decide
    · rw [List.length_replicate]; decide
    · rw [List.length_replicate]; decide
  refine ⟨hlen, rfl, hrun, ?_⟩
  unfold PtyConnection.preCheckpoint
  rw [if_pos rfl, hrun]

/-! ## Message queue: notification -/

/-- C19, the code at the failing input: on a connection without a registered
notification, `on_mq_notify` with the null pointer takes the `else` branch and
dereferences the pointer.  With a registered notification the null pointer
removes the registration, and a pointer to a sigevent registers it. -/
theorem on_mq_notify_null_unregistered :
    mqConn.notifyReg = false ∧
    mqConn.on_mq_notify none = .error .nullPointer ∧
    (∀ c : PosixMQConnection,
      PosixMQConnection.on_mq_notify { c with notifyReg := false } none = .error .nullPointer) ∧
    (∀ c : PosixMQConnection,
      PosixMQConnection.on_mq_notify { c with notifyReg := true } none
        = .ok { c with notifyReg := false }) ∧
    (∀ (c : PosixMQConnection) (e : Nat),
      c.on_mq_notify (some e) = .ok { c with notifyReg := true, sevp := e }) :=
  ⟨rfl, by decide, fun _ => rfl, fun _ => rfl, fun c e => by simp [PosixMQConnection.on_mq_notify]⟩

/-! ## Profiler plugin -/

/-- The `switch` neither records the type RESTART nor writes a "Restart took"
line, if the state before it has neither. -/
theorem eventSwitch_invariant (env : ProfilerEnv) (event : DmtcpEvent) (s : Profiler)
    (htype : s.eventType ≠ .PROFILER_EVENT_TYPE_RESTART)
    (hcalls : ∀ fd a b, ProfilerCall.write fd (.restartTook a b) ∉ s.calls) :
    (eventSwitch env event s).eventType ≠ .PROFILER_EVENT_TYPE_RESTART ∧
    ∀ fd a b, ProfilerCall.write fd (.restartTook a b) ∉ (eventSwitch env event s).calls := by
  cases event <;> simp only [eventSwitch] <;> (try split_ifs) <;>
    simp_all [List.mem_append]

theorem event_hook_invariant (env : ProfilerEnv) (event : DmtcpEvent) (s : Profiler)
    (htype : s.eventType ≠ .PROFILER_EVENT_TYPE_RESTART)
    (hcalls : ∀ fd a b, ProfilerCall.write fd (.restartTook a b) ∉ s.calls) :
    (event_hook env event s).eventType ≠ .PROFILER_EVENT_TYPE_RESTART ∧
    ∀ fd a b, ProfilerCall.write fd (.restartTook a b) ∉ (event_hook env event s).calls := by
  unfold event_hook
  split_ifs
  · apply eventSwitch_invariant
    · exact htype
    · intro fd a b
      simp [List.mem_append, hcalls]
  · exact ⟨htype, hcalls⟩
  · exact eventSwitch_invariant env event s htype hcalls

theorem runEvents_invariant : ∀ (evs : List (ProfilerEnv × DmtcpEvent)) (s : Profiler),
    s.eventType ≠ .PROFILER_EVENT_TYPE_RESTART →
    (∀ fd a b, ProfilerCall.write fd (.restartTook a b) ∉ s.calls) →
    (runEvents evs s).eventType ≠ .PROFILER_EVENT_TYPE_RESTART ∧
    ∀ fd a b, ProfilerCall.write fd (.restartTook a b) ∉ (runEvents evs s).calls := by
  intro evs
  induction evs with
  | nil => intro s h1 h2; exact ⟨h1, h2⟩
  | cons e rest ih =>
    intro s h1 h2
    obtain ⟨env, event⟩ := e
    unfold runEvents
    split_ifs
    · exact ⟨h1, h2⟩
    · obtain ⟨h3, h4⟩ := event_hook_invariant env event s h1 h2
      exact ih _ h3 h4


/-- C20 (as amended): in every state reachable through `event_hook` the
recorded event type is NONE or CHECKPOINT, never RESTART, and no "Restart
took" line has been written.  In the process whose pid was recorded first: a
RESUME that follows a RESTART writes "Unknown event 0!"; a RESUME that follows
PRECHECKPOINT writes a "Checkpoint took" line; a RESUME calls `exit` exactly
when `DMTCP_PROFILER_KILL` was seen and the recorded type is CHECKPOINT, and
every RESUME that returns resets the recorded type to NONE.  An event that
arrives in a process with another pid changes no state. -/
theorem event_hook_state_machine (evs : List (ProfilerEnv × DmtcpEvent))
    (env1 env2 : ProfilerEnv) (s : Profiler)
    (hs : s = runEvents evs profilerStart) (hlive : s.exited = false)
    (hpid : s.pid = -1 ∨ s.pid = env1.getpid) (hreal : env1.getpid ≠ -1)
    (hsame : env2.getpid = env1.getpid) :
    (s.eventType = .PROFILER_EVENT_TYPE_NONE ∨ s.eventType = .PROFILER_EVENT_TYPE_CHECKPOINT) ∧
    (∀ fd a b, ProfilerCall.write fd (.restartTook a b) ∉ s.calls) ∧
    ((event_hook env1 .DMTCP_EVENT_RESTART s).eventType = .PROFILER_EVENT_TYPE_NONE ∧
      ((event_hook env1 .DMTCP_EVENT_RESTART s).exited = true
        ↔ s.exitOnCheckpointRestart = true) ∧
      (event_hook env2 .DMTCP_EVENT_RESUME (event_hook env1 .DMTCP_EVENT_RESTART s)).calls
        = (event_hook env1 .DMTCP_EVENT_RESTART s).calls ++
            [.write s.outputFileFD (.message "DMTCP_EVENT_RESUME\n"),
             .write s.outputFileFD (.unknownEvent 0)]) ∧
    ((event_hook env2 .DMTCP_EVENT_RESUME (event_hook env1 .DMTCP_EVENT_PRECHECKPOINT s)).calls
        = (event_hook env1 .DMTCP_EVENT_PRECHECKPOINT s).calls ++
            [.write s.outputFileFD (.message "DMTCP_EVENT_RESUME\n"),
             .write s.outputFileFD (.checkpointTook env1.now env2.now)] ++
            (if s.exitOnCheckpointRestart = true then [.exit] else [])) ∧
    (((event_hook env1 .DMTCP_EVENT_RESUME s).exited = true
        ↔ (s.exitOnCheckpointRestart = true ∧
            s.eventType = .PROFILER_EVENT_TYPE_CHECKPOINT)) ∧
      ((event_hook env1 .DMTCP_EVENT_RESUME s).exited = false →
        (event_hook env1 .DMTCP_EVENT_RESUME s).eventType = .PROFILER_EVENT_TYPE_NONE)) ∧
    (∀ (t : Profiler) (env : ProfilerEnv) (event : DmtcpEvent),
      t.pid ≠ -1 → env.getpid ≠ t.pid → event_hook env event t = t) := by
  have hinv := runEvents_invariant evs profilerStart (by decide) (by simp [profilerStart])
  rw [← hs] at hinv
  have hother : ∀ (t : Profiler) (env : ProfilerEnv) (event : DmtcpEvent),
      t.pid ≠ -1 → env.getpid ≠ t.pid → event_hook env event t = t := by
    intro t env event h1 h2
    unfold event_hook
    rw [if_neg h1, if_pos (Ne.symm h2)]
  have htype : s.eventType = .PROFILER_EVENT_TYPE_NONE ∨
      s.eventType = .PROFILER_EVENT_TYPE_CHECKPOINT := by
    have := hinv.1
    cases h : s.eventType <;> simp_all
  refine ⟨htype, hinv.2, ?_, ?_, ?_, hother⟩
  · rcases hpid with hp | hp
    · by_cases hk : s.exitOnCheckpointRestart = true <;>
        simp [event_hook, eventSwitch, hp, hk, hreal, hsame, hlive, profiler_event_type.toInt]
    · by_cases hk : s.exitOnCheckpointRestart = true <;>
        simp [event_hook, eventSwitch, hp, hk, hreal, hsame, hlive, profiler_event_type.toInt]
  · rcases hpid with hp | hp
    · by_cases hk : s.exitOnCheckpointRestart = true <;>
        simp [event_hook, eventSwitch, hp, hk, hreal, hsame]
    · by_cases hk : s.exitOnCheckpointRestart = true <;>
        simp [event_hook, eventSwitch, hp, hk, hreal, hsame]
  · rcases hpid with hp | hp
    · by_cases hk : s.exitOnCheckpointRestart = true <;>
        rcases htype with ht | ht <;>
        simp [event_hook, eventSwitch, hp, hk, ht, hreal, hlive]
    · by_cases hk : s.exitOnCheckpointRestart = true <;>
        rcases htype with ht | ht <;>
        simp [event_hook, eventSwitch, hp, hk, ht, hreal, hlive]

/-- C20, an example: after INIT in the process 10, a PRECHECKPOINT at the time
1 and a RESUME at the time 3 write "DMTCP_EVENT_RESUME" and a "Checkpoint
took" line for the time from 1 to 3. -/
theorem event_hook_state_machine_witness :
    (runEvents [(profEnv 10 0 false, .DMTCP_EVENT_INIT)] profilerStart).exited = false ∧
    ((runEvents [(profEnv 10 0 false, .DMTCP_EVENT_INIT)] profilerStart).pid = -1 ∨
      (runEvents [(profEnv 10 0 false, .DMTCP_EVENT_INIT)] profilerStart).pid
        = (profEnv 10 1 false).getpid) ∧
    (profEnv 10 1 false).getpid ≠ -1 ∧
    (profEnv 10 3 false).getpid = (profEnv 10 1 false).getpid ∧
    (event_hook (profEnv 10 3 false) .DMTCP_EVENT_RESUME
      (event_hook (profEnv 10 1 false) .DMTCP_EVENT_PRECHECKPOINT
        (runEvents [(profEnv 10 0 false, .DMTCP_EVENT_INIT)] profilerStart))).calls
      = [.printf (.pids 10 1), .open "/tmp/DMTCP_profile.out",
         .printf (.loggingTo "/tmp/DMTCP_profile.out"),
         .write 3 (.message "DMTCP_EVENT_PRECHECKPOINT\n"),
         .write 3 (.message "DMTCP_EVENT_RESUME\n"),
         .write 3 (.checkpointTook 1 3)] :=
  ⟨by decide, by decide, by decide, by decide,
    (event_hook_state_machine [(profEnv 10 0 false, .DMTCP_EVENT_INIT)] (profEnv 10 1 false)
      (profEnv 10 3 false) _ rfl (by decide) (by decide) (by decide)
      (by decide)).2.2.2.1.trans (by decide)⟩

/-- C20 as stated fails: with `DMTCP_PROFILER_KILL` set, the RESUME that
follows a PRECHECKPOINT calls `exit` and does not reset the recorded event
type, which stays CHECKPOINT. -/
theorem event_hook_state_machine_counterexample :
    (event_hook (profEnv 10 3 true) .DMTCP_EVENT_RESUME
      (runEvents [(profEnv 10 0 true, .DMTCP_EVENT_INIT),
        (profEnv 10 1 true, .DMTCP_EVENT_PRECHECKPOINT)] profilerStart)).eventType
      = .PROFILER_EVENT_TYPE_CHECKPOINT ∧
    (event_hook (profEnv 10 3 true) .DMTCP_EVENT_RESUME
      (runEvents [(profEnv 10 0 true, .DMTCP_EVENT_INIT),
        (profEnv 10 1 true, .DMTCP_EVENT_PRECHECKPOINT)] profilerStart)).calls.getLast?
      = some .exit := by
  decide

end Dmtcp
